import Mathlib

/-!
# Verification of the npm-run-all-next execution engine

A shallow embedding, in Lean 4, of the task-running engine of the
`npm-run-all-next` repository, together with theorems settling the claims of
its natural-language specification.

Conventions used throughout:

* JavaScript numbers that are exit codes, retry counters etc. are modelled as
  `Int` (they are integers in every observable run); `undefined`/`null` numeric
  fields are modelled as `Option Int` with `none` for `undefined`.
* Promise-based control flow is modelled with explicit state passing.  The
  JavaScript engine processes one macrotask (a child-process `close`/`error`
  event) at a time and then drains its microtask queue to quiescence; the
  embedding mirrors this: one "drain" is a deterministic state transformation
  and the nondeterminism of the scheduler is exactly the order in which child
  processes deliver their events.
* Output streams, ANSI coloring of engine log lines, and the message texts of
  aggregated error objects are not observable through any claim; stream
  plumbing is therefore not carried in the state.  All control flow is.
-/

namespace NpmRunAll

/-- A `TaskResult` record (`{name, code, retries, durationMs}`) as built by
`runTasks` in `lib/run-tasks.js`.  `code = none` models `code: undefined`.
`retries` is an `Int` because `lib/run-tasks.js` can record `-1` (the
`lastAttempt--` path of `attemptRun`). -/
structure RItem where
  name : String
  code : Option Int
  retries : Int
  durationMs : Nat
deriving Repr, DecidableEq

/-- The signal-name-to-number table `signals` of `lib/run-tasks.js`. -/
def signals : List (String × Int) :=
  [("SIGABRT", 6), ("SIGALRM", 14), ("SIGBUS", 10), ("SIGCHLD", 20),
   ("SIGCONT", 19), ("SIGFPE", 8), ("SIGHUP", 1), ("SIGILL", 4),
   ("SIGINT", 2), ("SIGKILL", 9), ("SIGPIPE", 13), ("SIGQUIT", 3),
   ("SIGSEGV", 11), ("SIGSTOP", 17), ("SIGTRAP", 5), ("SIGTSTP", 18),
   ("SIGTTIN", 21), ("SIGTTOU", 22), ("SIGUSR1", 30), ("SIGUSR2", 31)]

/-- `convert(signal)` of `lib/run-tasks.js`: signal name to exit-code number,
`0` when unknown (`signals[signal] || 0`). -/
def convert (signal : String) : Int :=
  match signals.lookup signal with
  | some n => n
  | none => 0

/-!
## Child supervisor: `lib/run-task.js`

`runTask` returns a promise with an extra `abort()` method.  The state below
captures the mutable closure of one `runTask` call:

* `cpLive` models `cp != null` (the child-process variable is nulled both by
  the `close`/`error` handlers and by `abort()`);
* `wasAborted` is the `wasAborted` flag;
* `resolved` is the resolution value `{task, code}` delivered by the `close`
  handler (`none` while pending), where the recorded code is
  `wasAborted ? 130 : code`;
* `rejected` is set by the `error` handler (spawn failure).
-/

structure RTState where
  cpLive : Bool
  wasAborted : Bool
  resolved : Option (Option Int)
  rejected : Bool
deriving Repr, DecidableEq

/-- The state of a fresh `runTask` call, right after `spawn`. -/
def rtInit : RTState :=
  { cpLive := true, wasAborted := false, resolved := none, rejected := false }

/-- `promise.abort()` of `lib/run-task.js`: when `cp != null`, set
`wasAborted`, issue the tree kill, and null out `cp`.  When `cp == null`
(already closed, or a previous abort) it is a no-op. -/
def rtAbort (s : RTState) : RTState :=
  if s.cpLive then { s with cpLive := false, wasAborted := true } else s

/-- The `cp.on('close', code)` handler: null out `cp` and resolve with
`{task, code: wasAborted ? 130 : code}`.  (A promise settles only once, hence
the guard on an already settled state.) -/
def rtClose (s : RTState) (raw : Option Int) : RTState :=
  if s.resolved.isSome || s.rejected then s
  else
    { s with
      cpLive := false
      resolved := some (if s.wasAborted then some 130 else raw) }

/-- The `cp.on('error')` handler: null out `cp` and reject. -/
def rtError (s : RTState) : RTState :=
  if s.resolved.isSome || s.rejected then s
  else { s with cpLive := false, rejected := true }

/-!
## CLI argument parsing: `bin/common/parse-cli-args.js`

The parser is a synchronous loop over `argv` mutating an `ArgumentSet`.
JavaScript's `Number` and `parseInt` are modelled for the integer literals the
CLI deals in (optional sign, decimal digits); a fractional or exotic literal
is mapped to `none` (NaN).  `process.env` reads are passed in as `CliEnv`.
-/

/-- Character-list helpers.  The embedding manipulates strings through their
underlying character lists so that every definition evaluates by `decide`. -/
def isSpaceChar (c : Char) : Bool :=
  c = ' ' ∨ c = '\t' ∨ c = '\n' ∨ c = '\r'

/-- Trim whitespace from both ends of a character list. -/
def trimChars (l : List Char) : List Char :=
  ((l.dropWhile isSpaceChar).reverse.dropWhile isSpaceChar).reverse

/-- Value of a digit run (the digits are already validated). -/
def digitsVal (l : List Char) : Nat :=
  l.foldl (fun acc c => acc * 10 + (c.toNat - 48)) 0

/-- Split off an optional leading sign. -/
def splitSign (l : List Char) : Int × List Char :=
  match l with
  | '-' :: r => (-1, r)
  | '+' :: r => (1, r)
  | _ => (1, l)

/-- `Number(s)` restricted to integer results: `""`/whitespace gives `0`,
signed decimal digit strings give their value, anything else is NaN (`none`).
(Fractional, hexadecimal and exponent literals are not modelled; no claim
exercises them.) -/
def jsNumber (s : String) : Option Int :=
  let t := trimChars s.data
  if t = [] then some 0
  else
    let (sign, ds) := splitSign t
    if ds ≠ [] ∧ ds.all Char.isDigit then some (sign * (digitsVal ds : Int))
    else none

/-- `parseInt(s, 10)`: after trimming, an optional sign followed by the longest
digit prefix; `none` (NaN) when no digit is found. -/
def jsParseInt (s : String) : Option Int :=
  let t := trimChars s.data
  let (sign, ds) := splitSign t
  let digits := ds.takeWhile Char.isDigit
  if digits = [] then none else some (sign * (digitsVal digits : Int))

/-- Split a character list at the first occurrence of `sep`. -/
def splitFirstChars (sep : Char) : List Char → Option (List Char × List Char)
  | [] => none
  | c :: r =>
    if c = sep then some ([], r)
    else
      match splitFirstChars sep r with
      | some (a, b) => some (c :: a, b)
      | none => none

/-- Split a string at the first occurrence of `sep`; `none` when absent. -/
def splitFirst (sep : Char) (s : String) : Option (String × String) :=
  match splitFirstChars sep s.data with
  | some (a, b) => some (String.mk a, String.mk b)
  | none => none

/-- The regular expression `OVERWRITE_OPTION = /^--([^:]+?):([^=]+?)(?:=(.+))?$/`:
package-scoped config overwrites `--PKG:VAR=VALUE` or `--PKG:VAR`.  Returns
`(pkg, variable, optional value)`. -/
def overwriteParse (arg : String) : Option (String × String × Option String) :=
  match arg.data with
  | '-' :: '-' :: bodyChars =>
    let body := String.mk bodyChars
    match splitFirst ':' body with
    | none => none
    | some (pkg, rest) =>
      if pkg = "" then none
      else
        match splitFirst '=' rest with
        | some (v, val) => if v ≠ "" ∧ val ≠ "" then some (pkg, v, some val) else none
        | none => if rest ≠ "" then some (pkg, rest, none) else none
  | _ => none

/-- The regular expression `CONFIG_OPTION = /^--([^=]+?)(?:=(.+))$/`:
run-time config variables `--KEY=VALUE`. -/
def configParse (arg : String) : Option (String × String) :=
  match arg.data with
  | '-' :: '-' :: bodyChars =>
    match splitFirst '=' (String.mk bodyChars) with
    | some (k, v) => if k ≠ "" ∧ v ≠ "" then some (k, v) else none
    | none => none
  | _ => none

/-- The regular expression `CONCAT_OPTIONS = /^-[clnprs]+$/` for clustered
short flags. -/
def isConcatShort (arg : String) : Bool :=
  match arg.data with
  | '-' :: rest =>
    rest ≠ [] ∧ rest.all (fun c => c ∈ (['c', 'l', 'n', 'p', 'r', 's'] : List Char))
  | _ => false

/-- Insert-or-replace in an association list (JS object assignment). -/
def assocPut {α β : Type} [DecidableEq α] (l : List (α × β)) (k : α) (v : β) :
    List (α × β) :=
  if l.any (fun p => p.1 = k) then
    l.map (fun p => if p.1 = k then (k, v) else p)
  else l ++ [(k, v)]

/-- One group of the parsed plan: `{parallel, patterns}`. -/
structure CliGroup where
  parallel : Bool
  patterns : List String
deriving Repr, DecidableEq

/-- The reads `parseCLIArgs` performs on `process.env`
(`npm_config_loglevel` and the `npm_package_config_*` variables distilled by
`createPackageConfig`). -/
structure CliEnv where
  loglevelSilent : Bool
  packageConfigInit : List ((String × String) × Option String)
deriving Repr, DecidableEq

/-- The `initialValues` record the three `bin/*/main.js` entry points pass to
`parseCLIArgs`. -/
structure CliInit where
  parallel : Option Bool
  retry : Option Int
  summary : Option Bool
deriving Repr, DecidableEq

/-- The mutable `ArgumentSet` of `bin/common/parse-cli-args.js`.
`aggregateOutput` has no constructor initializer in the source (it is
`undefined`, i.e. falsy, until `--aggregate-output` assigns it), modelled as
`false`. -/
structure ArgumentSet where
  config : List (String × String)
  continueOnError : Bool
  groups : List CliGroup
  maxParallel : Int
  npmPath : Option String
  packageConfig : List ((String × String) × Option String)
  printLabel : Bool
  printName : Bool
  race : Bool
  rest : List String
  silent : Bool
  singleMode : Bool
  retry : Int
  summary : Bool
  aggregateOutput : Bool
deriving Repr, DecidableEq

namespace ArgumentSet

/-- The `parallel` getter: `groups.some((g) => g.parallel)`. -/
def parallel (s : ArgumentSet) : Bool := s.groups.any (·.parallel)

/-- `addGroup(groups, initialValues)`. -/
def addGroup (s : ArgumentSet) (initPar : Option Bool) : ArgumentSet :=
  { s with groups := s.groups ++ [{ parallel := initPar.getD false, patterns := [] }] }

/-- Append a positional pattern to `lastGroup.patterns`. -/
def pushPattern (s : ArgumentSet) (arg : String) : ArgumentSet :=
  { s with
    groups :=
      match s.groups.reverse with
      | [] => s.groups
      | g :: gs => ((({ g with patterns := g.patterns ++ [arg] }) :: gs).reverse) }

/-- The `ArgumentSet` constructor. -/
def init (iv : Option CliInit) (singleMode : Bool) (env : CliEnv) : ArgumentSet :=
  let base : ArgumentSet :=
    { config := []
      continueOnError := false
      groups := []
      maxParallel := 0
      npmPath := none
      packageConfig := env.packageConfigInit
      printLabel := false
      printName := false
      race := false
      rest := []
      silent := env.loglevelSilent
      singleMode := singleMode
      retry := ((iv.bind (·.retry)).getD 0)
      summary := ((iv.bind (·.summary)).getD false)
      aggregateOutput := false }
  base.addGroup (iv.bind (·.parallel))

end ArgumentSet

/-- `overwriteConfig(config, packageName, variable, value)` (JS nested-object
assignment, flattened to a `(pkg, variable)`-keyed association list). -/
def overwriteConfigPut (cfg : List ((String × String) × Option String))
    (pkg v : String) (val : Option String) : List ((String × String) × Option String) :=
  assocPut cfg (pkg, v) val

/-- The switch body for a single clustered short flag (the recursive
`parseCLIArgsCore(set, arg.slice(1).split("").map(c => "-" + c))` call: every
expanded token is one of `-c -l -n -p -r -s`, each handled by its explicit
`case` without further recursion, so the inner loop is this fold). -/
def applyShortFlag (s : ArgumentSet) (c : Char) : Except String ArgumentSet :=
  match c with
  | 'c' => .ok { s with continueOnError := true }
  | 'l' => .ok { s with printLabel := true }
  | 'n' => .ok { s with printName := true }
  | 'r' => .ok { s with race := true }
  | 'p' =>
    if s.singleMode then .error "Invalid Option: -p"
    else .ok (s.addGroup (some true))
  | 's' =>
    if s.singleMode then .ok { s with silent := true }
    else .ok (s.addGroup (some false))
  | _ => .error "unreachable: CONCAT_OPTIONS only admits clnprs"

/-- The validations at the end of `parseCLIArgsCore` (they also run at the end
of the recursive call for clustered flags); `argsForMsg` is the `args` array of
that call, consulted only to choose `--race` vs `-r` in the message. -/
def endChecks (s : ArgumentSet) (argsForMsg : List String) :
    Except String ArgumentSet :=
  if ¬s.parallel ∧ s.aggregateOutput then
    .error "Invalid Option: --aggregate-output (without parallel)"
  else if ¬s.parallel ∧ s.race then
    .error ("Invalid Option: " ++
      (if argsForMsg.contains "--race" then "--race" else "-r") ++
      " (without parallel)")
  else if ¬s.parallel ∧ s.maxParallel ≠ 0 then
    .error "Invalid Option: --max-parallel (without parallel)"
  else .ok s

/-- The main `LOOP` of `parseCLIArgsCore`, one constructor case per `case`
label, consuming value arguments (`args[++i]`) from the list head. -/
def parseLoop (s : ArgumentSet) : List String → Except String ArgumentSet
  | [] => .ok s
  | arg :: rest =>
    if arg = "--" then .ok { s with rest := rest }
    else if arg = "--color" ∨ arg = "--no-color" then parseLoop s rest
    else if arg = "-c" ∨ arg = "--continue-on-error" then
      parseLoop { s with continueOnError := true } rest
    else if arg = "-l" ∨ arg = "--print-label" then
      parseLoop { s with printLabel := true } rest
    else if arg = "-n" ∨ arg = "--print-name" then
      parseLoop { s with printName := true } rest
    else if arg = "-r" ∨ arg = "--race" then
      parseLoop { s with race := true } rest
    else if arg = "--retry" then
      -- set.retry = Number(args[++i]) || 0  (no validation, silent coercion)
      match rest with
      | v :: rest2 => parseLoop { s with retry := (jsNumber v).getD 0 } rest2
      | [] => .ok { s with retry := 0 }   -- i advanced past the end; loop ends
    else if arg = "--summary" then parseLoop { s with summary := true } rest
    else if arg = "--silent" then parseLoop { s with silent := true } rest
    else if arg = "--max-parallel" then
      match rest with
      | v :: rest2 =>
        match jsParseInt v with
        | some m =>
          if m ≤ 0 then .error ("Invalid Option: --max-parallel " ++ v)
          else parseLoop { s with maxParallel := m } rest2
        | none => .error ("Invalid Option: --max-parallel " ++ v)
      | [] => .error "Invalid Option: --max-parallel undefined"
    else if arg = "-s" ∨ arg = "--sequential" ∨ arg = "--serial" then
      if s.singleMode ∧ arg = "-s" then parseLoop { s with silent := true } rest
      else if s.singleMode then .error ("Invalid Option: " ++ arg)
      else parseLoop (s.addGroup (some false)) rest
    else if arg = "--aggregate-output" then
      parseLoop { s with aggregateOutput := true } rest
    else if arg = "-p" ∨ arg = "--parallel" then
      if s.singleMode then .error ("Invalid Option: " ++ arg)
      else parseLoop (s.addGroup (some true)) rest
    else if arg = "--npm-path" then
      match rest with
      | v :: rest2 =>
        parseLoop { s with npmPath := if v = "" then none else some v } rest2
      | [] => .ok { s with npmPath := none }   -- loop ends
    else
      match overwriteParse arg with
      | some (pkg, v, some val) =>
        parseLoop { s with packageConfig := overwriteConfigPut s.packageConfig pkg v (some val) } rest
      | some (pkg, v, none) =>
        -- value taken from args[++i] (possibly absent, i.e. undefined)
        match rest with
        | w :: rest2 =>
          parseLoop { s with packageConfig := overwriteConfigPut s.packageConfig pkg v (some w) } rest2
        | [] =>
          .ok { s with packageConfig := overwriteConfigPut s.packageConfig pkg v none }   -- loop ends
      | none =>
        match configParse arg with
        | some (k, v) => parseLoop { s with config := assocPut s.config k v } rest
        | none =>
          if isConcatShort arg then
            match (arg.data.drop 1).foldlM applyShortFlag s with
            | .ok s2 =>
              match endChecks s2 ((arg.data.drop 1).map (fun c => String.mk ['-', c])) with
              | .ok s3 => parseLoop s3 rest
              | .error e => .error e
            | .error e => .error e
          else if arg.data.head? = some '-' then .error ("Invalid Option: " ++ arg)
          else parseLoop (s.pushPattern arg) rest

/-- `parseCLIArgsCore(set, args)`. -/
def parseCLIArgsCore (s : ArgumentSet) (args : List String) :
    Except String ArgumentSet :=
  match parseLoop s args with
  | .ok s2 => endChecks s2 args
  | .error e => .error e

/-- `parseCLIArgs(args, initialValues, options)` of
`bin/common/parse-cli-args.js`. -/
def parseCLIArgs (env : CliEnv) (args : List String) (iv : Option CliInit)
    (singleMode : Bool) : Except String ArgumentSet :=
  parseCLIArgsCore (ArgumentSet.init iv singleMode env) args

/-- The `--retry` extraction of the alternative `bin/common/bootstrap.js`
variant: find the first `-r`/`--retry`, then
`retryCount = parseInt(argv[retryIndex + 1], 10) || 0` (silent coercion,
never an error). -/
def bootstrapRetryOf (argv : List String) : Int :=
  match argv.findIdx? (fun a => a = "-r" ∨ a = "--retry") with
  | none => 0
  | some i =>
    match argv.get? (i + 1) with
    | some v => (jsParseInt v).getD 0
    | none => 0

/-!
## Summary renderer

The repository carries two renderers:

* the string-returning `printSummaryTable` (required by the current
  `runTasks`, asserted by `test/print-summary.js`), which renders a code of
  130 as `130 (Killed)` and colors rows with `ansi-styles`;
* `lib/print-summary.js`, which logs the table to the console and renders the
  code cell as plain `String(code)` with no `(Killed)` suffix and no colors.

`(durationMs / 1000).toFixed(2)` is modelled by exact decimal rounding,
half away from zero: for a `durationMs` that is not an exact half of a
hundredth of a second (`durationMs % 10 ≠ 5`) this agrees with the IEEE-754
evaluation the JavaScript engine performs; exact halves may round either way
in JavaScript depending on the binary representation.
-/

/-- Decimal digit character. -/
def digitChar (n : Nat) : Char := Char.ofNat (48 + n % 10)

/-- Decimal digits of a natural number (fuel-based so that it evaluates by
`decide`); `natCharsAux (n+1) n` always has enough fuel. -/
def natCharsAux : Nat → Nat → List Char
  | 0, _ => []
  | f + 1, n => if n < 10 then [digitChar n] else natCharsAux f (n / 10) ++ [digitChar (n % 10)]

/-- `String(n)` for a natural number. -/
def jsStringOfNat (n : Nat) : String := String.mk (natCharsAux (n + 1) n)

/-- `String(i)` for an integer. -/
def jsStringOfInt (i : Int) : String :=
  if i < 0 then "-" ++ jsStringOfNat (-i).toNat else jsStringOfNat i.toNat

/-- `String(code)` where `code` may be `undefined`. -/
def jsStringOfCode (c : Option Int) : String :=
  match c with
  | some i => jsStringOfInt i
  | none => "undefined"

/-- `(durationMs / 1000).toFixed(2)`: seconds with exactly two decimal digits,
rounding `durationMs / 10` milliseconds-of-hundredths half away from zero. -/
def toFixed2 (ms : Nat) : String :=
  let h := (ms + 5) / 10
  jsStringOfNat (h / 100) ++ "." ++ String.mk [digitChar (h / 10 % 10), digitChar (h % 10)]

/-- `s.padEnd(w)` (also `padEnd(s, w)` via `string.prototype.padend`). -/
def padEndStr (s : String) (w : Nat) : String :=
  s ++ String.mk (List.replicate (w - s.data.length) ' ')

/-- `'-'.repeat(w)`-style helper. -/
def repeatChar (c : Char) (w : Nat) : String := String.mk (List.replicate w c)

/-- `a.includes(b)` on strings (substring containment). -/
def strIncludes (hay needle : String) : Bool :=
  let rec go : List Char → Bool
    | [] => needle.data.isPrefixOf []
    | c :: r => needle.data.isPrefixOf (c :: r) || go r
  go hay.data

/-- The headers common to both renderers. -/
def summaryHeaders : List String := ["Task", "FinalExitCode", "Retries", "Time(s)"]

/-- A row of the string-returning renderer:
`code = code == 130 ? code + ' (Killed)' : code`, then
`[name, String(code), String(retries), (durationMs/1000).toFixed(2)]`. -/
def summaryRow009 (r : RItem) : List String :=
  let codeCell := if r.code = some 130 then "130 (Killed)" else jsStringOfCode r.code
  [r.name, codeCell, jsStringOfInt r.retries, toFixed2 r.durationMs]

/-- A row of `lib/print-summary.js`:
`[name, String(code), String(retries), (durationMs/1000).toFixed(2)]`
(no `(Killed)` suffix). -/
def summaryRowLib (r : RItem) : List String :=
  [r.name, jsStringOfCode r.code, jsStringOfInt r.retries, toFixed2 r.durationMs]

/-- Column widths: the max of the header and every cell of that column. -/
def summaryColWidths (rows : List (List String)) : List Nat :=
  (List.range summaryHeaders.length).map fun i =>
    ((summaryHeaders :: rows).map fun row => ((row.getD i "").data.length)).foldl max 0

/-- One padded table line `| c1 | c2 | ... |`. -/
def summaryLine (widths : List Nat) (cells : List String) : String :=
  "|" ++ String.intercalate "|"
      ((List.range widths.length).map fun i =>
        " " ++ padEndStr (cells.getD i "") (widths.getD i 0) ++ " ") ++ "|"

/-- ANSI open/close pairs from `ansi-styles` used by the string renderer. -/
def ansiWhite : String × String := ("\x1b[37m", "\x1b[39m")

/-- `ansiStyles.gray`. -/
def ansiGray : String × String := ("\x1b[90m", "\x1b[39m")

/-- `ansiStyles.red`. -/
def ansiRed : String × String := ("\x1b[31m", "\x1b[39m")

/-- Row coloring of the string renderer: white when `row[1] == 0` (loose
equality, true exactly for the cell `"0"` among the renderable cells), gray
when `row[1].includes('130')`, red otherwise. -/
def colorRow009 (row : List String) (rowString : String) : String :=
  let cell := row.getD 1 ""
  if cell = "0" then ansiWhite.1 ++ rowString ++ ansiWhite.2
  else if strIncludes cell "130" then ansiGray.1 ++ rowString ++ ansiGray.2
  else ansiRed.1 ++ rowString ++ ansiRed.2

/-- The string-returning `printSummaryTable` (the variant whose return value
`runTasks` writes to `options.stdout`). -/
def printSummaryTable009 (results : List RItem) : String :=
  let rows := results.map summaryRow009
  let widths := summaryColWidths rows
  let divider := "+" ++ String.intercalate "+" (widths.map fun w => repeatChar '-' (w + 2)) ++ "+"
  let totalInner := divider.data.length - 2
  let headerLine := summaryLine widths summaryHeaders
  let separator :=
    "|" ++ String.intercalate "|" (widths.map fun w => " " ++ repeatChar '-' w ++ " ") ++ "|"
  "\n" ++ divider ++ "\n" ++
    ("|" ++ " Summary" ++ repeatChar ' ' (totalInner - " Summary".data.length) ++ "|") ++ "\n" ++
    divider ++ "\n" ++ headerLine ++ "\n" ++ separator ++ "\n" ++
    String.intercalate ""
      (rows.map fun row => colorRow009 row (summaryLine widths row) ++ "\n") ++
    divider

/-- The `console.log` lines of `lib/print-summary.js` (uncolored; the code
cell is plain `String(code)`). -/
def printSummaryLibLines (results : List RItem) : List String :=
  let rows := results.map summaryRowLib
  let widths := summaryColWidths rows
  let divider := "+" ++ String.intercalate "+" (widths.map fun w => repeatChar '-' (w + 2)) ++ "+"
  let totalInner := divider.data.length - 2
  let headerLine := summaryLine widths summaryHeaders
  let separator :=
    "|" ++ String.intercalate "|" (widths.map fun w => " " ++ repeatChar '-' w ++ " ") ++ "|"
  ["\n" ++ divider,
   "|" ++ " " ++ "Summary" ++ repeatChar ' ' (totalInner - "Summary".data.length) ++ "|",
   divider, headerLine, separator] ++
    (rows.map fun row => summaryLine widths row) ++ [divider]

/-!
## Library entry point: `npmRunAll` (`lib/index.js`)

The synchronous prelude of `npmRunAll`: pattern normalization, placeholder
substitution (`ARGS_PATTERN = /\x7b(!)?([*@]|\d+)([^\x7d]+)?\x7d/g`), and the
option validations, up to the point where the function either resolves with
`null`, rejects, or goes on to read the manifest and run the tasks.
`shell-quote`'s `quote` is an external collaborator and is passed in as a
function parameter. -/

/-- Parsed placeholder: the optional `!` indirection mark, the id
(`*`, `@`, or a digit run), the optional options part, and the whole matched
source text (for error messages). -/
inductive PhId
  | star
  | at
  | num (digits : List Char)
deriving Repr, DecidableEq

/-- One `ARGS_PATTERN` match. -/
structure PH where
  bang : Bool
  id : PhId
  opts : Option (List Char)
  whole : List Char
deriving Repr, DecidableEq

/-- Try to parse an `ARGS_PATTERN` match at the head of the character list;
returns the match and the remaining suffix. -/
def matchPH : List Char → Option (PH × List Char)
  | '{' :: r1 =>
    let (bang, r2) : Bool × List Char :=
      match r1 with
      | '!' :: t => (true, t)
      | _ => (false, r1)
    let idAndRest : Option (PhId × List Char) :=
      match r2 with
      | '*' :: r3 => some (.star, r3)
      | '@' :: r3 => some (.at, r3)
      | _ =>
        let ds := r2.takeWhile Char.isDigit
        if ds = [] then none else some (.num ds, r2.drop ds.length)
    match idAndRest with
    | none => none
    | some (pid, r3) =>
      let os := r3.takeWhile (fun c => c ≠ '}')
      match r3.drop os.length with
      | '}' :: rest =>
        let idChars : List Char :=
          match pid with
          | .star => ['*']
          | .at => ['@']
          | .num ds => ds
        some ({ bang := bang, id := pid
                opts := if os = [] then none else some os
                whole := ['{'] ++ (if bang then ['!'] else []) ++ idChars ++ os ++ ['}'] },
              rest)
      | _ => none
  | _ => none

/-- `ARGS_PATTERN.test(pattern)`: does any position of the string start an
`ARGS_PATTERN` match? -/
def hasPHChars : List Char → Bool
  | [] => false
  | c :: r => (matchPH (c :: r)).isSome || hasPHChars r

/-- String wrapper for `hasPHChars`. -/
def hasArgsPlaceholder (s : String) : Bool := hasPHChars s.data

/-- The replacement callback of `applyArguments` for one match, also threading
the `defaults` table (`\x7bn:=default\x7d` remembers its value). -/
def phReplace (quote : List String → String) (args : List String)
    (defaults : List (String × String)) (p : PH) :
    Except String (String × List (String × String)) :=
  if p.bang then .error ("Invalid Placeholder: " ++ String.mk p.whole)
  else
    match p.id with
    | .at => .ok (quote args, defaults)
    | .star => .ok (quote [String.intercalate " " args], defaults)
    | .num ds =>
      let position := digitsVal ds
      if 1 ≤ position ∧ position ≤ args.length then
        .ok (quote [args.getD (position - 1) ""], defaults)
      else
        match p.opts with
        | some os =>
          match os with
          | ':' :: '=' :: restOpt =>
            let v := quote [String.mk restOpt]
            .ok (v, assocPut defaults (String.mk ds) v)
          | ':' :: '-' :: restOpt => .ok (quote [String.mk restOpt], defaults)
          | _ => .error ("Invalid Placeholder: " ++ String.mk p.whole)
        | none =>
          match defaults.lookup (String.mk ds) with
          | some v => .ok (v, defaults)
          | none => .ok ("", defaults)

/-- `pattern.replace(ARGS_PATTERN, callback)`: left-to-right, non-overlapping.
The fuel is the length of the scanned list (every step strictly shortens
it). -/
def replaceAllAux (quote : List String → String) (args : List String) :
    Nat → List Char → List (String × String) →
      Except String (List Char × List (String × String))
  | _, [], d => .ok ([], d)
  | 0, l, d => .ok (l, d)
  | f + 1, c :: r, d =>
    match matchPH (c :: r) with
    | some (p, rest) =>
      match phReplace quote args d p with
      | .error e => .error e
      | .ok (rep, d2) =>
        match replaceAllAux quote args f rest d2 with
        | .error e => .error e
        | .ok (out, d3) => .ok (rep.data ++ out, d3)
    | none =>
      match replaceAllAux quote args f r d with
      | .error e => .error e
      | .ok (out, d2) => .ok (c :: out, d2)

/-- `applyArguments(patterns, args)`: one shared `defaults` table across all
patterns; throws (`Except.error`) on `Invalid Placeholder`. -/
def applyArgumentsE (quote : List String → String) (patterns args : List String) :
    Except String (List String) :=
  let step := fun (acc : List String × List (String × String)) (pat : String) =>
    match replaceAllAux quote args pat.data.length pat.data acc.2 with
    | .error e => Except.error e
    | .ok (out, d2) => Except.ok (acc.1 ++ [String.mk out], d2)
  (patterns.foldlM step ([], [])).map (·.1)

/-- The `patternOrPatterns` argument: a string, an array, `null` or
`undefined`. -/
inductive PatternsArg
  | nullv
  | undef
  | single (s : String)
  | list (l : List String)
deriving Repr, DecidableEq

/-- `toArray(x)`. -/
def toArray (x : PatternsArg) : List String :=
  match x with
  | .nullv => []
  | .undef => []
  | .single s => [s]
  | .list l => l

/-- `parsePatterns(patternOrPatterns, args)`. -/
def parsePatternsE (quote : List String → String) (x : PatternsArg)
    (args : List String) : Except String (List String) :=
  let patterns := toArray x
  if patterns.any hasArgsPlaceholder then applyArgumentsE quote patterns args
  else .ok patterns

/-- The `taskList` option: absent, present but not an array (invalid), or an
array of script names. -/
inductive TaskListOpt
  | absent
  | notArray
  | arr (l : List String)
deriving Repr, DecidableEq

/-- The option bag of the library `npmRunAll` entry point.  Number-valued
options are modelled as `Option Int` (`none` = absent/undefined); stream
options are not observable through the prelude outcome and are omitted. -/
structure NpmOptions where
  silent : Bool
  aggregateOutput : Bool
  printLabel : Bool
  printName : Bool
  taskList : TaskListOpt
  config : Option (List (String × String))
  packageConfig : Option (List ((String × String) × Option String))
  argumentsList : List String
  parallel : Bool
  continueOnError : Bool
  race : Bool
  maxParallel : Option Int
  npmPath : Option String
  retry : Option Int
  summary : Bool

/-- `toOverwriteOptions(config)`. -/
def toOverwriteOptions (cfg : List ((String × String) × Option String)) :
    List String :=
  cfg.map fun e => "--" ++ e.1.1 ++ ":" ++ e.1.2 ++ "=" ++ (e.2.getD "undefined")

/-- `toConfigOptions(config)`. -/
def toConfigOptions (cfg : List (String × String)) : List String :=
  cfg.map fun e => "--" ++ e.1 ++ "=" ++ e.2

/-- How the synchronous prelude of `npmRunAll` ends: resolving with `null`,
rejecting with an error message, or proceeding to read the manifest and run
the matched tasks with the given prefix options. -/
inductive PreludeOutcome
  | resolvedNull
  | rejected (msg : String)
  | runs (patterns : List String) (prefixOptions : List String)
deriving Repr, DecidableEq

/-- The prelude of the current `npmRunAll` (`lib/index.js`): the empty-pattern
check comes first, before `taskList`/`maxParallel`/`retry`/`aggregateOutput`/
`race` validation and before any manifest read. -/
def npmRunAllPrelude (quote : List String → String) (pat : PatternsArg)
    (o : NpmOptions) : PreludeOutcome :=
  match parsePatternsE quote pat o.argumentsList with
  | .error msg => .rejected msg
  | .ok patterns =>
    if patterns.length = 0 then .resolvedNull
    else if o.taskList = .notArray then .rejected "Invalid options.taskList"
    else
      let maxParallel : Int := if o.parallel then (o.maxParallel.getD 0) else 1
      if maxParallel < 0 then .rejected "Invalid options.maxParallel"
      else
        let retry : Int := o.retry.getD 0
        if retry < 0 then .rejected "Invalid options.retry"
        else if ¬o.parallel ∧ o.aggregateOutput then
          .rejected "Invalid options.aggregateOutput; It requires parallel"
        else if ¬o.parallel ∧ o.race then
          .rejected "Invalid options.race; It requires parallel"
        else
          .runs patterns
            ((if o.silent then ["--silent"] else []) ++
              (match o.packageConfig with
               | some c => toOverwriteOptions c
               | none => []) ++
              (match o.config with
               | some c => toConfigOptions c
               | none => []))

/-- The prelude of the older `npmRunAll` variant (no `retry` validation);
the empty-pattern check is likewise first. -/
def npmRunAllPreludeOld (quote : List String → String) (pat : PatternsArg)
    (o : NpmOptions) : PreludeOutcome :=
  match parsePatternsE quote pat o.argumentsList with
  | .error msg => .rejected msg
  | .ok patterns =>
    if patterns.length = 0 then .resolvedNull
    else if o.taskList = .notArray then .rejected "Invalid options.taskList"
    else
      let maxParallel : Int := if o.parallel then (o.maxParallel.getD 0) else 1
      if maxParallel < 0 then .rejected "Invalid options.maxParallel"
      else if ¬o.parallel ∧ o.aggregateOutput then
        .rejected "Invalid options.aggregateOutput; It requires parallel"
      else if ¬o.parallel ∧ o.race then
        .rejected "Invalid options.race; It requires parallel"
      else
        .runs patterns
          ((if o.silent then ["--silent"] else []) ++
            (match o.packageConfig with
             | some c => toOverwriteOptions c
             | none => []) ++
            (match o.config with
             | some c => toConfigOptions c
             | none => []))

/-!
## Group executor: `runTasks` (`lib/run-tasks.js`)

The engine is single-threaded: each child-process `close`/`error` event is a
macrotask, and all microtasks it triggers (the resumption of the parked
`await rt` inside `attemptRun`, the promise's `.then`/`.catch` handler, any
synchronous `next()` work, and the `Promise.allSettled(...).then(done)`
continuation) run to quiescence before the next event.  One such "drain" is
the deterministic function `drainEv`; a schedule (the order and outcomes of
child events) is a list of `(task index, ChildEv)` pairs.

State notes, keyed to the source:

* `nextIdx` represents the FIFO `queue` (the queue only ever shifts, and its
  contents are `tasks.map((name, idx) => ...)`, so the number of entries
  consumed determines it);
* the `promises` array always consists of exactly the runners in an
  `awaiting` state (a promise is pushed when `attemptRun` parks on its first
  `await` and removed at the top of its settle handler, which runs in the
  same drain in which the runner leaves `awaiting`), so it is not duplicated
  in the state;
* `spawns` and `completed` count `runTask` calls and completed awaits per
  task (bookkeeping used by the theorems; the source has no counters);
* `Date.now()` is abstracted to a tick counter advanced once per drain;
* the message texts of `NpmRunAllError` are elided: `RunErr` keeps the
  `{name, code}` payload, with `name = none` standing for the combined
  `Error` object built in the second-failure branch;
* `printSummaryTable` writes are side effects on a stream and are not part
  of the state.
-/

/-- `NpmRunAllError`'s `{name, code}` payload. -/
structure RunErr where
  name : Option String
  code : Option Int
deriving Repr, DecidableEq

/-- One child process handle owned by the current attempt of a runner:
`cpLive` models the `cp` variable of `runTask` being non-null, `wasAborted`
its kill flag. -/
structure ChildSt where
  cpLive : Bool
  wasAborted : Bool
deriving Repr, DecidableEq

/-- How an `attemptRun` promise settled (bookkeeping for the theorems):
`success` is the in-loop `resolve({code: 0, ...})`; `contExhaust` the
post-loop `resolve` under `continueOnError`; `rejExhaust` the post-loop
`reject`.  `broke` records whether the loop was left through an
`if (aborted) ... break`. -/
inductive SettleVia
  | success
  | contExhaust (broke : Bool)
  | rejExhaust (broke : Bool)
deriving Repr, DecidableEq

/-- The control state of one task's `attemptRun`. -/
inductive RunnerSt
  | notStarted
  | awaiting (attempt : Nat) (child : ChildSt) (lastCode : Option Int)
      (lastSignal : Option String) (startTime : Nat)
  | settled (via : SettleVia) (retries : Int)
deriving Repr, DecidableEq

/-- Is the runner parked on an `await rt`? -/
def RunnerSt.isAwaiting : RunnerSt → Bool
  | .awaiting _ _ _ _ _ => true
  | _ => false

@[simp] theorem RunnerSt.isAwaiting_awaiting (k : Nat) (c : ChildSt) (lc : Option Int)
    (ls : Option String) (st : Nat) :
    (RunnerSt.awaiting k c lc ls st).isAwaiting = true := rfl

@[simp] theorem RunnerSt.isAwaiting_notStarted :
    (RunnerSt.notStarted).isAwaiting = false := rfl

@[simp] theorem RunnerSt.isAwaiting_settled (v : SettleVia) (r : Int) :
    (RunnerSt.settled v r).isAwaiting = false := rfl

/-- Per-task state: the slot of the `results` array plus the task's runner. -/
structure Slot where
  name : String
  item : RItem
  runner : RunnerSt
  spawns : Nat
  completed : Nat
deriving Repr, DecidableEq

/-- The engine state of one `runTasks` call. -/
structure EngineSt where
  slots : Nat → Slot
  nextIdx : Nat
  err : Option RunErr
  aborted : Bool
  allSettledPending : Bool
  finished : Option (Option RunErr × List RItem)
  time : Nat

/-- The options `runTasks` consults. -/
structure RunOpts where
  retry : Int
  continueOnError : Bool
  race : Bool
  maxParallel : Option Int
  parallelNum : Option Int
  summary : Bool
deriving Repr, DecidableEq

/-- `max = typeof options.parallel === 'number' && options.parallel > 0 ?
options.parallel : options.maxParallel`. -/
def maxOf (o : RunOpts) : Option Int :=
  match o.parallelNum with
  | some p => if 0 < p then some p else o.maxParallel
  | none => o.maxParallel

/-- `initial = typeof max === 'number' && max > 0 ?
Math.min(tasks.length, max) : tasks.length`. -/
def initialOf (n : Nat) (o : RunOpts) : Nat :=
  match maxOf o with
  | some m => if 0 < m then min n m.toNat else n
  | none => n

/-- A child-process event: a `close` with the raw exit code (`none` when the
process died to a signal), or a spawn `error` whose error object carries
`code` (when numeric) and `signal` (when a string). -/
inductive ChildEv
  | closeEv (raw : Option Int)
  | errorEv (code : Option Int) (signal : Option String)
deriving Repr, DecidableEq

/-- Point update of one slot. -/
def setSlot (s : EngineSt) (i : Nat) (f : Slot → Slot) : EngineSt :=
  { s with slots := fun j => if j = i then f (s.slots j) else s.slots j }

/-- JS truthiness test `!result.code` on an optional exit code. -/
def jsFalsyCode : Option Int → Bool
  | some 0 => true
  | none => true
  | _ => false

/-- Are any promises still in flight (`promises.length !== 0`)? -/
def anyAwaiting (n : Nat) (s : EngineSt) : Bool :=
  (List.range n).any fun i => (s.slots i).runner.isAwaiting

/-- `runTask`'s `abort()` applied to a child handle: when `cp` is live, mark
`wasAborted` and null `cp`; otherwise a no-op. -/
def killChild (c : ChildSt) : ChildSt :=
  if c.cpLive then ⟨false, true⟩ else c

/-- `p.abort()` of one in-flight attempt: kill the current child
(`runTask`'s `abort`). -/
def killSlot (sl : Slot) : Slot :=
  match sl.runner with
  | .awaiting k c lc ls st => { sl with runner := .awaiting k (killChild c) lc ls st }
  | _ => sl

/-- The current `results` array. -/
def itemsList (n : Nat) (s : EngineSt) : List RItem :=
  (List.range n).map fun i => (s.slots i).item

/-- `done()`: settle the outer promise once with the current `error` and
`results` (`error.results = results` just before rejecting). -/
def doneFn (n : Nat) (s : EngineSt) : EngineSt :=
  if s.finished.isSome then s
  else { s with finished := some (s.err, itemsList n s) }

/-- `abort()` of `runTasks` (the variant without the re-entry guard):
set `aborted`, and either finish at once (no promises in flight) or abort
every in-flight attempt and register `Promise.allSettled(...).then(done)`. -/
def abortCore (n : Nat) (s : EngineSt) : EngineSt :=
  let s1 := { s with aborted := true }
  if anyAwaiting n s1 then
    { s1 with slots := fun i => killSlot (s1.slots i), allSettledPending := true }
  else doneFn n s1

/-- `abort()` of the alternative `runTasks` variant, which starts with
`if (aborted) return`. -/
def abortGuarded (n : Nat) (s : EngineSt) : EngineSt :=
  if s.aborted then s else abortCore n s

/-- The `results = results.map(r => r.name === name ? {...r, code, retries,
durationMs} : r)` update of `attemptRun`'s reject path (note: it updates
every entry sharing the task's name). -/
def mapByName (s : EngineSt) (nm : String) (finalCode : Option Int)
    (lastAtt : Int) (dur : Nat) : EngineSt :=
  { s with
    slots := fun i =>
      let sl := s.slots i
      if sl.item.name = nm then
        { sl with item := { sl.item with code := finalCode, retries := lastAtt, durationMs := dur } }
      else sl }

/-- `error = ...` in the `.then` handler's non-zero branch: the first failure
keeps `{name: result.name, code}`; a second failure replaces it with an error
whose `name` is itself an `Error` object (modelled as `none`). -/
def mkErr (prev : Option RunErr) (nm : String) (code : Option Int) : RunErr :=
  match prev with
  | some _ => { name := none, code := code }
  | none => { name := some nm, code := code }

/-- One source-level `next()` call, including every further microtask it can
trigger synchronously in the same drain.  The fuel is `n - nextIdx` at the
call site; the recursion only continues through handler chains that have just
consumed a queue entry, so the fuel is never exhausted early. -/
def nextChainF (n : Nat) (o : RunOpts) : Nat → EngineSt → EngineSt
  | 0, s => if anyAwaiting n s then s else doneFn n s
  | fuel + 1, s =>
    if s.nextIdx < n then
      let idx := s.nextIdx
      let s1 := { s with nextIdx := idx + 1 }
      -- `attemptRun(name, index, opts)` runs synchronously up to its first await
      if 0 ≤ o.retry then
        -- loop iteration `attempt = 0`: `runTask` spawns a child
        let s2 := setSlot s1 idx fun sl => { sl with spawns := sl.spawns + 1 }
        if s2.aborted then
          -- `if (aborted) { lastAttempt--; childAbort(); break }`: the fresh
          -- child is killed; post-loop with lastAttempt = -1 and
          -- lastResult = {code: undefined, signal: null}
          let nm := (s2.slots idx).name
          if o.continueOnError then
            -- resolve({name, code: undefined, retries: -1, durationMs: 0});
            -- its .then handler is the next microtask:
            let s3 := setSlot s2 idx fun sl =>
              { sl with runner := .settled (.contExhaust true) (-1)
                        item := { name := sl.item.name, code := none, retries := -1, durationMs := 0 } }
            if o.race then abortCore n s3   -- `!result.code` is true for undefined
            else
              let s4 := { s3 with err := some (mkErr s3.err nm none) }
              nextChainF n o fuel s4        -- continueOnError: fall through to next()
          else
            -- reject path: `results.map` by name; the .catch handler then
            -- sees `aborted` and returns
            let s3 := mapByName s2 nm none (-1) 0
            setSlot s3 idx fun sl => { sl with runner := .settled (.rejExhaust true) (-1) }
        else
          -- park on `await rt`
          setSlot s2 idx fun sl =>
            { sl with runner := .awaiting 0 ⟨true, false⟩ none none s2.time }
      else
        -- maxRetries < 0: the `for` loop body never runs, no child is
        -- spawned; post-loop with lastAttempt = 0, lastResult = {code: undefined}
        let nm := (s1.slots idx).name
        if o.continueOnError then
          let s3 := setSlot s1 idx fun sl =>
            { sl with runner := .settled (.contExhaust false) 0
                      item := { name := sl.item.name, code := none, retries := 0, durationMs := 0 } }
          if o.race then abortCore n s3
          else
            let s4 := { s3 with err := some (mkErr s3.err nm none) }
            nextChainF n o fuel s4
        else
          let s3 := mapByName s1 nm none 0 0
          let s4 := setSlot s3 idx fun sl => { sl with runner := .settled (.rejExhaust false) 0 }
          if s4.aborted then s4
          else
            let s5 := { s4 with err := some { name := some nm, code := none } }
            abortCore n s5   -- `!continueOnError || race` holds
    else
      -- `if (queue.length === 0) { if (promises.length === 0) done(); return }`
      if anyAwaiting n s then s else doneFn n s

/-- The `.then` handler of an `attemptRun` promise (no `aborted` guard in
this variant): record the result slot, then race-abort, error bookkeeping, or
`next()`. -/
def handleResolve (n : Nat) (o : RunOpts) (idx : Nat) (rcode : Option Int)
    (rretries : Int) (rdur : Nat) (s : EngineSt) : EngineSt :=
  let s1 := setSlot s idx fun sl =>
    { sl with item := { name := sl.item.name, code := rcode, retries := rretries, durationMs := rdur } }
  if o.race ∧ jsFalsyCode rcode then abortCore n s1
  else if rcode ≠ some 0 then
    let nm := (s1.slots idx).name
    let s2 := { s1 with err := some (mkErr s1.err nm rcode) }
    if ¬o.continueOnError then abortCore n s2
    else nextChainF n o (n - s2.nextIdx) s2
  else nextChainF n o (n - s1.nextIdx) s1

/-- The `.catch` handler of an `attemptRun` promise. -/
def handleReject (n : Nat) (o : RunOpts) (e : RunErr) (s : EngineSt) : EngineSt :=
  if s.aborted then s
  else
    let s1 := { s with err := some e }
    if ¬o.continueOnError ∨ o.race then abortCore n s1
    else nextChainF n o (n - s1.nextIdx) s1

/-- The post-loop tail of `attemptRun` for a loop left in this drain (either
`attempt = maxRetries` exhausted, or an abort-break), followed by the settle
handler. -/
def postLoop (n : Nat) (o : RunOpts) (idx k : Nat) (newCode : Option Int)
    (newSig : Option String) (dur : Nat) (broke : Bool) (s : EngineSt) : EngineSt :=
  let nm := (s.slots idx).name
  if o.continueOnError then
    -- resolve({name, code: lastResult.code, retries: lastAttempt, durationMs})
    let s1 := setSlot s idx fun sl => { sl with runner := .settled (.contExhaust broke) (k : Int) }
    handleResolve n o idx newCode (k : Int) dur s1
  else
    -- finalCode = code ?? (signal ? 128 + convert(signal) : undefined)
    let finalCode : Option Int :=
      match newCode with
      | some c => some c
      | none =>
        match newSig with
        | some sg => some (128 + convert sg)
        | none => none
    let s1 := mapByName s nm finalCode (k : Int) dur
    let s2 := setSlot s1 idx fun sl => { sl with runner := .settled (.rejExhaust broke) (k : Int) }
    handleReject n o { name := some nm, code := finalCode } s2

/-- One drain: deliver a child event to the runner of task `idx` and run all
resulting microtasks to quiescence. -/
def drainEv (n : Nat) (o : RunOpts) (s0 : EngineSt) (ev : Nat × ChildEv) : EngineSt :=
  let s := { s0 with time := s0.time + 1 }
  let idx := ev.1
  let s2 :=
    match (s.slots idx).runner with
    | .awaiting k child _ _ startT =>
      -- the parked `await rt` resumes
      let newCode : Option Int :=
        match ev.2 with
        | .closeEv raw => if child.wasAborted then some 130 else raw
        | .errorEv c _ => some (c.getD 1)   -- typeof err.code === 'number' ? err.code : 1
      let newSig : Option String :=
        match ev.2 with
        | .closeEv _ => none
        | .errorEv _ sg => sg
      let dur := s.time - startT
      -- results[index].retries = attempt; results[index].durationMs = now - start
      let s3 := setSlot s idx fun sl =>
        { sl with completed := sl.completed + 1
                  item := { sl.item with retries := (k : Int), durationMs := dur } }
      if s3.aborted then
        -- `if (aborted) { childAbort(); break }` → post-loop, broke
        postLoop n o idx k newCode newSig dur true s3
      else if newCode = some 0 then
        -- `resolve({name, code: 0, retries: attempt, durationMs})`
        let s4 := setSlot s3 idx fun sl => { sl with runner := .settled .success (k : Int) }
        handleResolve n o idx (some 0) (k : Int) dur s4
      else if (k : Int) + 1 ≤ o.retry then
        -- next loop iteration: `runTask` spawns a fresh child
        setSlot s3 idx fun sl =>
          { sl with spawns := sl.spawns + 1
                    runner := .awaiting (k + 1) ⟨true, false⟩ newCode newSig startT }
      else
        postLoop n o idx k newCode newSig dur false s3
    | _ => s   -- orphan/settled child events have no observable effect
  -- `Promise.allSettled(promises).then(done)` fires at the end of the drain
  -- in which the last registered promise settled
  if s2.allSettledPending ∧ ¬anyAwaiting n s2 then doneFn n s2 else s2

/-- The `Promise.allSettled(...).then(done)` check at the end of a drain. -/
def endWrap (n : Nat) (s2 : EngineSt) : EngineSt :=
  if s2.allSettledPending ∧ ¬anyAwaiting n s2 then doneFn n s2 else s2

/-- The initial engine state of `runTasks(tasks, options)`. -/
def initEngine (tasks : List String) : EngineSt :=
  { slots := fun i =>
      let nm := tasks.getD i ""
      { name := nm
        item := { name := nm, code := none, retries := 0, durationMs := 0 }
        runner := .notStarted, spawns := 0, completed := 0 }
    nextIdx := 0, err := none, aborted := false, allSettledPending := false
    finished := none, time := 0 }

/-- `runTasks(tasks, options)` (current variant) driven by a schedule of child
events.  The model is exact for `0 ≤ retry` (with a negative retry limit the
initial `for` loop's handlers would interleave differently than sequential
chaining; no claim concerns a negative limit). -/
def runTasksV1 (tasks : List String) (o : RunOpts) (sched : List (Nat × ChildEv)) :
    EngineSt :=
  let n := tasks.length
  let s0 := initEngine tasks
  if n = 0 then { s0 with finished := some (none, []) }   -- resolve([])
  else
    let s1 := (fun s => nextChainF n o (n - EngineSt.nextIdx s) s)^[initialOf n o] s0
    sched.foldl (drainEv n o) s1

/-- The engine state while the single task of a one-task group is on its
`attempt`-th try (`j` failures delivered so far, child of the current attempt
in flight). -/
def c3Mid (t : String) (j : Nat) (lcv : Option Int) (r : Int) (d : Nat) : EngineSt :=
  { slots := fun i => if i = 0 then
      { name := t
        item := { name := t, code := none, retries := r, durationMs := d }
        runner := .awaiting j ⟨true, false⟩ lcv none 0
        spawns := j + 1, completed := j }
    else (initEngine [t]).slots i
    nextIdx := 1, err := none, aborted := false, allSettledPending := false
    finished := none, time := j }

/-- The engine state after the single task of a one-task group has exhausted
retry limit `N` (the last attempt exited with `cv`). -/
def c3Fin (t : String) (N : Nat) (cv : Int) : EngineSt :=
  { slots := fun i => if i = 0 then
      { name := t
        item := { name := t, code := some cv, retries := (N : Int), durationMs := N + 1 }
        runner := .settled (.rejExhaust false) (N : Int)
        spawns := N + 1, completed := N + 1 }
    else (initEngine [t]).slots i
    nextIdx := 1, err := some { name := some t, code := some cv }, aborted := true
    allSettledPending := false
    finished := some (some { name := some t, code := some cv },
      [{ name := t, code := some cv, retries := (N : Int), durationMs := N + 1 }])
    time := N + 1 }

/-!
### Helper lemmas about the engine primitives
-/

theorem killSlot_runner_isAwaiting (sl : Slot) :
    (killSlot sl).runner.isAwaiting = sl.runner.isAwaiting := by
  unfold killSlot
  cases h : sl.runner <;> simp [h, RunnerSt.isAwaiting]

theorem killChild_idem (c : ChildSt) : killChild (killChild c) = killChild c := by
  unfold killChild
  by_cases hc : c.cpLive = true <;> simp [hc]

theorem killSlot_idem (sl : Slot) : killSlot (killSlot sl) = killSlot sl := by
  unfold killSlot
  cases h : sl.runner with
  | awaiting k c lc ls st => simp [killChild_idem]
  | notStarted => simp [h]
  | settled via r => simp [h]

theorem doneFn_slots (n : Nat) (s : EngineSt) : (doneFn n s).slots = s.slots := by
  unfold doneFn
  by_cases h : s.finished.isSome <;> simp [h]

theorem doneFn_aborted (n : Nat) (s : EngineSt) : (doneFn n s).aborted = s.aborted := by
  unfold doneFn
  by_cases h : s.finished.isSome <;> simp [h]

theorem doneFn_err (n : Nat) (s : EngineSt) : (doneFn n s).err = s.err := by
  unfold doneFn
  by_cases h : s.finished.isSome <;> simp [h]

theorem doneFn_pending (n : Nat) (s : EngineSt) :
    (doneFn n s).allSettledPending = s.allSettledPending := by
  unfold doneFn
  by_cases h : s.finished.isSome <;> simp [h]

theorem doneFn_nextIdx (n : Nat) (s : EngineSt) : (doneFn n s).nextIdx = s.nextIdx := by
  unfold doneFn
  by_cases h : s.finished.isSome <;> simp [h]

theorem doneFn_time (n : Nat) (s : EngineSt) : (doneFn n s).time = s.time := by
  unfold doneFn
  by_cases h : s.finished.isSome <;> simp [h]

theorem anyAwaiting_congr (n : Nat) {s t : EngineSt}
    (h : ∀ i, (t.slots i).runner.isAwaiting = (s.slots i).runner.isAwaiting) :
    anyAwaiting n t = anyAwaiting n s := by
  unfold anyAwaiting
  simp only [h]

theorem doneFn_idem (n : Nat) (s : EngineSt) : doneFn n (doneFn n s) = doneFn n s := by
  unfold doneFn
  by_cases h : s.finished.isSome <;> simp [h]

theorem doneFn_finished_isSome (n : Nat) (s : EngineSt) :
    (doneFn n s).finished.isSome = true := by
  unfold doneFn
  by_cases h : s.finished.isSome <;> simp [h]

theorem abortCore_aborted (n : Nat) (s : EngineSt) : (abortCore n s).aborted = true := by
  unfold abortCore
  by_cases h : anyAwaiting n { s with aborted := true } = true <;>
    simp [h, doneFn_aborted]

/-- Updating `aborted` to its current value is the identity. -/
theorem eta_aborted (s : EngineSt) (h : s.aborted = true) :
    ({ s with aborted := true } : EngineSt) = s := by
  cases s
  simp_all

theorem anyAwaiting_set_aborted (n : Nat) (x : EngineSt) (b : Bool) :
    anyAwaiting n ({ x with aborted := b }) = anyAwaiting n x := rfl

theorem abortCore_def2 (n : Nat) (x : EngineSt) :
    abortCore n x =
      if anyAwaiting n x = true then
        { x with aborted := true, slots := fun i => killSlot (x.slots i),
                 allSettledPending := true }
      else doneFn n { x with aborted := true } := rfl

theorem abortCore_idem (n : Nat) (s : EngineSt) :
    abortCore n (abortCore n s) = abortCore n s := by
  rw [abortCore_def2 n (abortCore n s), abortCore_def2 n s]
  by_cases h : anyAwaiting n s = true
  · rw [if_pos h]
    have hsame : anyAwaiting n
        ({ s with aborted := true, slots := fun i => killSlot (s.slots i),
                  allSettledPending := true } : EngineSt) = anyAwaiting n s := by
      apply anyAwaiting_congr
      intro i
      exact killSlot_runner_isAwaiting _
    rw [if_pos (hsame.trans h)]
    congr 1
    funext i
    exact killSlot_idem _
  · rw [if_neg h]
    have hsame : anyAwaiting n (doneFn n ({ s with aborted := true } : EngineSt))
        = anyAwaiting n s := by
      apply anyAwaiting_congr
      intro i
      rw [doneFn_slots]
    rw [if_neg (by rw [hsame]; exact h)]
    rw [eta_aborted _ (by rw [doneFn_aborted])]
    exact doneFn_idem n _

theorem abortGuarded_idem (n : Nat) (s : EngineSt) :
    abortGuarded n (abortGuarded n s) = abortGuarded n s := by
  unfold abortGuarded
  by_cases h : s.aborted = true
  · simp [h]
  · simp only [h, Bool.false_eq_true, if_false, if_neg]
    simp [abortCore_aborted]

theorem rtAbort_idem (c : RTState) : rtAbort (rtAbort c) = rtAbort c := by
  unfold rtAbort
  by_cases h : c.cpLive = true <;> simp [h]

/-!
### The reachability invariant of the engine

`EngineInv` collects the facts that hold of every state the engine can reach
from `initEngine` under drains whose spawn-error events carry a non-zero
error code (`EvOk`; `child_process` spawn errors never report a numeric
code 0).  The `seq…` fields are scoped to `SeqMode` — a sequential group
(`initial` concurrency 1) without `continueOnError` or `race` — and the
`contSet` field to `continueOnError` runs.
-/

/-- Number of result entries whose `code` is `0`. -/
def countZeros (n : Nat) (s : EngineSt) : Nat :=
  (itemsList n s).countP (fun r => r.code = some 0)

/-- A sequential group in the sense of claim C5: one task at a time, no
`continue-on-error`, no race. -/
def SeqMode (tasks : List String) (o : RunOpts) : Prop :=
  o.continueOnError = false ∧ o.race = false ∧ initialOf tasks.length o = 1

/-- Well-formedness of a child event: a spawn `error` never carries the
numeric error code `0`. -/
def EvOk (ev : Nat × ChildEv) : Prop :=
  ∀ c sg, ev.2 = ChildEv.errorEv c sg → c ≠ some 0

/-- The bulk of the reachability invariant (see the section docstring); the
race-abort coupling is kept separate in `EngineInv` because `abort()` briefly
runs on a state where a second zero exit has been recorded but the abort
microtask has not yet fired. -/
structure EngineInvW (tasks : List String) (o : RunOpts) (s : EngineSt) : Prop where
  names : ∀ i, i < tasks.length →
    (s.slots i).name = tasks.getD i "" ∧ (s.slots i).item.name = tasks.getD i ""
  nextLe : s.nextIdx ≤ tasks.length
  startedIff : ∀ i, ((s.slots i).runner = .notStarted ↔ s.nextIdx ≤ i)
  fresh : ∀ i, (s.slots i).runner = .notStarted →
    (s.slots i).spawns = 0 ∧ (s.slots i).completed = 0
  awaitOk : ∀ i k c lc ls st, (s.slots i).runner = .awaiting k c lc ls st →
    (k : Int) ≤ o.retry ∧ (s.aborted = true → c.wasAborted = true) ∧
    (c.cpLive = true ∨ c.wasAborted = true) ∧
    (s.slots i).completed = k ∧ (s.slots i).spawns = k + 1
  retriesLe : ∀ i, (s.slots i).item.retries ≤ o.retry
  raceZeros : o.race = true → countZeros tasks.length s ≤ 1
  finOk : ∀ e res, s.finished = some (e, res) →
    e = s.err ∧ res = itemsList tasks.length s ∧ anyAwaiting tasks.length s = false
  contSet : o.continueOnError = true → ∀ i broke r,
    (s.slots i).runner = .settled (.contExhaust broke) r →
    (s.slots i).item.retries = r ∧ r = ((s.slots i).completed : Int) - 1 ∧
      (broke = false → r = o.retry)
  seqAw : SeqMode tasks o → ∀ i k c lc ls st,
    (s.slots i).runner = .awaiting k c lc ls st → i + 1 = s.nextIdx
  seqErr : SeqMode tasks o → ∀ e, s.err = some e →
    s.finished ≠ none ∧ 1 ≤ s.nextIdx ∧ e.name = some (tasks.getD (s.nextIdx - 1) "")
  seqFresh : SeqMode tasks o → ∀ i, i < tasks.length → (s.slots i).runner = .notStarted →
    (s.err = none → (s.slots i).item = ⟨tasks.getD i "", none, 0, 0⟩) ∧
    (∀ e, s.err = some e → e.name ≠ some (tasks.getD i "") →
      (s.slots i).item = ⟨tasks.getD i "", none, 0, 0⟩)
  seqNoAw : SeqMode tasks o → s.aborted = true → anyAwaiting tasks.length s = false

/-- The full reachability invariant: additionally, in race mode a recorded
zero exit implies the race-abort has already run. -/
structure EngineInv (tasks : List String) (o : RunOpts) (s : EngineSt)
    extends EngineInvW tasks o s : Prop where
  raceAb : o.race = true → 1 ≤ countZeros tasks.length s → s.aborted = true

/-!
### Accessor lemmas for the engine primitives
-/

theorem setSlot_slots (s : EngineSt) (i : Nat) (f : Slot → Slot) (j : Nat) :
    (setSlot s i f).slots j = if j = i then f (s.slots i) else s.slots j := by
  unfold setSlot
  by_cases h : j = i <;> simp [h]

@[simp] theorem setSlot_nextIdx (s : EngineSt) (i) (f) : (setSlot s i f).nextIdx = s.nextIdx := rfl

@[simp] theorem setSlot_err (s : EngineSt) (i) (f) : (setSlot s i f).err = s.err := rfl

@[simp] theorem setSlot_aborted (s : EngineSt) (i) (f) : (setSlot s i f).aborted = s.aborted := rfl

@[simp] theorem setSlot_pending (s : EngineSt) (i) (f) :
    (setSlot s i f).allSettledPending = s.allSettledPending := rfl

@[simp] theorem setSlot_finished (s : EngineSt) (i) (f) : (setSlot s i f).finished = s.finished := rfl

@[simp] theorem setSlot_time (s : EngineSt) (i) (f) : (setSlot s i f).time = s.time := rfl

theorem mapByName_slots (s : EngineSt) (nm fc la d) (j : Nat) :
    ((mapByName s nm fc la d).slots j) =
      (if (s.slots j).item.name = nm then
        { s.slots j with item := { (s.slots j).item with code := fc, retries := la, durationMs := d } }
      else s.slots j) := by
  unfold mapByName
  by_cases h : (s.slots j).item.name = nm <;> simp [h]

@[simp] theorem mapByName_nextIdx (s : EngineSt) (nm fc la d) :
    (mapByName s nm fc la d).nextIdx = s.nextIdx := rfl

@[simp] theorem mapByName_err (s : EngineSt) (nm fc la d) :
    (mapByName s nm fc la d).err = s.err := rfl

@[simp] theorem mapByName_aborted (s : EngineSt) (nm fc la d) :
    (mapByName s nm fc la d).aborted = s.aborted := rfl

@[simp] theorem mapByName_pending (s : EngineSt) (nm fc la d) :
    (mapByName s nm fc la d).allSettledPending = s.allSettledPending := rfl

@[simp] theorem mapByName_finished (s : EngineSt) (nm fc la d) :
    (mapByName s nm fc la d).finished = s.finished := rfl

@[simp] theorem mapByName_time (s : EngineSt) (nm fc la d) :
    (mapByName s nm fc la d).time = s.time := rfl

theorem mapByName_runner (s : EngineSt) (nm fc la d) (j : Nat) :
    ((mapByName s nm fc la d).slots j).runner = (s.slots j).runner := by
  rw [mapByName_slots]
  by_cases h : (s.slots j).item.name = nm <;> simp [h]

theorem mapByName_name (s : EngineSt) (nm fc la d) (j : Nat) :
    ((mapByName s nm fc la d).slots j).name = (s.slots j).name := by
  rw [mapByName_slots]
  by_cases h : (s.slots j).item.name = nm <;> simp [h]

theorem mapByName_item_name (s : EngineSt) (nm fc la d) (j : Nat) :
    ((mapByName s nm fc la d).slots j).item.name = (s.slots j).item.name := by
  rw [mapByName_slots]
  by_cases h : (s.slots j).item.name = nm <;> simp [h]

theorem mapByName_spawns (s : EngineSt) (nm fc la d) (j : Nat) :
    ((mapByName s nm fc la d).slots j).spawns = (s.slots j).spawns := by
  rw [mapByName_slots]
  by_cases h : (s.slots j).item.name = nm <;> simp [h]

theorem mapByName_completed (s : EngineSt) (nm fc la d) (j : Nat) :
    ((mapByName s nm fc la d).slots j).completed = (s.slots j).completed := by
  rw [mapByName_slots]
  by_cases h : (s.slots j).item.name = nm <;> simp [h]

theorem killSlot_name (sl : Slot) : (killSlot sl).name = sl.name := by
  unfold killSlot
  cases h : sl.runner <;> simp

theorem killSlot_item (sl : Slot) : (killSlot sl).item = sl.item := by
  unfold killSlot
  cases h : sl.runner <;> simp

theorem killSlot_spawns (sl : Slot) : (killSlot sl).spawns = sl.spawns := by
  unfold killSlot
  cases h : sl.runner <;> simp

theorem killSlot_completed (sl : Slot) : (killSlot sl).completed = sl.completed := by
  unfold killSlot
  cases h : sl.runner <;> simp

theorem killSlot_notStarted (sl : Slot) :
    ((killSlot sl).runner = .notStarted) ↔ (sl.runner = .notStarted) := by
  unfold killSlot
  cases h : sl.runner <;> simp [h]

theorem killSlot_settled (sl : Slot) (v r) :
    ((killSlot sl).runner = .settled v r) ↔ (sl.runner = .settled v r) := by
  unfold killSlot
  cases h : sl.runner <;> simp [h]

theorem itemsList_congr (n : Nat) {s t : EngineSt}
    (h : ∀ i, i < n → (t.slots i).item = (s.slots i).item) :
    itemsList n t = itemsList n s := by
  unfold itemsList
  apply List.map_congr_left
  intro i hi
  exact h i (List.mem_range.mp hi)

theorem countZeros_congr (n : Nat) {s t : EngineSt}
    (h : ∀ i, i < n → (t.slots i).item.code = (s.slots i).item.code) :
    countZeros n t = countZeros n s := by
  unfold countZeros itemsList
  rw [List.countP_map, List.countP_map]
  apply List.countP_congr
  intro i hi
  simp only [Function.comp_apply]
  rw [h i (List.mem_range.mp hi)]

/-- Changing only slot `a`'s code changes the zero count by at most one. -/
theorem countP_update_le_succ {l : List Nat} (hnd : l.Nodup) (p q : Nat → Bool) (a : Nat)
    (h : ∀ i ∈ l, i ≠ a → q i = p i) : l.countP q ≤ l.countP p + 1 := by
  induction l with
  | nil => simp
  | cons x tl ih =>
    have hnd' : tl.Nodup := hnd.of_cons
    by_cases hx : x = a
    · subst hx
      have hna : x ∉ tl := (List.nodup_cons.mp hnd).1
      have heq : tl.countP q = tl.countP p := by
        apply List.countP_congr
        intro i hi
        rw [h i (List.mem_cons_of_mem _ hi) (fun hc => hna (hc ▸ hi))]
      rw [List.countP_cons, List.countP_cons, heq]
      by_cases hq : q x = true <;> by_cases hp : p x = true <;> simp [hq, hp] <;> omega
    · have hqx : q x = p x := h x (List.mem_cons_self _ _) hx
      have := ih hnd' (fun i hi hne => h i (List.mem_cons_of_mem _ hi) hne)
      rw [List.countP_cons, List.countP_cons, hqx]
      omega

/-- Pointwise implication gives monotonicity of the zero count. -/
theorem countP_pointwise_le {l : List Nat} (p q : Nat → Bool)
    (h : ∀ i ∈ l, q i = true → p i = true) : l.countP q ≤ l.countP p := by
  induction l with
  | nil => simp
  | cons x tl ih =>
    rw [List.countP_cons, List.countP_cons]
    have := ih (fun i hi => h i (List.mem_cons_of_mem _ hi))
    by_cases hq : q x = true
    · rw [h x (List.mem_cons_self _ _) hq, hq]
      omega
    · simp only [Bool.not_eq_true] at hq
      rw [hq]
      by_cases hp : p x = true <;> simp [hp] <;> omega

theorem countZeros_eq_countP (n : Nat) (s : EngineSt) :
    countZeros n s = (List.range n).countP (fun i => (s.slots i).item.code = some 0) := by
  unfold countZeros itemsList
  rw [List.countP_map]
  rfl

theorem anyAwaiting_eq_true_iff (n : Nat) (s : EngineSt) :
    anyAwaiting n s = true ↔ ∃ i, i < n ∧ (s.slots i).runner.isAwaiting = true := by
  unfold anyAwaiting
  rw [List.any_eq_true]
  constructor
  · rintro ⟨i, hi, hp⟩
    exact ⟨i, List.mem_range.mp hi, hp⟩
  · rintro ⟨i, hi, hp⟩
    exact ⟨i, List.mem_range.mpr hi, hp⟩

theorem anyAwaiting_eq_false_iff (n : Nat) (s : EngineSt) :
    anyAwaiting n s = false ↔ ∀ i, i < n → (s.slots i).runner.isAwaiting = false := by
  rw [← Bool.not_eq_true, anyAwaiting_eq_true_iff]
  push_neg
  constructor
  · intro h i hi
    by_contra hc
    simp only [Bool.not_eq_false] at hc
    exact (h i hi) hc
  · intro h i hi
    rw [h i hi]
    simp

theorem isAwaiting_iff (r : RunnerSt) :
    r.isAwaiting = true ↔ ∃ k c lc ls st, r = .awaiting k c lc ls st := by
  cases r <;> simp [RunnerSt.isAwaiting]

/-!
### Preservation of the invariant
-/

theorem killSlot_eq_awaiting (sl : Slot) (k : Nat) (c : ChildSt) (lc : Option Int)
    (ls : Option String) (st : Nat) (h : sl.runner = .awaiting k c lc ls st) :
    killSlot sl = { sl with runner := .awaiting k (killChild c) lc ls st } := by
  unfold killSlot
  cases hr : sl.runner <;> rw [hr] at h
  case awaiting k0 c0 lc0 ls0 st0 =>
    simp only [RunnerSt.awaiting.injEq] at h
    obtain ⟨hk, hc, hlc, hls, hst⟩ := h
    subst hk hc hlc hls hst
    simp
  case notStarted => cases h
  case settled => cases h

theorem killSlot_eq_same (sl : Slot) (h : sl.runner.isAwaiting = false) :
    killSlot sl = sl := by
  unfold killSlot
  cases hr : sl.runner with
  | awaiting k c lc ls st => rw [hr] at h; simp [RunnerSt.isAwaiting] at h
  | notStarted => simp
  | settled v r => simp

theorem killSlot_awaiting_inv (sl : Slot) (k : Nat) (c : ChildSt) (lc : Option Int)
    (ls : Option String) (st : Nat)
    (h : (killSlot sl).runner = .awaiting k c lc ls st) :
    ∃ c0, sl.runner = .awaiting k c0 lc ls st ∧ c = killChild c0 := by
  cases hr : sl.runner with
  | awaiting k0 c0 lc0 ls0 st0 =>
    rw [killSlot_eq_awaiting sl k0 c0 lc0 ls0 st0 hr] at h
    simp only [RunnerSt.awaiting.injEq] at h
    obtain ⟨hk, hc, hlc, hls, hst⟩ := h
    refine ⟨c0, ?_, hc.symm⟩
    rw [← hk, ← hlc, ← hls, ← hst]
  | notStarted =>
    rw [killSlot_eq_same sl (by rw [hr]; rfl), hr] at h
    cases h
  | settled v r =>
    rw [killSlot_eq_same sl (by rw [hr]; rfl), hr] at h
    cases h

theorem killedChild_wasAborted (c0 : ChildSt)
    (h : c0.cpLive = true ∨ c0.wasAborted = true) :
    (killChild c0).wasAborted = true := by
  unfold killChild
  by_cases hl : c0.cpLive = true
  · simp [hl]
  · simp only [Bool.not_eq_true] at hl
    simp only [hl, Bool.false_eq_true, if_false]
    rcases h with h | h
    · rw [hl] at h; cases h
    · exact h

theorem nextChainF_zero (n : Nat) (o : RunOpts) (s : EngineSt) :
    nextChainF n o 0 s = if anyAwaiting n s then s else doneFn n s := rfl

theorem nextChainF_succ_empty {n : Nat} (o : RunOpts) {s : EngineSt} (fuel : Nat)
    (hge : ¬ s.nextIdx < n) :
    nextChainF n o (fuel + 1) s = if anyAwaiting n s then s else doneFn n s := by
  unfold nextChainF
  rw [if_neg hge]

theorem nextChainF_succ_spawn {n : Nat} {o : RunOpts} {s : EngineSt} (fuel : Nat)
    (hlt : s.nextIdx < n) (hr : 0 ≤ o.retry) (hab : s.aborted = false) :
    nextChainF n o (fuel + 1) s =
      setSlot (setSlot { s with nextIdx := s.nextIdx + 1 } s.nextIdx
          (fun sl => { sl with spawns := sl.spawns + 1 })) s.nextIdx
        (fun sl => { sl with runner := .awaiting 0 ⟨true, false⟩ none none s.time }) := by
  unfold nextChainF
  rw [if_pos hlt, if_pos hr]
  simp [hab]

theorem nextChainF_succ_abort_cont_race {n : Nat} {o : RunOpts} {s : EngineSt} (fuel : Nat)
    (hlt : s.nextIdx < n) (hr : 0 ≤ o.retry) (hab : s.aborted = true)
    (hcont : o.continueOnError = true) (hrace : o.race = true) :
    nextChainF n o (fuel + 1) s =
      abortCore n
        (setSlot (setSlot { s with nextIdx := s.nextIdx + 1 } s.nextIdx
            (fun sl => { sl with spawns := sl.spawns + 1 })) s.nextIdx
          (fun sl =>
            { sl with runner := .settled (.contExhaust true) (-1)
                      item := { name := sl.item.name, code := none, retries := -1,
                                durationMs := 0 } })) := by
  unfold nextChainF
  rw [if_pos hlt, if_pos hr]
  simp [hab, hcont, hrace]

theorem nextChainF_succ_abort_cont_norace {n : Nat} {o : RunOpts} {s : EngineSt} (fuel : Nat)
    (hlt : s.nextIdx < n) (hr : 0 ≤ o.retry) (hab : s.aborted = true)
    (hcont : o.continueOnError = true) (hrace : o.race = false) :
    nextChainF n o (fuel + 1) s =
      nextChainF n o fuel
        (let s3 := setSlot (setSlot { s with nextIdx := s.nextIdx + 1 } s.nextIdx
            (fun sl => { sl with spawns := sl.spawns + 1 })) s.nextIdx
          (fun sl =>
            { sl with runner := .settled (.contExhaust true) (-1)
                      item := { name := sl.item.name, code := none, retries := -1,
                                durationMs := 0 } })
         { s3 with err := some (mkErr s3.err ((s.slots s.nextIdx).name) none) }) := by
  conv_lhs => unfold nextChainF
  rw [if_pos hlt, if_pos hr]
  simp [hab, hcont, hrace, setSlot_slots]

theorem nextChainF_succ_abort_nocont {n : Nat} {o : RunOpts} {s : EngineSt} (fuel : Nat)
    (hlt : s.nextIdx < n) (hr : 0 ≤ o.retry) (hab : s.aborted = true)
    (hcont : o.continueOnError = false) :
    nextChainF n o (fuel + 1) s =
      setSlot (mapByName (setSlot { s with nextIdx := s.nextIdx + 1 } s.nextIdx
            (fun sl => { sl with spawns := sl.spawns + 1 }))
          ((s.slots s.nextIdx).name) none (-1) 0) s.nextIdx
        (fun sl => { sl with runner := .settled (.rejExhaust true) (-1) }) := by
  unfold nextChainF
  rw [if_pos hlt, if_pos hr]
  simp [hab, hcont, setSlot_slots]

theorem inv_doneFn {tasks : List String} {o : RunOpts} {s : EngineSt}
    (h : EngineInv tasks o s) (ha : anyAwaiting tasks.length s = false) :
    EngineInv tasks o (doneFn tasks.length s) := by
  unfold doneFn
  by_cases hf : s.finished.isSome
  · simpa [hf] using h
  · simp only [hf, Bool.false_eq_true, if_false, if_neg]
    obtain ⟨⟨f1, f2, f3, f4, f5, f6, f7, _, f9, f10, f11, f12, f13⟩, f14⟩ := h
    refine ⟨⟨f1, f2, f3, f4, f5, f6, f7, ?_, f9, f10, ?_, f12, f13⟩, f14⟩
    · intro e res hres
      simp only [Option.some.injEq] at hres
      obtain ⟨he, hr⟩ := (Prod.mk.injEq _ _ _ _).mp hres
      exact ⟨he.symm, hr.symm, ha⟩
    · intro hs e he
      obtain ⟨_, h2, h3⟩ := f11 hs e he
      exact ⟨by simp, h2, h3⟩

theorem inv_abortCore {tasks : List String} {o : RunOpts} {s : EngineSt}
    (h : EngineInvW tasks o s)
    (hseq : SeqMode tasks o → anyAwaiting tasks.length s = false) :
    EngineInv tasks o (abortCore tasks.length s) := by
  rw [abortCore_def2]
  by_cases ha : anyAwaiting tasks.length s = true
  · rw [if_pos ha]
    obtain ⟨f1, f2, f3, f4, f5, f6, f7, f8, f9, f10, f11, f12, f13⟩ := h
    refine ⟨⟨?_, f2, ?_, ?_, ?_, ?_, ?_, ?_, ?_, ?_, ?_, ?_, ?_⟩, fun _ _ => rfl⟩
    · intro i hi
      simpa [killSlot_name, killSlot_item] using f1 i hi
    · intro i
      simpa [killSlot_notStarted] using f3 i
    · intro i hns
      rw [killSlot_notStarted] at hns
      simpa [killSlot_spawns, killSlot_completed] using f4 i hns
    · intro i k c lc ls st hrun
      simp only at hrun
      obtain ⟨c0, hr0, hc⟩ := killSlot_awaiting_inv (s.slots i) k c lc ls st hrun
      obtain ⟨g1, _, g3, g4, g5⟩ := f5 i k c0 lc ls st hr0
      have hwa : c.wasAborted = true := by
        rw [hc]; exact killedChild_wasAborted c0 g3
      refine ⟨g1, fun _ => hwa, Or.inr hwa,
        by simpa [killSlot_completed] using g4,
        by simpa [killSlot_spawns] using g5⟩
    · intro i
      simpa [killSlot_item] using f6 i
    · intro hrace
      have hcz : countZeros tasks.length
          ({ s with aborted := true, slots := fun i => killSlot (s.slots i),
                    allSettledPending := true } : EngineSt) = countZeros tasks.length s := by
        apply countZeros_congr
        intro i _
        simp [killSlot_item]
      rw [hcz]
      exact f7 hrace
    · intro e res hres
      simp only at hres
      obtain ⟨he, hr, haw⟩ := f8 e res hres
      exact absurd ha (by simp [haw])
    · intro hc i broke r hrun
      simp only at hrun
      rw [killSlot_settled] at hrun
      simpa [killSlot_item, killSlot_completed] using f9 hc i broke r hrun
    · intro hs
      exact absurd ha (by simp [hseq hs])
    · intro hs
      exact absurd ha (by simp [hseq hs])
    · intro hs
      exact absurd ha (by simp [hseq hs])
    · intro hs
      exact absurd ha (by simp [hseq hs])
  · rw [if_neg ha]
    simp only [Bool.not_eq_true] at ha
    have h1 : EngineInv tasks o ({ s with aborted := true } : EngineSt) := by
      obtain ⟨f1, f2, f3, f4, f5, f6, f7, f8, f9, f10, f11, f12, f13⟩ := h
      refine ⟨⟨f1, f2, f3, f4, ?_, f6, ?_, ?_, f9, ?_, f11, f12, ?_⟩, fun _ _ => rfl⟩
      · intro i k c lc ls st hrun
        obtain ⟨g1, _, g3, g4, g5⟩ := f5 i k c lc ls st hrun
        refine ⟨g1, ?_, g3, g4, g5⟩
        intro _
        have : (s.slots i).runner.isAwaiting = true := by
          rw [hrun]
          simp
        have := (anyAwaiting_eq_false_iff tasks.length s).mp ha i ?_
        · rw [this] at ‹(s.slots i).runner.isAwaiting = true›
          cases ‹(false : Bool) = true›
        · by_contra hlt
          push_neg at hlt
          have := f3 i
          have hns : (s.slots i).runner = .notStarted := by
            rw [this]
            omega
          rw [hns] at hrun
          cases hrun
      · intro hrace
        exact f7 hrace
      · intro e res hres
        simp only at hres
        obtain ⟨he, hr, haw⟩ := f8 e res hres
        exact ⟨he, hr, haw⟩
      · intro hs i k c lc ls st hrun
        exact f10 hs i k c lc ls st hrun
      · intro hs _
        exact ha
    exact inv_doneFn h1 ha

theorem setSlot_setSlot (s : EngineSt) (i : Nat) (f g : Slot → Slot) :
    setSlot (setSlot s i f) i g = setSlot s i (fun sl => g (f sl)) := by
  unfold setSlot
  congr 1
  funext j
  by_cases hj : j = i <;> simp [hj]

/-- Invariant preservation for the spawn-and-park branch of `next()`. -/
theorem inv_spawnPark {tasks : List String} {o : RunOpts} {s : EngineSt}
    (h : EngineInv tasks o s) (hr : 0 ≤ o.retry) (hf : s.finished = none)
    (hA : SeqMode tasks o → anyAwaiting tasks.length s = false)
    (hE : SeqMode tasks o → s.err = none)
    (hlt : s.nextIdx < tasks.length) (hab : s.aborted = false) :
    EngineInv tasks o
      (setSlot (setSlot { s with nextIdx := s.nextIdx + 1 } s.nextIdx
          (fun sl => { sl with spawns := sl.spawns + 1 })) s.nextIdx
        (fun sl => { sl with runner := .awaiting 0 ⟨true, false⟩ none none s.time })) := by
  have hns : (s.slots s.nextIdx).runner = .notStarted := (h.startedIff s.nextIdx).mpr (le_refl _)
  obtain ⟨hsp0, hcp0⟩ := h.fresh s.nextIdx hns
  have hT : ∀ j, ((setSlot (setSlot { s with nextIdx := s.nextIdx + 1 } s.nextIdx
          (fun sl => { sl with spawns := sl.spawns + 1 })) s.nextIdx
        (fun sl => { sl with runner := .awaiting 0 ⟨true, false⟩ none none s.time })).slots j)
      = if j = s.nextIdx then
          { s.slots s.nextIdx with
              spawns := (s.slots s.nextIdx).spawns + 1
              runner := .awaiting 0 ⟨true, false⟩ none none s.time }
        else s.slots j := by
    intro j
    by_cases hj : j = s.nextIdx
    · subst hj
      rw [setSlot_slots, if_pos rfl, setSlot_slots, if_pos rfl, if_pos rfl]
    · rw [setSlot_slots, if_neg hj, setSlot_slots, if_neg hj, if_neg hj]
  have hz : countZeros tasks.length
      (setSlot (setSlot { s with nextIdx := s.nextIdx + 1 } s.nextIdx
          (fun sl => { sl with spawns := sl.spawns + 1 })) s.nextIdx
        (fun sl => { sl with runner := .awaiting 0 ⟨true, false⟩ none none s.time }))
      = countZeros tasks.length s := by
    apply countZeros_congr
    intro i _
    rw [hT]
    by_cases hij : i = s.nextIdx
    · rw [if_pos hij, hij]
    · rw [if_neg hij]
  refine ⟨⟨?_, ?_, ?_, ?_, ?_, ?_, ?_, ?_, ?_, ?_, ?_, ?_, ?_⟩, ?_⟩
  · intro i hi
    rw [hT]
    by_cases hij : i = s.nextIdx
    · subst hij
      rw [if_pos rfl]
      exact h.names _ hi
    · rw [if_neg hij]
      exact h.names _ hi
  · show s.nextIdx + 1 ≤ tasks.length
    omega
  · intro i
    rw [hT]
    show _ ↔ s.nextIdx + 1 ≤ i
    by_cases hij : i = s.nextIdx
    · rw [if_pos hij]
      constructor
      · intro hcon; cases hcon
      · intro hle; omega
    · rw [if_neg hij, h.startedIff i]
      omega
  · intro i hrun
    rw [hT] at hrun ⊢
    by_cases hij : i = s.nextIdx
    · rw [if_pos hij] at hrun
      cases hrun
    · rw [if_neg hij] at hrun ⊢
      exact h.fresh i hrun
  · intro i k c lc ls st hrun
    rw [hT] at hrun
    by_cases hij : i = s.nextIdx
    · rw [if_pos hij] at hrun
      simp only [RunnerSt.awaiting.injEq] at hrun
      obtain ⟨hk, hc, hlc, hls, hst⟩ := hrun
      rw [hT, if_pos hij]
      refine ⟨by rw [← hk]; exact hr, ?_, ?_,
        by show (s.slots s.nextIdx).completed = k; omega,
        by show (s.slots s.nextIdx).spawns + 1 = k + 1; omega⟩
      · intro habs
        have habs2 : s.aborted = true := habs
        rw [hab] at habs2
        cases habs2
      · rw [← hc]
        exact Or.inl rfl
    · rw [if_neg hij] at hrun
      obtain ⟨g1, g2, g3, g4, g5⟩ := h.awaitOk i k c lc ls st hrun
      rw [hT, if_neg hij]
      refine ⟨g1, ?_, g3, g4, g5⟩
      intro habs
      have habs2 : s.aborted = true := habs
      rw [hab] at habs2
      cases habs2
  · intro i
    rw [hT]
    by_cases hij : i = s.nextIdx
    · rw [if_pos hij]
      show (s.slots s.nextIdx).item.retries ≤ o.retry
      exact h.retriesLe _
    · rw [if_neg hij]
      exact h.retriesLe _
  · intro hrace
    rw [hz]
    exact h.raceZeros hrace
  · intro e res hres
    have hres2 : s.finished = some (e, res) := hres
    rw [hf] at hres2
    cases hres2
  · intro hc i broke r hrun
    rw [hT] at hrun
    by_cases hij : i = s.nextIdx
    · rw [if_pos hij] at hrun
      cases hrun
    · rw [if_neg hij] at hrun
      rw [hT, if_neg hij]
      exact h.contSet hc i broke r hrun
  · intro hs i k c lc ls st hrun
    rw [hT] at hrun
    by_cases hij : i = s.nextIdx
    · rw [hij]
      rfl
    · rw [if_neg hij] at hrun
      by_cases hilt : i < tasks.length
      · have hfalse := (anyAwaiting_eq_false_iff tasks.length s).mp (hA hs) i hilt
        rw [hrun] at hfalse
        simp at hfalse
      · have := (h.startedIff i).mpr (by omega)
        rw [this] at hrun
        cases hrun
  · intro hs e he
    have he2 : s.err = some e := he
    rw [hE hs] at he2
    cases he2
  · intro hs i hi hrun
    rw [hT] at hrun
    by_cases hij : i = s.nextIdx
    · rw [if_pos hij] at hrun
      cases hrun
    · rw [if_neg hij] at hrun
      rw [hT, if_neg hij]
      have he2 : (setSlot (setSlot { s with nextIdx := s.nextIdx + 1 } s.nextIdx
          (fun sl => { sl with spawns := sl.spawns + 1 })) s.nextIdx
        (fun sl => { sl with runner := .awaiting 0 ⟨true, false⟩ none none s.time })).err = s.err := rfl
      rw [he2]
      exact h.seqFresh hs i hi hrun
  · intro hs habs
    have habs2 : s.aborted = true := habs
    rw [hab] at habs2
    cases habs2
  · intro hrace hc
    rw [hz] at hc
    exact h.raceAb hrace hc

theorem SeqMode.not_cont {tasks : List String} {o : RunOpts} (hs : SeqMode tasks o)
    (hc : o.continueOnError = true) : False := by
  have h1 : o.continueOnError = false := hs.1
  rw [hc] at h1
  cases h1

theorem SeqMode.race_eq {tasks : List String} {o : RunOpts} (hs : SeqMode tasks o) :
    o.race = false := hs.2.1

theorem SeqMode.cont_eq {tasks : List String} {o : RunOpts} (hs : SeqMode tasks o) :
    o.continueOnError = false := hs.1

/-- Lookup values in the `signals` table are non-negative. -/
theorem convert_nonneg (sg : String) : 0 ≤ convert sg := by
  unfold convert
  cases hl : signals.lookup sg with
  | none => simp
  | some n =>
    obtain ⟨l1, l2, heq, -⟩ := List.lookup_eq_some_iff.mp hl
    have hmem : (sg, n) ∈ signals := by
      rw [heq]
      exact List.mem_append_right _ (List.mem_cons_self _ _)
    have hall : ∀ p ∈ signals, 0 ≤ p.2 := by decide
    simpa using hall _ hmem

/-- `Date.now()` bookkeeping is irrelevant to the invariant. -/
theorem inv_time {tasks : List String} {o : RunOpts} {s : EngineSt}
    (h : EngineInv tasks o s) (t : Nat) : EngineInv tasks o { s with time := t } := by
  obtain ⟨⟨f1, f2, f3, f4, f5, f6, f7, f8, f9, f10, f11, f12, f13⟩, f14⟩ := h
  exact ⟨⟨f1, f2, f3, f4, f5, f6, f7, f8, f9, f10, f11, f12, f13⟩, f14⟩

/-- With continue-on-error, updating the shared `error` variable preserves the
invariant (the sequential-mode clauses are vacuous). -/
theorem inv_errUpdateCont {tasks : List String} {o : RunOpts} {s : EngineSt}
    (h : EngineInv tasks o s) (hf : s.finished = none)
    (hcont : o.continueOnError = true) (e : Option RunErr) :
    EngineInv tasks o { s with err := e } := by
  obtain ⟨⟨f1, f2, f3, f4, f5, f6, f7, f8, f9, f10, f11, f12, f13⟩, f14⟩ := h
  refine ⟨⟨f1, f2, f3, f4, f5, f6, f7, ?_, f9, f10, ?_, ?_, f13⟩, f14⟩
  · intro e' res hres
    have hres2 : s.finished = some (e', res) := hres
    rw [hf] at hres2
    cases hres2
  · exact fun hs => (hs.not_cont hcont).elim
  · exact fun hs => (hs.not_cont hcont).elim

/-- Invariant preservation for the abort-break settle of `next()` with
continue-on-error (the task resolves `{code: undefined, retries: -1}`). -/
theorem inv_abortContSettle {tasks : List String} {o : RunOpts} {s : EngineSt}
    (h : EngineInv tasks o s) (hr : 0 ≤ o.retry) (hf : s.finished = none)
    (hlt : s.nextIdx < tasks.length) (hab : s.aborted = true)
    (hcont : o.continueOnError = true) :
    EngineInv tasks o
      (setSlot (setSlot { s with nextIdx := s.nextIdx + 1 } s.nextIdx
          (fun sl => { sl with spawns := sl.spawns + 1 })) s.nextIdx
        (fun sl =>
          { sl with runner := .settled (.contExhaust true) (-1)
                    item := { name := sl.item.name, code := none, retries := -1,
                              durationMs := 0 } })) := by
  have hns : (s.slots s.nextIdx).runner = .notStarted := (h.startedIff s.nextIdx).mpr (le_refl _)
  obtain ⟨hsp0, hcp0⟩ := h.fresh s.nextIdx hns
  have hT : ∀ j, ((setSlot (setSlot { s with nextIdx := s.nextIdx + 1 } s.nextIdx
          (fun sl => { sl with spawns := sl.spawns + 1 })) s.nextIdx
        (fun sl =>
          { sl with runner := .settled (.contExhaust true) (-1)
                    item := { name := sl.item.name, code := none, retries := -1,
                              durationMs := 0 } })).slots j)
      = if j = s.nextIdx then
          { s.slots s.nextIdx with
              spawns := (s.slots s.nextIdx).spawns + 1
              runner := .settled (.contExhaust true) (-1)
              item := { name := (s.slots s.nextIdx).item.name, code := none, retries := -1,
                        durationMs := 0 } }
        else s.slots j := by
    intro j
    by_cases hj : j = s.nextIdx
    · subst hj
      rw [setSlot_slots, if_pos rfl, setSlot_slots, if_pos rfl, if_pos rfl]
    · rw [setSlot_slots, if_neg hj, setSlot_slots, if_neg hj, if_neg hj]
  have hzle : countZeros tasks.length
      (setSlot (setSlot { s with nextIdx := s.nextIdx + 1 } s.nextIdx
          (fun sl => { sl with spawns := sl.spawns + 1 })) s.nextIdx
        (fun sl =>
          { sl with runner := .settled (.contExhaust true) (-1)
                    item := { name := sl.item.name, code := none, retries := -1,
                              durationMs := 0 } }))
      ≤ countZeros tasks.length s := by
    rw [countZeros_eq_countP, countZeros_eq_countP]
    apply countP_pointwise_le
    intro i _ hq
    rw [hT] at hq
    by_cases hij : i = s.nextIdx
    · rw [if_pos hij] at hq
      simp at hq
    · rw [if_neg hij] at hq
      exact hq
  refine ⟨⟨?_, ?_, ?_, ?_, ?_, ?_, ?_, ?_, ?_, ?_, ?_, ?_, ?_⟩, ?_⟩
  · intro i hi
    rw [hT]
    by_cases hij : i = s.nextIdx
    · subst hij
      rw [if_pos rfl]
      exact h.names _ hi
    · rw [if_neg hij]
      exact h.names _ hi
  · show s.nextIdx + 1 ≤ tasks.length
    omega
  · intro i
    rw [hT]
    show _ ↔ s.nextIdx + 1 ≤ i
    by_cases hij : i = s.nextIdx
    · rw [if_pos hij]
      constructor
      · intro hcon; cases hcon
      · intro hle; omega
    · rw [if_neg hij, h.startedIff i]
      omega
  · intro i hrun
    rw [hT] at hrun ⊢
    by_cases hij : i = s.nextIdx
    · rw [if_pos hij] at hrun
      cases hrun
    · rw [if_neg hij] at hrun ⊢
      exact h.fresh i hrun
  · intro i k c lc ls st hrun
    rw [hT] at hrun
    by_cases hij : i = s.nextIdx
    · rw [if_pos hij] at hrun
      cases hrun
    · rw [if_neg hij] at hrun
      obtain ⟨g1, g2, g3, g4, g5⟩ := h.awaitOk i k c lc ls st hrun
      rw [hT, if_neg hij]
      exact ⟨g1, fun _ => g2 hab, g3, g4, g5⟩
  · intro i
    rw [hT]
    by_cases hij : i = s.nextIdx
    · rw [if_pos hij]
      show (-1 : Int) ≤ o.retry
      omega
    · rw [if_neg hij]
      exact h.retriesLe _
  · intro hrace
    exact le_trans hzle (h.raceZeros hrace)
  · intro e res hres
    have hres2 : s.finished = some (e, res) := hres
    rw [hf] at hres2
    cases hres2
  · intro hc i broke r hrun
    rw [hT] at hrun
    by_cases hij : i = s.nextIdx
    · rw [if_pos hij] at hrun
      simp only [RunnerSt.settled.injEq, SettleVia.contExhaust.injEq] at hrun
      obtain ⟨hbr, hrr⟩ := hrun
      rw [hT, if_pos hij]
      refine ⟨by rw [← hrr], ?_, ?_⟩
      · show r = ((s.slots s.nextIdx).completed : Int) - 1
        rw [hcp0, ← hrr]
        decide
      · intro habs
        rw [← hbr] at habs
        cases habs
    · rw [if_neg hij] at hrun
      rw [hT, if_neg hij]
      exact h.contSet hc i broke r hrun
  · exact fun hs => (hs.not_cont hcont).elim
  · exact fun hs => (hs.not_cont hcont).elim
  · exact fun hs => (hs.not_cont hcont).elim
  · exact fun hs => (hs.not_cont hcont).elim
  · exact fun _ _ => hab

/-- Invariant preservation for the abort-break settle of `next()` without
continue-on-error (the reject path: `results.map` by name, then the `.catch`
handler returns at once because `aborted` is set). -/
theorem inv_abortNocontSettle {tasks : List String} {o : RunOpts} {s : EngineSt}
    (h : EngineInv tasks o s) (hr : 0 ≤ o.retry) (hf : s.finished = none)
    (hlt : s.nextIdx < tasks.length) (hab : s.aborted = true)
    (hcont : o.continueOnError = false)
    (hAb : SeqMode tasks o → s.aborted = false) :
    EngineInv tasks o
      (setSlot (mapByName (setSlot { s with nextIdx := s.nextIdx + 1 } s.nextIdx
            (fun sl => { sl with spawns := sl.spawns + 1 }))
          ((s.slots s.nextIdx).name) none (-1) 0) s.nextIdx
        (fun sl => { sl with runner := .settled (.rejExhaust true) (-1) })) := by
  have hns : (s.slots s.nextIdx).runner = .notStarted := (h.startedIff s.nextIdx).mpr (le_refl _)
  obtain ⟨hsp0, hcp0⟩ := h.fresh s.nextIdx hns
  have hseqF : SeqMode tasks o → False := by
    intro hs
    have hc : s.aborted = true := hab
    rw [hAb hs] at hc
    cases hc
  have hT : ∀ j, ((setSlot (mapByName (setSlot { s with nextIdx := s.nextIdx + 1 } s.nextIdx
            (fun sl => { sl with spawns := sl.spawns + 1 }))
          ((s.slots s.nextIdx).name) none (-1) 0) s.nextIdx
        (fun sl => { sl with runner := .settled (.rejExhaust true) (-1) })).slots j)
      = if j = s.nextIdx then
          { s.slots s.nextIdx with
              spawns := (s.slots s.nextIdx).spawns + 1
              runner := .settled (.rejExhaust true) (-1)
              item := if (s.slots s.nextIdx).item.name = (s.slots s.nextIdx).name then
                  { (s.slots s.nextIdx).item with code := none, retries := -1, durationMs := 0 }
                else (s.slots s.nextIdx).item }
        else if (s.slots j).item.name = (s.slots s.nextIdx).name then
          { s.slots j with
              item := { (s.slots j).item with code := none, retries := -1, durationMs := 0 } }
        else s.slots j := by
    intro j
    rw [setSlot_slots]
    by_cases hj : j = s.nextIdx
    · subst hj
      rw [if_pos rfl, if_pos rfl, mapByName_slots, setSlot_slots, if_pos rfl]
      by_cases hn : ((s.slots s.nextIdx).item.name = (s.slots s.nextIdx).name)
      · rw [if_pos hn, if_pos hn]
      · rw [if_neg hn, if_neg hn]
    · rw [if_neg hj, if_neg hj, mapByName_slots, setSlot_slots, if_neg hj]
  have hzle : countZeros tasks.length
      (setSlot (mapByName (setSlot { s with nextIdx := s.nextIdx + 1 } s.nextIdx
            (fun sl => { sl with spawns := sl.spawns + 1 }))
          ((s.slots s.nextIdx).name) none (-1) 0) s.nextIdx
        (fun sl => { sl with runner := .settled (.rejExhaust true) (-1) }))
      ≤ countZeros tasks.length s := by
    rw [countZeros_eq_countP, countZeros_eq_countP]
    apply countP_pointwise_le
    intro i _ hq
    rw [hT] at hq
    by_cases hij : i = s.nextIdx
    · rw [if_pos hij] at hq
      by_cases hn : ((s.slots s.nextIdx).item.name = (s.slots s.nextIdx).name)
      · rw [if_pos hn] at hq
        simp at hq
      · rw [if_neg hn] at hq
        rw [hij]
        exact hq
    · rw [if_neg hij] at hq
      by_cases hn : ((s.slots i).item.name = (s.slots s.nextIdx).name)
      · rw [if_pos hn] at hq
        simp at hq
      · rw [if_neg hn] at hq
        exact hq
  refine ⟨⟨?_, ?_, ?_, ?_, ?_, ?_, ?_, ?_, ?_, ?_, ?_, ?_, ?_⟩, ?_⟩
  · intro i hi
    rw [hT]
    by_cases hij : i = s.nextIdx
    · subst hij
      rw [if_pos rfl]
      by_cases hn : ((s.slots s.nextIdx).item.name = (s.slots s.nextIdx).name)
      · rw [if_pos hn]
        exact h.names _ hi
      · rw [if_neg hn]
        exact h.names _ hi
    · rw [if_neg hij]
      by_cases hn : ((s.slots i).item.name = (s.slots s.nextIdx).name)
      · rw [if_pos hn]
        exact h.names _ hi
      · rw [if_neg hn]
        exact h.names _ hi
  · show s.nextIdx + 1 ≤ tasks.length
    omega
  · intro i
    rw [hT]
    show _ ↔ s.nextIdx + 1 ≤ i
    by_cases hij : i = s.nextIdx
    · rw [if_pos hij]
      constructor
      · intro hcon; cases hcon
      · intro hle; omega
    · rw [if_neg hij]
      by_cases hn : ((s.slots i).item.name = (s.slots s.nextIdx).name)
      · rw [if_pos hn]
        show (s.slots i).runner = _ ↔ _
        rw [h.startedIff i]
        omega
      · rw [if_neg hn, h.startedIff i]
        omega
  · intro i hrun
    rw [hT] at hrun ⊢
    by_cases hij : i = s.nextIdx
    · rw [if_pos hij] at hrun
      cases hrun
    · rw [if_neg hij] at hrun ⊢
      by_cases hn : ((s.slots i).item.name = (s.slots s.nextIdx).name)
      · rw [if_pos hn] at hrun ⊢
        exact h.fresh i hrun
      · rw [if_neg hn] at hrun ⊢
        exact h.fresh i hrun
  · intro i k c lc ls st hrun
    rw [hT] at hrun
    by_cases hij : i = s.nextIdx
    · rw [if_pos hij] at hrun
      cases hrun
    · rw [if_neg hij] at hrun
      rw [hT, if_neg hij]
      by_cases hn : ((s.slots i).item.name = (s.slots s.nextIdx).name)
      · rw [if_pos hn] at hrun ⊢
        obtain ⟨g1, g2, g3, g4, g5⟩ := h.awaitOk i k c lc ls st hrun
        exact ⟨g1, fun _ => g2 hab, g3, g4, g5⟩
      · rw [if_neg hn] at hrun ⊢
        obtain ⟨g1, g2, g3, g4, g5⟩ := h.awaitOk i k c lc ls st hrun
        exact ⟨g1, fun _ => g2 hab, g3, g4, g5⟩
  · intro i
    rw [hT]
    by_cases hij : i = s.nextIdx
    · rw [if_pos hij]
      by_cases hn : ((s.slots s.nextIdx).item.name = (s.slots s.nextIdx).name)
      · rw [if_pos hn]
        show (-1 : Int) ≤ o.retry
        omega
      · rw [if_neg hn]
        exact h.retriesLe _
    · rw [if_neg hij]
      by_cases hn : ((s.slots i).item.name = (s.slots s.nextIdx).name)
      · rw [if_pos hn]
        show (-1 : Int) ≤ o.retry
        omega
      · rw [if_neg hn]
        exact h.retriesLe _
  · intro hrace
    exact le_trans hzle (h.raceZeros hrace)
  · intro e res hres
    have hres2 : s.finished = some (e, res) := hres
    rw [hf] at hres2
    cases hres2
  · intro hc
    rw [hcont] at hc
    cases hc
  · exact fun hs => (hseqF hs).elim
  · exact fun hs => (hseqF hs).elim
  · exact fun hs => (hseqF hs).elim
  · exact fun hs => (hseqF hs).elim
  · exact fun _ _ => hab

/-- The invariant is preserved by an entire `next()` chain (every microtask a
single source-level `next()` call can trigger synchronously). -/
theorem inv_nextChainF {tasks : List String} {o : RunOpts} (hr : 0 ≤ o.retry) :
    ∀ (fuel : Nat) {s : EngineSt}, EngineInv tasks o s → s.finished = none →
      (SeqMode tasks o → anyAwaiting tasks.length s = false) →
      (SeqMode tasks o → s.aborted = false) →
      EngineInv tasks o (nextChainF tasks.length o fuel s) := by
  intro fuel
  induction fuel with
  | zero =>
    intro s h hf hA hAb
    rw [nextChainF_zero]
    by_cases ha : anyAwaiting tasks.length s = true
    · rw [if_pos ha]
      exact h
    · rw [if_neg ha]
      exact inv_doneFn h (by simpa using ha)
  | succ fuel ih =>
    intro s h hf hA hAb
    by_cases hlt : s.nextIdx < tasks.length
    · by_cases hab : s.aborted = true
      · by_cases hcont : o.continueOnError = true
        · by_cases hrace : o.race = true
          · rw [nextChainF_succ_abort_cont_race fuel hlt hr hab hcont hrace]
            exact inv_abortCore (inv_abortContSettle h hr hf hlt hab hcont).toEngineInvW
              (fun hs => (hs.not_cont hcont).elim)
          · have hrace2 : o.race = false := by simpa using hrace
            rw [nextChainF_succ_abort_cont_norace fuel hlt hr hab hcont hrace2]
            apply ih
            · exact inv_errUpdateCont (inv_abortContSettle h hr hf hlt hab hcont) hf hcont _
            · exact hf
            · exact fun hs => (hs.not_cont hcont).elim
            · exact fun hs => (hs.not_cont hcont).elim
        · have hcont2 : o.continueOnError = false := by simpa using hcont
          rw [nextChainF_succ_abort_nocont fuel hlt hr hab hcont2]
          exact inv_abortNocontSettle h hr hf hlt hab hcont2 hAb
      · have hab2 : s.aborted = false := by simpa using hab
        have hE : SeqMode tasks o → s.err = none := by
          intro hs
          cases he : s.err with
          | none => rfl
          | some e => exact absurd hf (h.seqErr hs e he).1
        rw [nextChainF_succ_spawn fuel hlt hr hab2]
        exact inv_spawnPark h hr hf hA hE hlt hab2
    · rw [nextChainF_succ_empty o fuel hlt]
      by_cases ha : anyAwaiting tasks.length s = true
      · rw [if_pos ha]
        exact h
      · rw [if_neg ha]
        exact inv_doneFn h (by simpa using ha)

/-- Invariant preservation for the `.then` handler of an `attemptRun` promise.
The handler is only ever registered with `rretries` matching the settle record
of its slot and with a zero result only while no abort has happened. -/
theorem inv_handleResolve {tasks : List String} {o : RunOpts} {s : EngineSt}
    {idx : Nat} {rcode : Option Int} {rretries : Int} {rdur : Nat}
    (h : EngineInv tasks o s) (hr : 0 ≤ o.retry) (hf : s.finished = none)
    (hrle : rretries ≤ o.retry)
    (hcase : rcode = some 0 ∨ o.continueOnError = true)
    (hz : rcode = some 0 → s.aborted = false)
    (hsl : ∀ broke r, (s.slots idx).runner = .settled (.contExhaust broke) r → r = rretries)
    (hnns : ¬(s.slots idx).runner = .notStarted)
    (hA : SeqMode tasks o → anyAwaiting tasks.length s = false)
    (hAb : SeqMode tasks o → s.aborted = false) :
    EngineInv tasks o (handleResolve tasks.length o idx rcode rretries rdur s) := by
  have hT : ∀ j, ((setSlot s idx (fun sl =>
      { sl with item := { name := sl.item.name, code := rcode, retries := rretries,
                          durationMs := rdur } })).slots j)
      = if j = idx then
          { s.slots idx with
              item := { name := (s.slots idx).item.name, code := rcode, retries := rretries,
                        durationMs := rdur } }
        else s.slots j := by
    intro j
    rw [setSlot_slots]
  have hAw : anyAwaiting tasks.length (setSlot s idx (fun sl =>
      { sl with item := { name := sl.item.name, code := rcode, retries := rretries,
                          durationMs := rdur } })) = anyAwaiting tasks.length s := by
    apply anyAwaiting_congr
    intro i
    rw [hT]
    by_cases hij : i = idx
    · rw [if_pos hij, hij]
    · rw [if_neg hij]
  have hcle : rcode ≠ some 0 → countZeros tasks.length (setSlot s idx (fun sl =>
      { sl with item := { name := sl.item.name, code := rcode, retries := rretries,
                          durationMs := rdur } })) ≤ countZeros tasks.length s := by
    intro hnz
    rw [countZeros_eq_countP, countZeros_eq_countP]
    apply countP_pointwise_le
    intro i _ hq
    rw [hT] at hq
    by_cases hij : i = idx
    · rw [if_pos hij] at hq
      simp only [decide_eq_true_eq] at hq
      exact absurd hq hnz
    · rw [if_neg hij] at hq
      exact hq
  have hcsucc : countZeros tasks.length (setSlot s idx (fun sl =>
      { sl with item := { name := sl.item.name, code := rcode, retries := rretries,
                          durationMs := rdur } })) ≤ countZeros tasks.length s + 1 := by
    rw [countZeros_eq_countP, countZeros_eq_countP]
    apply countP_update_le_succ (List.nodup_range _) _ _ idx
    intro i _ hij
    rw [hT, if_neg hij]
  have hW1 : EngineInvW tasks o (setSlot s idx (fun sl =>
      { sl with item := { name := sl.item.name, code := rcode, retries := rretries,
                          durationMs := rdur } })) := by
    refine ⟨?_, h.nextLe, ?_, ?_, ?_, ?_, ?_, ?_, ?_, ?_, ?_, ?_, ?_⟩
    · intro i hi
      rw [hT]
      by_cases hij : i = idx
      · subst hij
        rw [if_pos rfl]
        exact ⟨(h.names _ hi).1, (h.names _ hi).2⟩
      · rw [if_neg hij]
        exact h.names _ hi
    · intro i
      rw [hT]
      by_cases hij : i = idx
      · subst hij
        rw [if_pos rfl]
        show (s.slots i).runner = _ ↔ _
        exact h.startedIff i
      · rw [if_neg hij]
        exact h.startedIff i
    · intro i hrun
      rw [hT] at hrun
      by_cases hij : i = idx
      · rw [if_pos hij] at hrun
        exact absurd (hij ▸ hrun : (s.slots idx).runner = _) hnns
      · rw [if_neg hij] at hrun
        rw [hT, if_neg hij]
        exact h.fresh i hrun
    · intro i k c lc ls st hrun
      rw [hT] at hrun
      by_cases hij : i = idx
      · subst hij
        rw [if_pos rfl] at hrun
        have hrun2 : (s.slots i).runner = .awaiting k c lc ls st := hrun
        obtain ⟨g1, g2, g3, g4, g5⟩ := h.awaitOk i k c lc ls st hrun2
        rw [hT, if_pos rfl]
        exact ⟨g1, fun ha2 => g2 ha2, g3, g4, g5⟩
      · rw [if_neg hij] at hrun
        rw [hT, if_neg hij]
        obtain ⟨g1, g2, g3, g4, g5⟩ := h.awaitOk i k c lc ls st hrun
        exact ⟨g1, fun ha2 => g2 ha2, g3, g4, g5⟩
    · intro i
      rw [hT]
      by_cases hij : i = idx
      · rw [if_pos hij]
        exact hrle
      · rw [if_neg hij]
        exact h.retriesLe i
    · intro hrace
      by_cases hz0 : rcode = some 0
      · have hcnt0 : countZeros tasks.length s = 0 := by
          by_contra hne
          have h1 : 1 ≤ countZeros tasks.length s := Nat.one_le_iff_ne_zero.mpr hne
          have := h.raceAb hrace h1
          rw [hz hz0] at this
          cases this
        omega
      · exact le_trans (hcle hz0) (h.raceZeros hrace)
    · intro e res hres
      have hres2 : s.finished = some (e, res) := hres
      rw [hf] at hres2
      cases hres2
    · intro hc i broke r hrun
      rw [hT] at hrun
      by_cases hij : i = idx
      · subst hij
        rw [if_pos rfl] at hrun
        have hrun2 : (s.slots i).runner = .settled (.contExhaust broke) r := hrun
        obtain ⟨g1, g2, g3⟩ := h.contSet hc i broke r hrun2
        rw [hT, if_pos rfl]
        exact ⟨(hsl broke r hrun2).symm, g2, g3⟩
      · rw [if_neg hij] at hrun
        rw [hT, if_neg hij]
        exact h.contSet hc i broke r hrun
    · intro hs i k c lc ls st hrun
      rw [hT] at hrun
      by_cases hij : i = idx
      · rw [if_pos hij] at hrun
        exact h.seqAw hs i k c lc ls st (hij ▸ hrun)
      · rw [if_neg hij] at hrun
        exact h.seqAw hs i k c lc ls st hrun
    · intro hs e he
      exact h.seqErr hs e he
    · intro hs i hi hrun
      rw [hT] at hrun
      by_cases hij : i = idx
      · rw [if_pos hij] at hrun
        exact absurd (hij ▸ hrun : (s.slots idx).runner = _) hnns
      · rw [if_neg hij] at hrun
        rw [hT, if_neg hij]
        exact h.seqFresh hs i hi hrun
    · intro hs hab
      rw [hAw]
      exact h.seqNoAw hs hab
  simp only [handleResolve]
  by_cases hfal : o.race = true ∧ jsFalsyCode rcode = true
  · rw [if_pos hfal]
    exact inv_abortCore hW1 (fun hs => by rw [hAw]; exact hA hs)
  · rw [if_neg hfal]
    by_cases hz0 : rcode = some 0
    · rw [if_neg (by simp [hz0])]
      have hInv1 : EngineInv tasks o (setSlot s idx (fun sl =>
          { sl with item := { name := sl.item.name, code := rcode, retries := rretries,
                              durationMs := rdur } })) := by
        refine ⟨hW1, ?_⟩
        intro hrace _
        exact absurd ⟨hrace, by rw [hz0]; rfl⟩ hfal
      exact inv_nextChainF hr _ hInv1 hf
        (fun hs => by rw [hAw]; exact hA hs) (fun hs => hAb hs)
    · rw [if_pos (by simpa using hz0)]
      have hcont : o.continueOnError = true := by
        rcases hcase with h0 | hc
        · exact absurd h0 hz0
        · exact hc
      rw [if_neg (by simp [hcont])]
      have hInv1 : EngineInv tasks o (setSlot s idx (fun sl =>
          { sl with item := { name := sl.item.name, code := rcode, retries := rretries,
                              durationMs := rdur } })) := by
        refine ⟨hW1, ?_⟩
        intro hrace hc1
        have hnone : rcode ≠ none := by
          intro hcn
          exact hfal ⟨hrace, by rw [hcn]; rfl⟩
        have := le_trans hc1 (hcle hz0)
        exact h.raceAb hrace this
      exact inv_nextChainF hr _
        (inv_errUpdateCont hInv1 hf hcont _) hf
        (fun hs => (hs.not_cont hcont).elim) (fun hs => (hs.not_cont hcont).elim)

/-- An awaiting slot is past the queue head. -/
theorem awaiting_lt_next {tasks : List String} {o : RunOpts} {s : EngineSt}
    (h : EngineInv tasks o s) {idx k : Nat} {c : ChildSt} {lc : Option Int}
    {ls : Option String} {st : Nat}
    (hrun : (s.slots idx).runner = .awaiting k c lc ls st) : idx < s.nextIdx := by
  by_contra hge
  push_neg at hge
  have := (h.startedIff idx).mpr hge
  rw [hrun] at this
  cases this

/-- An awaiting slot is a scheduled task. -/
theorem awaiting_lt_len {tasks : List String} {o : RunOpts} {s : EngineSt}
    (h : EngineInv tasks o s) {idx k : Nat} {c : ChildSt} {lc : Option Int}
    {ls : Option String} {st : Nat}
    (hrun : (s.slots idx).runner = .awaiting k c lc ls st) : idx < tasks.length :=
  lt_of_lt_of_le (awaiting_lt_next h hrun) h.nextLe

/-- While a promise is in flight the outer promise is unsettled. -/
theorem awaiting_finished_none {tasks : List String} {o : RunOpts} {s : EngineSt}
    (h : EngineInv tasks o s) {idx k : Nat} {c : ChildSt} {lc : Option Int}
    {ls : Option String} {st : Nat}
    (hrun : (s.slots idx).runner = .awaiting k c lc ls st) : s.finished = none := by
  cases hfin : s.finished with
  | none => rfl
  | some pr =>
    obtain ⟨-, -, haw⟩ := h.finOk pr.1 pr.2 (by rw [hfin])
    have hidx := awaiting_lt_len h hrun
    have := (anyAwaiting_eq_false_iff tasks.length s).mp haw idx hidx
    rw [hrun] at this
    simp at this

theorem awaiting_any {tasks : List String} {o : RunOpts} {s : EngineSt}
    (h : EngineInv tasks o s) {idx k : Nat} {c : ChildSt} {lc : Option Int}
    {ls : Option String} {st : Nat}
    (hrun : (s.slots idx).runner = .awaiting k c lc ls st) :
    anyAwaiting tasks.length s = true := by
  rw [anyAwaiting_eq_true_iff]
  exact ⟨idx, awaiting_lt_len h hrun, by rw [hrun]; simp⟩

/-- In sequential mode at most one promise is in flight. -/
theorem seq_unique_awaiting {tasks : List String} {o : RunOpts} {s : EngineSt}
    (h : EngineInv tasks o s) (hs : SeqMode tasks o) {idx k : Nat} {c : ChildSt}
    {lc : Option Int} {ls : Option String} {st : Nat}
    (hrun : (s.slots idx).runner = .awaiting k c lc ls st) :
    ∀ j, j ≠ idx → ((s.slots j).runner).isAwaiting = false := by
  intro j hne
  cases hrj : (s.slots j).runner with
  | awaiting k2 c2 lc2 ls2 st2 =>
    have h1 := h.seqAw hs j _ _ _ _ _ hrj
    have h2 := h.seqAw hs idx _ _ _ _ _ hrun
    exact absurd (by omega : j = idx) hne
  | notStarted => simp
  | settled v r => simp

theorem inv_endWrap {tasks : List String} {o : RunOpts} {s : EngineSt}
    (h : EngineInv tasks o s) : EngineInv tasks o (endWrap tasks.length s) := by
  unfold endWrap
  by_cases hc : (s.allSettledPending = true ∧ ¬anyAwaiting tasks.length s = true)
  · rw [if_pos hc]
    exact inv_doneFn h (by simpa using hc.2)
  · rw [if_neg hc]
    exact h

theorem drainEv_not_awaiting (n : Nat) (o : RunOpts) (s0 : EngineSt) (ev : Nat × ChildEv)
    (h1 : ((s0.slots ev.1).runner).isAwaiting = false) :
    drainEv n o s0 ev = endWrap n { s0 with time := s0.time + 1 } := by
  cases hr2 : (s0.slots ev.1).runner with
  | notStarted =>
    unfold drainEv endWrap
    dsimp only
    rw [hr2]
  | settled v r =>
    unfold drainEv endWrap
    dsimp only
    rw [hr2]
  | awaiting k c lc ls st =>
    rw [hr2] at h1
    simp at h1

theorem drainEv_awaiting (n : Nat) (o : RunOpts) (s0 : EngineSt) (ev : Nat × ChildEv)
    (k : Nat) (child : ChildSt) (lc : Option Int) (ls : Option String) (st : Nat)
    (hrun : (s0.slots ev.1).runner = .awaiting k child lc ls st) :
    drainEv n o s0 ev =
      (let newCode : Option Int :=
        match ev.2 with
        | .closeEv raw => if child.wasAborted then some 130 else raw
        | .errorEv c _ => some (c.getD 1)
       let newSig : Option String :=
        match ev.2 with
        | .closeEv _ => none
        | .errorEv _ sg => sg
       let dur := s0.time + 1 - st
       let s3 := setSlot { s0 with time := s0.time + 1 } ev.1 fun sl =>
        { sl with completed := sl.completed + 1
                  item := { sl.item with retries := (k : Int), durationMs := dur } }
       endWrap n
        (if s3.aborted = true then postLoop n o ev.1 k newCode newSig dur true s3
         else if newCode = some 0 then
           handleResolve n o ev.1 (some 0) (k : Int) dur
             (setSlot s3 ev.1 fun sl => { sl with runner := .settled .success (k : Int) })
         else if (k : Int) + 1 ≤ o.retry then
           setSlot s3 ev.1 fun sl =>
             { sl with spawns := sl.spawns + 1
                       runner := .awaiting (k + 1) ⟨true, false⟩ newCode newSig st }
         else postLoop n o ev.1 k newCode newSig dur false s3)) := by
  unfold drainEv endWrap
  dsimp only
  rw [hrun]

/-- Invariant preservation for the post-loop tail with continue-on-error:
the task settles `contExhaust` and its `.then` handler runs. -/
theorem inv_postLoop_cont {tasks : List String} {o : RunOpts} {s : EngineSt}
    {idx k : Nat} {child : ChildSt} {lc : Option Int} {ls : Option String} {st : Nat}
    {newCode : Option Int} {newSig : Option String} {dur : Nat} {broke : Bool}
    (h : EngineInv tasks o s) (hr : 0 ≤ o.retry)
    (hrun : (s.slots idx).runner = .awaiting k child lc ls st)
    (hcont : o.continueOnError = true)
    (hnz : newCode ≠ some 0)
    (hkr : broke = false → o.retry < (k : Int) + 1) :
    EngineInv tasks o (postLoop tasks.length o idx k newCode newSig dur broke
      (setSlot s idx fun sl =>
        { sl with completed := sl.completed + 1
                  item := { sl.item with retries := (k : Int), durationMs := dur } })) := by
  obtain ⟨g1, g2, g3, g4, g5⟩ := h.awaitOk idx k child lc ls st hrun
  have hidx := awaiting_lt_len h hrun
  have hltn := awaiting_lt_next h hrun
  have hf := awaiting_finished_none h hrun
  unfold postLoop
  dsimp only
  rw [if_pos hcont]
  have hT : ∀ j, ((setSlot (setSlot s idx fun sl =>
        { sl with completed := sl.completed + 1
                  item := { sl.item with retries := (k : Int), durationMs := dur } }) idx
        (fun sl => { sl with runner := .settled (.contExhaust broke) (k : Int) })).slots j)
      = if j = idx then
          { s.slots idx with
              completed := (s.slots idx).completed + 1
              item := { (s.slots idx).item with retries := (k : Int), durationMs := dur }
              runner := .settled (.contExhaust broke) (k : Int) }
        else s.slots j := by
    intro j
    by_cases hj : j = idx
    · subst hj
      rw [setSlot_slots, if_pos rfl, setSlot_slots, if_pos rfl, if_pos rfl]
    · rw [setSlot_slots, if_neg hj, setSlot_slots, if_neg hj, if_neg hj]
  have hcz : countZeros tasks.length (setSlot (setSlot s idx fun sl =>
        { sl with completed := sl.completed + 1
                  item := { sl.item with retries := (k : Int), durationMs := dur } }) idx
        (fun sl => { sl with runner := .settled (.contExhaust broke) (k : Int) }))
      = countZeros tasks.length s := by
    apply countZeros_congr
    intro i _
    rw [hT]
    by_cases hij : i = idx
    · rw [if_pos hij, hij]
    · rw [if_neg hij]
  have hInv4 : EngineInv tasks o (setSlot (setSlot s idx fun sl =>
        { sl with completed := sl.completed + 1
                  item := { sl.item with retries := (k : Int), durationMs := dur } }) idx
        (fun sl => { sl with runner := .settled (.contExhaust broke) (k : Int) })) := by
    refine ⟨⟨?_, h.nextLe, ?_, ?_, ?_, ?_, ?_, ?_, ?_, ?_, ?_, ?_, ?_⟩, ?_⟩
    · intro i hi
      rw [hT]
      by_cases hij : i = idx
      · subst hij
        rw [if_pos rfl]
        exact h.names _ hi
      · rw [if_neg hij]
        exact h.names _ hi
    · intro i
      rw [hT]
      show _ ↔ s.nextIdx ≤ i
      by_cases hij : i = idx
      · rw [if_pos hij]
        constructor
        · intro hcon; cases hcon
        · intro hle
          rw [hij] at hle
          exact absurd hle (by omega)
      · rw [if_neg hij]
        exact h.startedIff i
    · intro i hrun2
      rw [hT] at hrun2
      by_cases hij : i = idx
      · rw [if_pos hij] at hrun2
        cases hrun2
      · rw [if_neg hij] at hrun2
        rw [hT, if_neg hij]
        exact h.fresh i hrun2
    · intro i k2 c2 lc2 ls2 st2 hrun2
      rw [hT] at hrun2
      by_cases hij : i = idx
      · rw [if_pos hij] at hrun2
        cases hrun2
      · rw [if_neg hij] at hrun2
        rw [hT, if_neg hij]
        obtain ⟨p1, p2, p3, p4, p5⟩ := h.awaitOk i k2 c2 lc2 ls2 st2 hrun2
        exact ⟨p1, fun ha2 => p2 ha2, p3, p4, p5⟩
    · intro i
      rw [hT]
      by_cases hij : i = idx
      · rw [if_pos hij]
        exact g1
      · rw [if_neg hij]
        exact h.retriesLe i
    · intro hrace
      rw [hcz]
      exact h.raceZeros hrace
    · intro e res hres
      have hres2 : s.finished = some (e, res) := hres
      rw [hf] at hres2
      cases hres2
    · intro hc i broke2 r hrun2
      rw [hT] at hrun2
      by_cases hij : i = idx
      · rw [if_pos hij] at hrun2
        simp only [RunnerSt.settled.injEq, SettleVia.contExhaust.injEq] at hrun2
        obtain ⟨hbr, hrr⟩ := hrun2
        rw [hT, if_pos hij]
        refine ⟨by rw [← hrr], ?_, ?_⟩
        · show r = ((s.slots idx).completed + 1 : Nat) - 1
          rw [g4, ← hrr]
          push_cast
          ring
        · intro hbf2
          rw [← hbr] at hbf2
          have := hkr hbf2
          omega
      · rw [if_neg hij] at hrun2
        rw [hT, if_neg hij]
        exact h.contSet hc i broke2 r hrun2
    · intro hs i k2 c2 lc2 ls2 st2 hrun2
      rw [hT] at hrun2
      by_cases hij : i = idx
      · rw [if_pos hij] at hrun2
        cases hrun2
      · rw [if_neg hij] at hrun2
        exact h.seqAw hs i k2 c2 lc2 ls2 st2 hrun2
    · intro hs e he
      have he2 : s.err = some e := he
      exact absurd hf (h.seqErr hs e he2).1
    · intro hs i hi hrun2
      rw [hT] at hrun2
      by_cases hij : i = idx
      · rw [if_pos hij] at hrun2
        cases hrun2
      · rw [if_neg hij] at hrun2
        rw [hT, if_neg hij]
        exact h.seqFresh hs i hi hrun2
    · intro hs hab4
      have hab2 : s.aborted = true := hab4
      have := h.seqNoAw hs hab2
      have hany := awaiting_any h hrun
      rw [hany] at this
      cases this
    · intro hrace hc
      rw [hcz] at hc
      exact h.raceAb hrace hc
  apply inv_handleResolve hInv4 hr hf g1 (Or.inr hcont)
  · exact fun h0 => absurd h0 hnz
  · intro broke2 r hx
    rw [hT, if_pos rfl] at hx
    simp only [RunnerSt.settled.injEq, SettleVia.contExhaust.injEq] at hx
    exact hx.2.symm
  · intro hx
    rw [hT, if_pos rfl] at hx
    cases hx
  · exact fun hs => (hs.not_cont hcont).elim
  · exact fun hs => (hs.not_cont hcont).elim

/-- Invariant preservation for the post-loop tail without continue-on-error:
`results.map` by name, settle `rejExhaust`, then the `.catch` handler runs
(returning at once under abort, else recording the error and aborting). -/
theorem inv_postLoop_nocont {tasks : List String} {o : RunOpts} {s : EngineSt}
    {idx k : Nat} {child : ChildSt} {lc : Option Int} {ls : Option String} {st : Nat}
    {newCode : Option Int} {newSig : Option String} {dur : Nat} {broke : Bool}
    (h : EngineInv tasks o s) (hr : 0 ≤ o.retry)
    (hrun : (s.slots idx).runner = .awaiting k child lc ls st)
    (hcont : o.continueOnError = false)
    (hnz : newCode ≠ some 0)
    (hba : broke = true → s.aborted = true)
    (hbf : broke = false → s.aborted = false) :
    EngineInv tasks o (postLoop tasks.length o idx k newCode newSig dur broke
      (setSlot s idx fun sl =>
        { sl with completed := sl.completed + 1
                  item := { sl.item with retries := (k : Int), durationMs := dur } })) := by
  obtain ⟨g1, g2, g3, g4, g5⟩ := h.awaitOk idx k child lc ls st hrun
  have hidx := awaiting_lt_len h hrun
  have hltn := awaiting_lt_next h hrun
  have hf := awaiting_finished_none h hrun
  have hseqerr : SeqMode tasks o → s.err = none := by
    intro hs
    cases he : s.err with
    | none => rfl
    | some e => exact absurd hf (h.seqErr hs e he).1
  unfold postLoop
  dsimp only
  rw [if_neg (by simp [hcont])]
  rw [show ((setSlot s idx fun sl =>
      { sl with completed := sl.completed + 1
                item := { sl.item with retries := (k : Int), durationMs := dur } }).slots idx).name
    = (s.slots idx).name by rw [setSlot_slots, if_pos rfl]]
  revert hnz
  generalize hgen : (match newCode with
    | some c => some c
    | none =>
      match newSig with
      | some sg => some (128 + convert sg)
      | none => none : Option Int) = fc
  intro hnz
  unfold handleReject
  dsimp only
  have hfc : fc ≠ some 0 := by
    rw [← hgen]
    cases newCode with
    | some c => exact hnz
    | none =>
      cases newSig with
      | some sg =>
        intro heq
        simp only [Option.some.injEq] at heq
        have := convert_nonneg sg
        omega
      | none => simp
  have hT : ∀ j, ((setSlot (mapByName (setSlot s idx fun sl =>
        { sl with completed := sl.completed + 1
                  item := { sl.item with retries := (k : Int), durationMs := dur } })
          ((s.slots idx).name) fc (k : Int) dur) idx
        (fun sl => { sl with runner := .settled (.rejExhaust broke) (k : Int) })).slots j)
      = if j = idx then
          { s.slots idx with
              completed := (s.slots idx).completed + 1
              runner := .settled (.rejExhaust broke) (k : Int)
              item := if (s.slots idx).item.name = (s.slots idx).name then
                  { (s.slots idx).item with code := fc, retries := (k : Int), durationMs := dur }
                else { (s.slots idx).item with retries := (k : Int), durationMs := dur } }
        else if (s.slots j).item.name = (s.slots idx).name then
          { s.slots j with
              item := { (s.slots j).item with code := fc, retries := (k : Int), durationMs := dur } }
        else s.slots j := by
    intro j
    rw [setSlot_slots]
    by_cases hj : j = idx
    · subst hj
      rw [if_pos rfl, if_pos rfl, mapByName_slots, setSlot_slots, if_pos rfl]
      by_cases hn : ((s.slots j).item.name = (s.slots j).name)
      · rw [if_pos hn, if_pos hn]
      · rw [if_neg hn, if_neg hn]
    · rw [if_neg hj, if_neg hj, mapByName_slots, setSlot_slots, if_neg hj]
  have hzle : countZeros tasks.length ((setSlot (mapByName (setSlot s idx fun sl =>
        { sl with completed := sl.completed + 1
                  item := { sl.item with retries := (k : Int), durationMs := dur } })
          ((s.slots idx).name) fc (k : Int) dur) idx
        (fun sl => { sl with runner := .settled (.rejExhaust broke) (k : Int) })))
      ≤ countZeros tasks.length s := by
    rw [countZeros_eq_countP, countZeros_eq_countP]
    apply countP_pointwise_le
    intro i _ hq
    rw [hT] at hq
    by_cases hij : i = idx
    · rw [if_pos hij] at hq
      by_cases hn : ((s.slots idx).item.name = (s.slots idx).name)
      · rw [if_pos hn] at hq
        simp only [decide_eq_true_eq] at hq
        exact absurd hq hfc
      · rw [if_neg hn] at hq
        simp only [decide_eq_true_eq] at hq
        rw [hij]
        simpa using hq
    · rw [if_neg hij] at hq
      by_cases hn : ((s.slots i).item.name = (s.slots idx).name)
      · rw [if_pos hn] at hq
        simp only [decide_eq_true_eq] at hq
        exact absurd hq hfc
      · rw [if_neg hn] at hq
        exact hq
  have hAw5 : ∀ j, j < tasks.length → (((setSlot (mapByName (setSlot s idx fun sl =>
        { sl with completed := sl.completed + 1
                  item := { sl.item with retries := (k : Int), durationMs := dur } })
          ((s.slots idx).name) fc (k : Int) dur) idx
        (fun sl => { sl with runner := .settled (.rejExhaust broke) (k : Int) })).slots j).runner).isAwaiting
      = ((s.slots j).runner).isAwaiting ∨ j = idx := by
    intro j hj
    by_cases hij : j = idx
    · exact Or.inr hij
    · refine Or.inl ?_
      rw [hT, if_neg hij]
      by_cases hn : ((s.slots j).item.name = (s.slots idx).name)
      · rw [if_pos hn]
      · rw [if_neg hn]
  cases hbroke : broke with
  | true =>
    subst hbroke
    have hab : s.aborted = true := hba rfl
    have hseqF : SeqMode tasks o → False := by
      intro hs
      have := h.seqNoAw hs hab
      have hany := awaiting_any h hrun
      rw [hany] at this
      cases this
    split
    · refine ⟨⟨?_, h.nextLe, ?_, ?_, ?_, ?_, ?_, ?_, ?_, ?_, ?_, ?_, ?_⟩, ?_⟩
      · intro i hi
        rw [hT]
        by_cases hij : i = idx
        · subst hij
          rw [if_pos rfl]
          by_cases hn : ((s.slots i).item.name = (s.slots i).name)
          · rw [if_pos hn]
            exact h.names _ hi
          · rw [if_neg hn]
            exact h.names _ hi
        · rw [if_neg hij]
          by_cases hn : ((s.slots i).item.name = (s.slots idx).name)
          · rw [if_pos hn]
            exact h.names _ hi
          · rw [if_neg hn]
            exact h.names _ hi
      · intro i
        rw [hT]
        show _ ↔ s.nextIdx ≤ i
        by_cases hij : i = idx
        · rw [if_pos hij]
          constructor
          · intro hcon; cases hcon
          · intro hle
            rw [hij] at hle
            exact absurd hle (by omega)
        · rw [if_neg hij]
          by_cases hn : ((s.slots i).item.name = (s.slots idx).name)
          · rw [if_pos hn]
            show (s.slots i).runner = _ ↔ _
            exact h.startedIff i
          · rw [if_neg hn]
            exact h.startedIff i
      · intro i hrun2
        rw [hT] at hrun2
        by_cases hij : i = idx
        · rw [if_pos hij] at hrun2
          cases hrun2
        · rw [if_neg hij] at hrun2
          rw [hT, if_neg hij]
          by_cases hn : ((s.slots i).item.name = (s.slots idx).name)
          · rw [if_pos hn] at hrun2 ⊢
            exact h.fresh i hrun2
          · rw [if_neg hn] at hrun2 ⊢
            exact h.fresh i hrun2
      · intro i k2 c2 lc2 ls2 st2 hrun2
        rw [hT] at hrun2
        by_cases hij : i = idx
        · rw [if_pos hij] at hrun2
          cases hrun2
        · rw [if_neg hij] at hrun2
          rw [hT, if_neg hij]
          by_cases hn : ((s.slots i).item.name = (s.slots idx).name)
          · rw [if_pos hn] at hrun2 ⊢
            obtain ⟨p1, p2, p3, p4, p5⟩ := h.awaitOk i k2 c2 lc2 ls2 st2 hrun2
            exact ⟨p1, fun _ => p2 hab, p3, p4, p5⟩
          · rw [if_neg hn] at hrun2 ⊢
            obtain ⟨p1, p2, p3, p4, p5⟩ := h.awaitOk i k2 c2 lc2 ls2 st2 hrun2
            exact ⟨p1, fun _ => p2 hab, p3, p4, p5⟩
      · intro i
        rw [hT]
        by_cases hij : i = idx
        · rw [if_pos hij]
          by_cases hn : ((s.slots idx).item.name = (s.slots idx).name)
          · rw [if_pos hn]
            exact g1
          · rw [if_neg hn]
            exact g1
        · rw [if_neg hij]
          by_cases hn : ((s.slots i).item.name = (s.slots idx).name)
          · rw [if_pos hn]
            exact g1
          · rw [if_neg hn]
            exact h.retriesLe i
      · intro hrace
        exact le_trans hzle (h.raceZeros hrace)
      · intro e res hres
        have hres2 : s.finished = some (e, res) := hres
        rw [hf] at hres2
        cases hres2
      · intro hc
        rw [hcont] at hc
        cases hc
      · exact fun hs => (hseqF hs).elim
      · exact fun hs => (hseqF hs).elim
      · exact fun hs => (hseqF hs).elim
      · exact fun hs => (hseqF hs).elim
      · exact fun _ _ => hab
    · rename_i hcnd
      exact (hcnd hab).elim
  | false =>
    subst hbroke
    have habf : s.aborted = false := hbf rfl
    split
    · rename_i hcnd
      have hcc : s.aborted = true := hcnd
      rw [habf] at hcc
      cases hcc
    · rw [if_pos (Or.inl (by simp [hcont]))]
      by_cases hSeq : SeqMode tasks o
      · -- sequential mode: the abort finds nothing in flight and settles at once
        have hA6 : anyAwaiting tasks.length
            (setSlot (mapByName (setSlot s idx fun sl =>
                { sl with completed := sl.completed + 1
                          item := { sl.item with retries := (k : Int), durationMs := dur } })
                  ((s.slots idx).name) fc (k : Int) dur) idx
                (fun sl => { sl with runner := .settled (.rejExhaust false) (k : Int) }))
            = false := by
          rw [anyAwaiting_eq_false_iff]
          intro j hj
          rw [hT]
          by_cases hij : j = idx
          · rw [if_pos hij]
            simp
          · rw [if_neg hij]
            by_cases hn : ((s.slots j).item.name = (s.slots idx).name)
            · rw [if_pos hn]
              exact seq_unique_awaiting h hSeq hrun j hij
            · rw [if_neg hn]
              exact seq_unique_awaiting h hSeq hrun j hij
        rw [abortCore_def2, if_neg (by
          intro hcc
          have hcc2 : anyAwaiting tasks.length
              (setSlot (mapByName (setSlot s idx fun sl =>
                  { sl with completed := sl.completed + 1
                            item := { sl.item with retries := (k : Int), durationMs := dur } })
                    ((s.slots idx).name) fc (k : Int) dur) idx
                  (fun sl => { sl with runner := .settled (.rejExhaust false) (k : Int) }))
              = true := hcc
          rw [hA6] at hcc2
          cases hcc2)]
        unfold doneFn
        split
        · rename_i hcnd
          have hcc : s.finished.isSome = true := hcnd
          rw [hf] at hcc
          simp at hcc
        · refine ⟨⟨?_, h.nextLe, ?_, ?_, ?_, ?_, ?_, ?_, ?_, ?_, ?_, ?_, ?_⟩, ?_⟩
          · intro i hi
            rw [hT]
            by_cases hij : i = idx
            · subst hij
              rw [if_pos rfl]
              by_cases hn : ((s.slots i).item.name = (s.slots i).name)
              · rw [if_pos hn]
                exact h.names _ hi
              · rw [if_neg hn]
                exact h.names _ hi
            · rw [if_neg hij]
              by_cases hn : ((s.slots i).item.name = (s.slots idx).name)
              · rw [if_pos hn]
                exact h.names _ hi
              · rw [if_neg hn]
                exact h.names _ hi
          · intro i
            rw [hT]
            show _ ↔ s.nextIdx ≤ i
            by_cases hij : i = idx
            · rw [if_pos hij]
              constructor
              · intro hcon; cases hcon
              · intro hle
                rw [hij] at hle
                exact absurd hle (by omega)
            · rw [if_neg hij]
              by_cases hn : ((s.slots i).item.name = (s.slots idx).name)
              · rw [if_pos hn]
                show (s.slots i).runner = _ ↔ _
                exact h.startedIff i
              · rw [if_neg hn]
                exact h.startedIff i
          · intro i hrun2
            rw [hT] at hrun2
            by_cases hij : i = idx
            · rw [if_pos hij] at hrun2
              cases hrun2
            · rw [if_neg hij] at hrun2
              rw [hT, if_neg hij]
              by_cases hn : ((s.slots i).item.name = (s.slots idx).name)
              · rw [if_pos hn] at hrun2 ⊢
                exact h.fresh i hrun2
              · rw [if_neg hn] at hrun2 ⊢
                exact h.fresh i hrun2
          · intro i k2 c2 lc2 ls2 st2 hrun2
            rw [hT] at hrun2
            by_cases hij : i = idx
            · rw [if_pos hij] at hrun2
              cases hrun2
            · rw [if_neg hij] at hrun2
              exfalso
              have h2 := seq_unique_awaiting h hSeq hrun i hij
              by_cases hn : ((s.slots i).item.name = (s.slots idx).name)
              · rw [if_pos hn] at hrun2
                have hx : (s.slots i).runner = .awaiting k2 c2 lc2 ls2 st2 := hrun2
                rw [hx] at h2
                simp at h2
              · rw [if_neg hn] at hrun2
                rw [hrun2] at h2
                simp at h2
          · intro i
            rw [hT]
            by_cases hij : i = idx
            · rw [if_pos hij]
              by_cases hn : ((s.slots idx).item.name = (s.slots idx).name)
              · rw [if_pos hn]
                exact g1
              · rw [if_neg hn]
                exact g1
            · rw [if_neg hij]
              by_cases hn : ((s.slots i).item.name = (s.slots idx).name)
              · rw [if_pos hn]
                exact g1
              · rw [if_neg hn]
                exact h.retriesLe i
          · intro hrace
            rw [hSeq.race_eq] at hrace
            cases hrace
          · intro e' res hres
            simp only [Option.some.injEq, Prod.mk.injEq] at hres
            refine ⟨hres.1.symm, hres.2.symm, hA6⟩
          · intro hc
            rw [hcont] at hc
            cases hc
          · intro hs i k2 c2 lc2 ls2 st2 hrun2
            exfalso
            rw [hT] at hrun2
            by_cases hij : i = idx
            · rw [if_pos hij] at hrun2
              cases hrun2
            · rw [if_neg hij] at hrun2
              have h2 := seq_unique_awaiting h hSeq hrun i hij
              by_cases hn : ((s.slots i).item.name = (s.slots idx).name)
              · rw [if_pos hn] at hrun2
                have hx : (s.slots i).runner = .awaiting k2 c2 lc2 ls2 st2 := hrun2
                rw [hx] at h2
                simp at h2
              · rw [if_neg hn] at hrun2
                rw [hrun2] at h2
                simp at h2
          · intro hs e' he'
            have h2 : (some { name := some ((s.slots idx).name), code := fc } : Option RunErr)
                = some e' := he'
            simp only [Option.some.injEq] at h2
            refine ⟨?_, ?_, ?_⟩
            · intro hcc
              simp at hcc
            · show 1 ≤ s.nextIdx
              omega
            · rw [← h2]
              show some ((s.slots idx).name) = some (tasks.getD (s.nextIdx - 1) "")
              have hseqidx := h.seqAw hSeq idx _ _ _ _ _ hrun
              have hgd : s.nextIdx - 1 = idx := by omega
              rw [hgd, (h.names idx hidx).1]
          · intro hs i hi hrun2
            rw [hT] at hrun2
            by_cases hij : i = idx
            · rw [if_pos hij] at hrun2
              cases hrun2
            · rw [if_neg hij] at hrun2
              have hx : (s.slots i).runner = .notStarted := by
                by_cases hn : ((s.slots i).item.name = (s.slots idx).name)
                · rw [if_pos hn] at hrun2
                  exact hrun2
                · rw [if_neg hn] at hrun2
                  exact hrun2
              have hinit : (s.slots i).item = ⟨tasks.getD i "", none, 0, 0⟩ :=
                ((h.seqFresh hSeq i hi hx).1 (hseqerr hSeq))
              refine ⟨?_, ?_⟩
              · intro hcc
                simp at hcc
              · intro e' he' hne
                have h2 : (some { name := some ((s.slots idx).name), code := fc } : Option RunErr)
                    = some e' := he'
                simp only [Option.some.injEq] at h2
                rw [← h2] at hne
                rw [hT, if_neg hij]
                by_cases hn : ((s.slots i).item.name = (s.slots idx).name)
                · exfalso
                  rw [hinit] at hn
                  have hn2 : tasks.getD i "" = (s.slots idx).name := hn
                  exact hne (congrArg some hn2.symm)
                · rw [if_neg hn]
                  exact hinit
          · intro hs _
            exact hA6
          · intro hrace
            rw [hSeq.race_eq] at hrace
            cases hrace
      · -- parallel (or continue-style) mode: the generic abort lemma applies
        apply inv_abortCore _ (fun hs => (hSeq hs).elim)
        refine ⟨?_, h.nextLe, ?_, ?_, ?_, ?_, ?_, ?_, ?_, ?_, ?_, ?_, ?_⟩
        · intro i hi
          rw [hT]
          by_cases hij : i = idx
          · subst hij
            rw [if_pos rfl]
            by_cases hn : ((s.slots i).item.name = (s.slots i).name)
            · rw [if_pos hn]
              exact h.names _ hi
            · rw [if_neg hn]
              exact h.names _ hi
          · rw [if_neg hij]
            by_cases hn : ((s.slots i).item.name = (s.slots idx).name)
            · rw [if_pos hn]
              exact h.names _ hi
            · rw [if_neg hn]
              exact h.names _ hi
        · intro i
          rw [hT]
          show _ ↔ s.nextIdx ≤ i
          by_cases hij : i = idx
          · rw [if_pos hij]
            constructor
            · intro hcon; cases hcon
            · intro hle
              rw [hij] at hle
              exact absurd hle (by omega)
          · rw [if_neg hij]
            by_cases hn : ((s.slots i).item.name = (s.slots idx).name)
            · rw [if_pos hn]
              show (s.slots i).runner = _ ↔ _
              exact h.startedIff i
            · rw [if_neg hn]
              exact h.startedIff i
        · intro i hrun2
          rw [hT] at hrun2
          by_cases hij : i = idx
          · rw [if_pos hij] at hrun2
            cases hrun2
          · rw [if_neg hij] at hrun2
            rw [hT, if_neg hij]
            by_cases hn : ((s.slots i).item.name = (s.slots idx).name)
            · rw [if_pos hn] at hrun2 ⊢
              exact h.fresh i hrun2
            · rw [if_neg hn] at hrun2 ⊢
              exact h.fresh i hrun2
        · intro i k2 c2 lc2 ls2 st2 hrun2
          rw [hT] at hrun2
          by_cases hij : i = idx
          · rw [if_pos hij] at hrun2
            cases hrun2
          · rw [if_neg hij] at hrun2
            rw [hT, if_neg hij]
            by_cases hn : ((s.slots i).item.name = (s.slots idx).name)
            · rw [if_pos hn] at hrun2 ⊢
              obtain ⟨p1, p2, p3, p4, p5⟩ := h.awaitOk i k2 c2 lc2 ls2 st2 hrun2
              refine ⟨p1, ?_, p3, p4, p5⟩
              intro ha2
              have hcc : s.aborted = true := ha2
              rw [habf] at hcc
              cases hcc
            · rw [if_neg hn] at hrun2 ⊢
              obtain ⟨p1, p2, p3, p4, p5⟩ := h.awaitOk i k2 c2 lc2 ls2 st2 hrun2
              refine ⟨p1, ?_, p3, p4, p5⟩
              intro ha2
              have hcc : s.aborted = true := ha2
              rw [habf] at hcc
              cases hcc
        · intro i
          rw [hT]
          by_cases hij : i = idx
          · rw [if_pos hij]
            by_cases hn : ((s.slots idx).item.name = (s.slots idx).name)
            · rw [if_pos hn]
              exact g1
            · rw [if_neg hn]
              exact g1
          · rw [if_neg hij]
            by_cases hn : ((s.slots i).item.name = (s.slots idx).name)
            · rw [if_pos hn]
              exact g1
            · rw [if_neg hn]
              exact h.retriesLe i
        · intro hrace
          exact le_trans hzle (h.raceZeros hrace)
        · intro e' res hres
          have hres2 : s.finished = some (e', res) := hres
          rw [hf] at hres2
          cases hres2
        · intro hc
          rw [hcont] at hc
          cases hc
        · exact fun hs => (hSeq hs).elim
        · exact fun hs => (hSeq hs).elim
        · exact fun hs => (hSeq hs).elim
        · exact fun hs => (hSeq hs).elim

/-- Invariant preservation for one drain: a child event delivered to its
runner, followed by every microtask it triggers. -/
theorem inv_drain {tasks : List String} {o : RunOpts} {s0 : EngineSt} {ev : Nat × ChildEv}
    (h : EngineInv tasks o s0) (hr : 0 ≤ o.retry) (hEv : EvOk ev) :
    EngineInv tasks o (drainEv tasks.length o s0 ev) := by
  cases hrun : (s0.slots ev.1).runner with
  | notStarted =>
    rw [drainEv_not_awaiting _ _ _ _ (by rw [hrun]; rfl)]
    exact inv_endWrap (inv_time h _)
  | settled v r =>
    rw [drainEv_not_awaiting _ _ _ _ (by rw [hrun]; rfl)]
    exact inv_endWrap (inv_time h _)
  | awaiting k child lc ls st =>
    obtain ⟨g1, g2, g3, g4, g5⟩ := h.awaitOk ev.1 k child lc ls st hrun
    have hidx := awaiting_lt_len h hrun
    have hltn := awaiting_lt_next h hrun
    have hf0 := awaiting_finished_none h hrun
    have h1 : EngineInv tasks o ({ s0 with time := s0.time + 1 }) := inv_time h _
    have hrun1 : (({ s0 with time := s0.time + 1 } : EngineSt).slots ev.1).runner
        = .awaiting k child lc ls st := hrun
    rw [drainEv_awaiting _ _ _ _ k child lc ls st hrun]
    dsimp only
    revert hEv
    generalize hgc : (match ev.2 with
      | ChildEv.closeEv raw => if child.wasAborted = true then some 130 else raw
      | ChildEv.errorEv c _ => some (c.getD 1) : Option Int) = nc
    generalize hgs : (match ev.2 with
      | ChildEv.closeEv _ => none
      | ChildEv.errorEv _ sg => sg : Option String) = nsg
    intro hEv
    have hncz : s0.aborted = true → nc ≠ some 0 := by
      intro hab heq
      rw [← hgc] at heq
      cases hev2 : ev.2 with
      | closeEv raw =>
        have hw := g2 hab
        rw [hev2] at heq
        simp [hw] at heq
      | errorEv c sg =>
        have hcne := hEv c sg hev2
        rw [hev2] at heq
        cases c with
        | none => simp at heq
        | some c2 =>
          simp at heq
          exact hcne (by rw [heq])
    apply inv_endWrap
    split
    · rename_i habS3
      have hab0 : s0.aborted = true := habS3
      by_cases hcont : o.continueOnError = true
      · exact inv_postLoop_cont h1 hr hrun1 hcont (hncz hab0) (by intro hx; cases hx)
      · exact inv_postLoop_nocont h1 hr hrun1 (by simpa using hcont) (hncz hab0)
          (fun _ => hab0) (by intro hx; cases hx)
    · rename_i habS3f
      have hab0 : s0.aborted = false := by
        have hx : ¬(s0.aborted = true) := habS3f
        simpa using hx
      split
      · rename_i hzc
        have hT : ∀ j, ((setSlot (setSlot ({ s0 with time := s0.time + 1 } : EngineSt) ev.1 fun sl =>
              { sl with completed := sl.completed + 1
                        item := { sl.item with
                            retries := (k : Int)
                            durationMs := s0.time + 1 - st } }) ev.1
              (fun sl => { sl with runner := .settled .success (k : Int) })).slots j)
            = if j = ev.1 then
                { s0.slots ev.1 with
                    completed := (s0.slots ev.1).completed + 1
                    item := { (s0.slots ev.1).item with
                        retries := (k : Int)
                        durationMs := s0.time + 1 - st }
                    runner := .settled .success (k : Int) }
              else s0.slots j := by
          intro j
          by_cases hj : j = ev.1
          · subst hj
            rw [setSlot_slots, if_pos rfl, setSlot_slots, if_pos rfl, if_pos rfl]
          · rw [setSlot_slots, if_neg hj, setSlot_slots, if_neg hj, if_neg hj]
        have hcz : countZeros tasks.length ((setSlot (setSlot ({ s0 with time := s0.time + 1 } : EngineSt) ev.1 fun sl =>
              { sl with completed := sl.completed + 1
                        item := { sl.item with
                            retries := (k : Int)
                            durationMs := s0.time + 1 - st } }) ev.1
              (fun sl => { sl with runner := .settled .success (k : Int) })))
            = countZeros tasks.length s0 := by
          apply countZeros_congr
          intro i _
          rw [hT]
          by_cases hij : i = ev.1
          · rw [if_pos hij, hij]
          · rw [if_neg hij]
        have hInv4 : EngineInv tasks o (setSlot (setSlot ({ s0 with time := s0.time + 1 } : EngineSt) ev.1 (fun sl =>
              { sl with completed := sl.completed + 1
                        item := { sl.item with
                            retries := (k : Int)
                            durationMs := s0.time + 1 - st } }) ) ev.1
              (fun sl => { sl with runner := .settled .success (k : Int) })) := by
          refine ⟨⟨?_, h.nextLe, ?_, ?_, ?_, ?_, ?_, ?_, ?_, ?_, ?_, ?_, ?_⟩, ?_⟩
          · intro i hi
            rw [hT]
            by_cases hij : i = ev.1
            · subst hij
              rw [if_pos rfl]
              exact h.names _ hi
            · rw [if_neg hij]
              exact h.names _ hi
          · intro i
            rw [hT]
            show _ ↔ s0.nextIdx ≤ i
            by_cases hij : i = ev.1
            · rw [if_pos hij]
              constructor
              · intro hcon; cases hcon
              · intro hle
                rw [hij] at hle
                exact absurd hle (by omega)
            · rw [if_neg hij]
              exact h.startedIff i
          · intro i hrun2
            rw [hT] at hrun2
            by_cases hij : i = ev.1
            · rw [if_pos hij] at hrun2
              cases hrun2
            · rw [if_neg hij] at hrun2
              rw [hT, if_neg hij]
              exact h.fresh i hrun2
          · intro i k2 c2 lc2 ls2 st2 hrun2
            rw [hT] at hrun2
            by_cases hij : i = ev.1
            · rw [if_pos hij] at hrun2
              cases hrun2
            · rw [if_neg hij] at hrun2
              rw [hT, if_neg hij]
              obtain ⟨p1, p2, p3, p4, p5⟩ := h.awaitOk i k2 c2 lc2 ls2 st2 hrun2
              exact ⟨p1, fun ha2 => p2 ha2, p3, p4, p5⟩
          · intro i
            rw [hT]
            by_cases hij : i = ev.1
            · rw [if_pos hij]
              exact g1
            · rw [if_neg hij]
              exact h.retriesLe i
          · intro hrace
            rw [hcz]
            exact h.raceZeros hrace
          · intro e res hres
            have hres2 : s0.finished = some (e, res) := hres
            rw [hf0] at hres2
            cases hres2
          · intro hc i broke2 r hrun2
            rw [hT] at hrun2
            by_cases hij : i = ev.1
            · rw [if_pos hij] at hrun2
              simp at hrun2
            · rw [if_neg hij] at hrun2
              rw [hT, if_neg hij]
              exact h.contSet hc i broke2 r hrun2
          · intro hs i k2 c2 lc2 ls2 st2 hrun2
            rw [hT] at hrun2
            by_cases hij : i = ev.1
            · rw [if_pos hij] at hrun2
              cases hrun2
            · rw [if_neg hij] at hrun2
              exact h.seqAw hs i k2 c2 lc2 ls2 st2 hrun2
          · intro hs e he
            have he2 : s0.err = some e := he
            exact absurd hf0 (h.seqErr hs e he2).1
          · intro hs i hi hrun2
            rw [hT] at hrun2
            by_cases hij : i = ev.1
            · rw [if_pos hij] at hrun2
              cases hrun2
            · rw [if_neg hij] at hrun2
              rw [hT, if_neg hij]
              exact h.seqFresh hs i hi hrun2
          · intro hs hab2
            have hab3 : s0.aborted = true := hab2
            rw [hab0] at hab3
            cases hab3
          · intro hrace hc
            rw [hcz] at hc
            exact h.raceAb hrace hc
        apply inv_handleResolve hInv4 hr hf0 g1 (Or.inl rfl)
        · exact fun _ => hab0
        · intro broke2 r hx
          rw [hT, if_pos rfl] at hx
          simp at hx
        · intro hx
          rw [hT, if_pos rfl] at hx
          cases hx
        · intro hs
          rw [anyAwaiting_eq_false_iff]
          intro j hj
          rw [hT]
          by_cases hij : j = ev.1
          · rw [if_pos hij]
            simp
          · rw [if_neg hij]
            exact seq_unique_awaiting h hs hrun j hij
        · exact fun _ => hab0
      · rename_i hzcf
        split
        · rename_i hkle
          have hT : ∀ j, ((setSlot (setSlot ({ s0 with time := s0.time + 1 } : EngineSt) ev.1 fun sl =>
                { sl with completed := sl.completed + 1
                          item := { sl.item with
                              retries := (k : Int)
                              durationMs := s0.time + 1 - st } }) ev.1
                (fun sl => { sl with spawns := sl.spawns + 1
                                     runner := .awaiting (k + 1) ⟨true, false⟩ nc nsg st })).slots j)
              = if j = ev.1 then
                  { s0.slots ev.1 with
                      completed := (s0.slots ev.1).completed + 1
                      spawns := (s0.slots ev.1).spawns + 1
                      item := { (s0.slots ev.1).item with
                          retries := (k : Int)
                          durationMs := s0.time + 1 - st }
                      runner := .awaiting (k + 1) ⟨true, false⟩ nc nsg st }
                else s0.slots j := by
            intro j
            by_cases hj : j = ev.1
            · subst hj
              rw [setSlot_slots, if_pos rfl, setSlot_slots, if_pos rfl, if_pos rfl]
            · rw [setSlot_slots, if_neg hj, setSlot_slots, if_neg hj, if_neg hj]
          have hcz : countZeros tasks.length ((setSlot (setSlot ({ s0 with time := s0.time + 1 } : EngineSt) ev.1 fun sl =>
                { sl with completed := sl.completed + 1
                          item := { sl.item with
                              retries := (k : Int)
                              durationMs := s0.time + 1 - st } }) ev.1
                (fun sl => { sl with spawns := sl.spawns + 1
                                     runner := .awaiting (k + 1) ⟨true, false⟩ nc nsg st })))
              = countZeros tasks.length s0 := by
            apply countZeros_congr
            intro i _
            rw [hT]
            by_cases hij : i = ev.1
            · rw [if_pos hij, hij]
            · rw [if_neg hij]
          refine ⟨⟨?_, h.nextLe, ?_, ?_, ?_, ?_, ?_, ?_, ?_, ?_, ?_, ?_, ?_⟩, ?_⟩
          · intro i hi
            rw [hT]
            by_cases hij : i = ev.1
            · subst hij
              rw [if_pos rfl]
              exact h.names _ hi
            · rw [if_neg hij]
              exact h.names _ hi
          · intro i
            rw [hT]
            show _ ↔ s0.nextIdx ≤ i
            by_cases hij : i = ev.1
            · rw [if_pos hij]
              constructor
              · intro hcon; cases hcon
              · intro hle
                rw [hij] at hle
                exact absurd hle (by omega)
            · rw [if_neg hij]
              exact h.startedIff i
          · intro i hrun2
            rw [hT] at hrun2
            by_cases hij : i = ev.1
            · rw [if_pos hij] at hrun2
              cases hrun2
            · rw [if_neg hij] at hrun2
              rw [hT, if_neg hij]
              exact h.fresh i hrun2
          · intro i k2 c2 lc2 ls2 st2 hrun2
            rw [hT] at hrun2
            by_cases hij : i = ev.1
            · rw [if_pos hij] at hrun2
              simp only [RunnerSt.awaiting.injEq] at hrun2
              obtain ⟨hk2, hc2, hlc2, hls2, hst2⟩ := hrun2
              rw [hT, if_pos hij]
              refine ⟨by rw [← hk2]; exact_mod_cast hkle, ?_, ?_, ?_, ?_⟩
              · intro ha2
                have hab3 : s0.aborted = true := ha2
                rw [hab0] at hab3
                cases hab3
              · rw [← hc2]
                exact Or.inl rfl
              · show (s0.slots ev.1).completed + 1 = k2
                omega
              · show (s0.slots ev.1).spawns + 1 = k2 + 1
                omega
            · rw [if_neg hij] at hrun2
              rw [hT, if_neg hij]
              obtain ⟨p1, p2, p3, p4, p5⟩ := h.awaitOk i k2 c2 lc2 ls2 st2 hrun2
              exact ⟨p1, fun ha2 => p2 ha2, p3, p4, p5⟩
          · intro i
            rw [hT]
            by_cases hij : i = ev.1
            · rw [if_pos hij]
              exact g1
            · rw [if_neg hij]
              exact h.retriesLe i
          · intro hrace
            rw [hcz]
            exact h.raceZeros hrace
          · intro e res hres
            have hres2 : s0.finished = some (e, res) := hres
            rw [hf0] at hres2
            cases hres2
          · intro hc i broke2 r hrun2
            rw [hT] at hrun2
            by_cases hij : i = ev.1
            · rw [if_pos hij] at hrun2
              cases hrun2
            · rw [if_neg hij] at hrun2
              rw [hT, if_neg hij]
              exact h.contSet hc i broke2 r hrun2
          · intro hs i k2 c2 lc2 ls2 st2 hrun2
            rw [hT] at hrun2
            by_cases hij : i = ev.1
            · rw [hij]
              show ev.1 + 1 = s0.nextIdx
              exact h.seqAw hs ev.1 k child lc ls st hrun
            · rw [if_neg hij] at hrun2
              exact h.seqAw hs i k2 c2 lc2 ls2 st2 hrun2
          · intro hs e he
            have he2 : s0.err = some e := he
            exact absurd hf0 (h.seqErr hs e he2).1
          · intro hs i hi hrun2
            rw [hT] at hrun2
            by_cases hij : i = ev.1
            · rw [if_pos hij] at hrun2
              cases hrun2
            · rw [if_neg hij] at hrun2
              rw [hT, if_neg hij]
              exact h.seqFresh hs i hi hrun2
          · intro hs hab2
            have hab3 : s0.aborted = true := hab2
            rw [hab0] at hab3
            cases hab3
          · intro hrace hc
            rw [hcz] at hc
            exact h.raceAb hrace hc
        · rename_i hklef
          by_cases hcont : o.continueOnError = true
          · exact inv_postLoop_cont h1 hr hrun1 hcont hzcf (fun _ => by omega)
          · exact inv_postLoop_nocont h1 hr hrun1 (by simpa using hcont) hzcf
              (by intro hx; cases hx) (fun _ => hab0)

theorem countZeros_init (tasks : List String) :
    countZeros tasks.length (initEngine tasks) = 0 := by
  rw [countZeros_eq_countP]
  rw [List.countP_eq_zero]
  intro i _
  simp only [decide_eq_true_eq]
  intro hcc
  have : (none : Option Int) = some 0 := hcc
  cases this

/-- The initial engine state satisfies the invariant. -/
theorem inv_init {tasks : List String} {o : RunOpts} (hr : 0 ≤ o.retry) :
    EngineInv tasks o (initEngine tasks) := by
  refine ⟨⟨?_, ?_, ?_, ?_, ?_, ?_, ?_, ?_, ?_, ?_, ?_, ?_, ?_⟩, ?_⟩
  · exact fun i hi => ⟨rfl, rfl⟩
  · exact Nat.zero_le _
  · exact fun i => ⟨fun _ => Nat.zero_le i, fun _ => rfl⟩
  · exact fun i _ => ⟨rfl, rfl⟩
  · intro i k c lc ls st hrun
    have hrun2 : RunnerSt.notStarted = RunnerSt.awaiting k c lc ls st := hrun
    cases hrun2
  · intro i
    show (0 : Int) ≤ o.retry
    exact hr
  · intro _
    rw [countZeros_init]
    omega
  · intro e res hres
    have hres2 : (none : Option (Option RunErr × List RItem)) = some (e, res) := hres
    cases hres2
  · intro hc i broke r hrun
    have hrun2 : RunnerSt.notStarted = RunnerSt.settled (.contExhaust broke) r := hrun
    cases hrun2
  · intro hs i k c lc ls st hrun
    have hrun2 : RunnerSt.notStarted = RunnerSt.awaiting k c lc ls st := hrun
    cases hrun2
  · intro hs e he
    have he2 : (none : Option RunErr) = some e := he
    cases he2
  · intro hs i hi hrun
    exact ⟨fun _ => rfl, fun e he _ => by cases (he : (none : Option RunErr) = some e)⟩
  · intro hs hab
    have hab2 : (false : Bool) = true := hab
    cases hab2
  · intro hrace hc
    rw [countZeros_init] at hc
    omega

/-- The initial spawn loop (`for i in 0..initial: next()`) keeps the invariant,
never settles the group, never aborts, and from the first spawn on keeps task 0
in flight. -/
theorem inv_iterInit {tasks : List String} {o : RunOpts} (hr : 0 ≤ o.retry)
    (hn : 1 ≤ tasks.length) :
    ∀ m, (SeqMode tasks o → m ≤ 1) →
      EngineInv tasks o
        ((fun s => nextChainF tasks.length o (tasks.length - EngineSt.nextIdx s) s)^[m]
          (initEngine tasks)) ∧
      ((fun s => nextChainF tasks.length o (tasks.length - EngineSt.nextIdx s) s)^[m]
          (initEngine tasks)).finished = none ∧
      ((fun s => nextChainF tasks.length o (tasks.length - EngineSt.nextIdx s) s)^[m]
          (initEngine tasks)).aborted = false ∧
      (1 ≤ m → ((((fun s => nextChainF tasks.length o (tasks.length - EngineSt.nextIdx s) s)^[m]
          (initEngine tasks)).slots 0).runner).isAwaiting = true) := by
  intro m
  induction m with
  | zero =>
    intro _
    exact ⟨inv_init hr, rfl, rfl, fun hcc => by omega⟩
  | succ m ih =>
    intro hseq1
    obtain ⟨hInv, hfin, hab, hs0⟩ := ih (fun hs => le_trans (Nat.le_succ m) (by
      exact le_trans (le_refl _) (by
        have := hseq1 hs
        omega)))
    rw [Function.iterate_succ_apply']
    have hA : SeqMode tasks o → anyAwaiting tasks.length
        ((fun s => nextChainF tasks.length o (tasks.length - EngineSt.nextIdx s) s)^[m]
          (initEngine tasks)) = false := by
      intro hs
      have hm0 : m = 0 := by
        have := hseq1 hs
        omega
      subst hm0
      rw [anyAwaiting_eq_false_iff]
      intro i _
      rfl
    refine ⟨inv_nextChainF hr _ hInv hfin hA (fun _ => hab), ?_, ?_, ?_⟩
    · by_cases hlt : (((fun s => nextChainF tasks.length o (tasks.length - EngineSt.nextIdx s) s)^[m]
          (initEngine tasks)).nextIdx) < tasks.length
      · obtain ⟨f2, hf2⟩ : ∃ f2, tasks.length - (((fun s => nextChainF tasks.length o
            (tasks.length - EngineSt.nextIdx s) s)^[m] (initEngine tasks)).nextIdx) = f2 + 1 :=
          ⟨tasks.length - (((fun s => nextChainF tasks.length o (tasks.length - EngineSt.nextIdx s) s)^[m]
            (initEngine tasks)).nextIdx) - 1, by omega⟩
        rw [hf2, nextChainF_succ_spawn f2 hlt hr hab]
        exact hfin
      · rw [show tasks.length - (((fun s => nextChainF tasks.length o
            (tasks.length - EngineSt.nextIdx s) s)^[m] (initEngine tasks)).nextIdx) = 0 from by omega]
        rw [nextChainF_zero]
        have hany : anyAwaiting tasks.length ((fun s => nextChainF tasks.length o
            (tasks.length - EngineSt.nextIdx s) s)^[m] (initEngine tasks)) = true := by
          have hm1 : 1 ≤ m := by
            by_contra hmm
            have hm0 : m = 0 := by omega
            subst hm0
            exact hlt (by
              show (0 : Nat) < tasks.length
              omega)
          rw [anyAwaiting_eq_true_iff]
          exact ⟨0, by omega, hs0 hm1⟩
        rw [if_pos hany]
        exact hfin
      all_goals exact hfin
    · by_cases hlt : (((fun s => nextChainF tasks.length o (tasks.length - EngineSt.nextIdx s) s)^[m]
          (initEngine tasks)).nextIdx) < tasks.length
      · obtain ⟨f2, hf2⟩ : ∃ f2, tasks.length - (((fun s => nextChainF tasks.length o
            (tasks.length - EngineSt.nextIdx s) s)^[m] (initEngine tasks)).nextIdx) = f2 + 1 :=
          ⟨tasks.length - (((fun s => nextChainF tasks.length o (tasks.length - EngineSt.nextIdx s) s)^[m]
            (initEngine tasks)).nextIdx) - 1, by omega⟩
        rw [hf2, nextChainF_succ_spawn f2 hlt hr hab]
        exact hab
      · rw [show tasks.length - (((fun s => nextChainF tasks.length o
            (tasks.length - EngineSt.nextIdx s) s)^[m] (initEngine tasks)).nextIdx) = 0 from by omega]
        rw [nextChainF_zero]
        have hany : anyAwaiting tasks.length ((fun s => nextChainF tasks.length o
            (tasks.length - EngineSt.nextIdx s) s)^[m] (initEngine tasks)) = true := by
          have hm1 : 1 ≤ m := by
            by_contra hmm
            have hm0 : m = 0 := by omega
            subst hm0
            exact hlt (by
              show (0 : Nat) < tasks.length
              omega)
          rw [anyAwaiting_eq_true_iff]
          exact ⟨0, by omega, hs0 hm1⟩
        rw [if_pos hany]
        exact hab
    · intro _
      by_cases hlt : (((fun s => nextChainF tasks.length o (tasks.length - EngineSt.nextIdx s) s)^[m]
          (initEngine tasks)).nextIdx) < tasks.length
      · obtain ⟨f2, hf2⟩ : ∃ f2, tasks.length - (((fun s => nextChainF tasks.length o
            (tasks.length - EngineSt.nextIdx s) s)^[m] (initEngine tasks)).nextIdx) = f2 + 1 :=
          ⟨tasks.length - (((fun s => nextChainF tasks.length o (tasks.length - EngineSt.nextIdx s) s)^[m]
            (initEngine tasks)).nextIdx) - 1, by omega⟩
        rw [hf2, nextChainF_succ_spawn f2 hlt hr hab]
        rw [setSlot_slots]
        by_cases h0 : (0 : Nat) = (((fun s => nextChainF tasks.length o
            (tasks.length - EngineSt.nextIdx s) s)^[m] (initEngine tasks)).nextIdx)
        · rw [if_pos h0]
          simp
        · rw [if_neg h0, setSlot_slots, if_neg h0]
          have hm1 : 1 ≤ m := by
            by_contra hmm
            have hm0 : m = 0 := by omega
            apply h0
            subst hm0
            rfl
          exact hs0 hm1
      · rw [show tasks.length - (((fun s => nextChainF tasks.length o
            (tasks.length - EngineSt.nextIdx s) s)^[m] (initEngine tasks)).nextIdx) = 0 from by omega]
        rw [nextChainF_zero]
        have hm1 : 1 ≤ m := by
          by_contra hmm
          have hm0 : m = 0 := by omega
          subst hm0
          exact hlt (by
            show (0 : Nat) < tasks.length
            omega)
        have hany : anyAwaiting tasks.length ((fun s => nextChainF tasks.length o
            (tasks.length - EngineSt.nextIdx s) s)^[m] (initEngine tasks)) = true := by
          rw [anyAwaiting_eq_true_iff]
          exact ⟨0, by omega, hs0 hm1⟩
        rw [if_pos hany]
        exact hs0 hm1

/-- The invariant survives an arbitrary schedule of child events. -/
theorem inv_foldl {tasks : List String} {o : RunOpts} (hr : 0 ≤ o.retry) :
    ∀ (l : List (Nat × ChildEv)) (s : EngineSt), EngineInv tasks o s →
      (∀ ev ∈ l, EvOk ev) →
      EngineInv tasks o (l.foldl (drainEv tasks.length o) s) := by
  intro l
  induction l with
  | nil => exact fun s h _ => h
  | cons ev tl ih =>
    intro s h hEv
    rw [List.foldl_cons]
    exact ih _ (inv_drain h hr (hEv ev (List.mem_cons_self _ _)))
      (fun e he => hEv e (List.mem_cons_of_mem _ he))

/-- Every reachable final state of `runTasks` satisfies the invariant. -/
theorem inv_run {tasks : List String} {o : RunOpts} {sched : List (Nat × ChildEv)}
    (hr : 0 ≤ o.retry) (hEv : ∀ ev ∈ sched, EvOk ev) :
    EngineInv tasks o (runTasksV1 tasks o sched) := by
  unfold runTasksV1
  dsimp only
  by_cases hn0 : tasks.length = 0
  · rw [if_pos hn0]
    obtain ⟨⟨f1, f2, f3, f4, f5, f6, f7, f8, f9, f10, f11, f12, f13⟩, f14⟩ :=
      @inv_init tasks o hr
    refine ⟨⟨f1, f2, f3, f4, f5, f6, f7, ?_, f9, f10, ?_, f12, f13⟩, f14⟩
    · intro e res hres
      have hres2 : (some ((none : Option RunErr), ([] : List RItem))) = some (e, res) := hres
      simp only [Option.some.injEq, Prod.mk.injEq] at hres2
      refine ⟨hres2.1.symm, ?_, ?_⟩
      · rw [← hres2.2]
        unfold itemsList
        rw [hn0]
        rfl
      · rw [anyAwaiting_eq_false_iff]
        intro i hi
        rw [hn0] at hi
        omega
    · intro hs e he
      have he2 : (none : Option RunErr) = some e := he
      cases he2
  · rw [if_neg hn0]
    exact inv_foldl hr sched _
      (inv_iterInit hr (by omega) (initialOf tasks.length o)
        (fun hs => le_of_eq hs.2.2)).1 hEv

/-!
### The post-failure freeze of a sequential run

In a sequential group without `continue-on-error`, a task whose `attemptRun`
promise rejected (`rejExhaust`) stopped the queue: `next()` is never called
after the rejection, so the queue head is frozen one past the failing task,
and the abort the rejection triggered has been recorded.  `SeqRejB` states
this for one engine state; it holds initially (vacuously) and is preserved by
every drain.
-/

/-- Every `rejExhaust`-settled slot sits exactly at the frozen queue head,
and the group has been aborted. -/
def SeqRejB (s : EngineSt) : Prop :=
  ∀ i b r, (s.slots i).runner = RunnerSt.settled (.rejExhaust b) r →
    i + 1 = s.nextIdx ∧ s.aborted = true

/-- `SeqRejB`, scoped to sequential mode. -/
def SeqRejP (tasks : List String) (o : RunOpts) (s : EngineSt) : Prop :=
  SeqMode tasks o → SeqRejB s

theorem seqRejB_of_noRej {s : EngineSt}
    (hno : ∀ i b r, (s.slots i).runner ≠ RunnerSt.settled (.rejExhaust b) r) :
    SeqRejB s :=
  fun i b r hsl => absurd hsl (hno i b r)

theorem seqRejB_endWrap {n : Nat} {s : EngineSt} (h : SeqRejB s) :
    SeqRejB (endWrap n s) := by
  unfold endWrap
  by_cases hc : (s.allSettledPending = true ∧ ¬anyAwaiting n s = true)
  · rw [if_pos hc]
    intro i b r hsl
    rw [doneFn_slots] at hsl
    rw [doneFn_nextIdx, doneFn_aborted]
    exact h i b r hsl
  · rw [if_neg hc]
    exact h

/-- As long as the engine is not aborted, `next()` only spawns (parks) new
runners: it cannot create a `rejExhaust`-settled slot. -/
theorem noRej_nextChainF {n : Nat} {o : RunOpts} (hr : 0 ≤ o.retry) (fuel : Nat)
    {s : EngineSt} (hab : s.aborted = false)
    (hno : ∀ i b r, (s.slots i).runner ≠ RunnerSt.settled (.rejExhaust b) r) :
    ∀ i b r, ((nextChainF n o fuel s).slots i).runner
      ≠ RunnerSt.settled (.rejExhaust b) r := by
  intro i b r
  cases fuel with
  | zero =>
    rw [nextChainF_zero]
    split
    · exact hno i b r
    · rw [doneFn_slots]
      exact hno i b r
  | succ fuel =>
    by_cases hlt : s.nextIdx < n
    · rw [nextChainF_succ_spawn fuel hlt hr hab]
      rw [setSlot_slots]
      by_cases hi : i = s.nextIdx
      · rw [if_pos hi]
        intro hcon
        cases hcon
      · rw [if_neg hi, setSlot_slots, if_neg hi]
        exact hno i b r
    · rw [nextChainF_succ_empty o fuel hlt]
      split
      · exact hno i b r
      · rw [doneFn_slots]
        exact hno i b r

/-- One drain preserves the sequential post-failure freeze. -/
theorem seqRej_drain {tasks : List String} {o : RunOpts} {s0 : EngineSt}
    {ev : Nat × ChildEv} (h : EngineInv tasks o s0) (hr : 0 ≤ o.retry)
    (hrej : SeqRejP tasks o s0) : SeqRejP tasks o (drainEv tasks.length o s0 ev) := by
  cases hrun : (s0.slots ev.1).runner with
  | notStarted =>
    rw [drainEv_not_awaiting _ _ _ _ (by rw [hrun]; rfl)]
    intro hs
    exact seqRejB_endWrap (hrej hs)
  | settled v r =>
    rw [drainEv_not_awaiting _ _ _ _ (by rw [hrun]; rfl)]
    intro hs
    exact seqRejB_endWrap (hrej hs)
  | awaiting k child lc ls st =>
    intro hs
    have hcont : o.continueOnError = false := hs.1
    have hrace : o.race = false := hs.2.1
    have hab0 : s0.aborted = false := by
      by_contra hx
      rw [Bool.not_eq_false] at hx
      have hnoaw := h.seqNoAw hs hx
      rw [awaiting_any h hrun] at hnoaw
      cases hnoaw
    have hidx1 : ev.1 + 1 = s0.nextIdx := h.seqAw hs ev.1 _ _ _ _ _ hrun
    have hnoRej : ∀ j b2 r2, (s0.slots j).runner
        ≠ RunnerSt.settled (.rejExhaust b2) r2 := by
      intro j b2 r2 hcon
      have hcap := (hrej hs j b2 r2 hcon).2
      rw [hab0] at hcap
      cases hcap
    rw [drainEv_awaiting _ _ _ _ k child lc ls st hrun]
    dsimp only
    generalize (match ev.2 with
      | ChildEv.closeEv raw => if child.wasAborted = true then some 130 else raw
      | ChildEv.errorEv c _ => some (c.getD 1) : Option Int) = nc
    generalize (match ev.2 with
      | ChildEv.closeEv _ => none
      | ChildEv.errorEv _ sg => sg : Option String) = nsg
    apply seqRejB_endWrap
    split
    · rename_i habS3
      exfalso
      have hx : s0.aborted = true := habS3
      rw [hab0] at hx
      cases hx
    · rename_i habS3f
      split
      · rename_i hzc
        unfold handleResolve
        dsimp only
        split
        · rename_i hrz
          exfalso
          have hx : o.race = true := hrz.1
          rw [hrace] at hx
          cases hx
        · split
          · rename_i hne0
            exact absurd rfl hne0
          · apply seqRejB_of_noRej
            apply noRej_nextChainF hr _ (by exact hab0)
            intro i b2 r2
            rw [setSlot_slots]
            by_cases hi : i = ev.1
            · rw [if_pos hi, setSlot_slots, if_pos rfl]
              intro hcon
              injection hcon with hv hr2
              cases hv
            · rw [if_neg hi, setSlot_slots, if_neg hi, setSlot_slots, if_neg hi]
              exact hnoRej i b2 r2
      · rename_i hnz0
        split
        · rename_i hkle
          apply seqRejB_of_noRej
          intro i b2 r2
          rw [setSlot_slots]
          by_cases hi : i = ev.1
          · rw [if_pos hi]
            intro hcon
            cases hcon
          · rw [if_neg hi, setSlot_slots, if_neg hi]
            exact hnoRej i b2 r2
        · rename_i hkgt
          unfold postLoop
          dsimp only
          rw [if_neg (show ¬o.continueOnError = true by rw [hcont]; simp)]
          clear hnz0
          generalize (match nc with
            | some c => some c
            | none =>
              match nsg with
              | some sg => some (128 + convert sg)
              | none => none : Option Int) = fc
          unfold handleReject
          dsimp only
          split
          · rename_i habX
            exfalso
            have hx : s0.aborted = true := habX
            rw [hab0] at hx
            cases hx
          · split
            · rename_i hcor
              rw [abortCore_def2]
              split
              · intro i b2 r2 hsl
                dsimp only at hsl
                rw [killSlot_settled] at hsl
                constructor
                · show i + 1 = s0.nextIdx
                  by_cases hi : i = ev.1
                  · rw [hi]
                    exact hidx1
                  · rw [setSlot_slots, if_neg hi, mapByName_runner,
                      setSlot_slots, if_neg hi] at hsl
                    exact absurd hsl (hnoRej i b2 r2)
                · rfl
              · intro i b2 r2 hsl
                rw [doneFn_slots] at hsl
                dsimp only at hsl
                rw [doneFn_nextIdx, doneFn_aborted]
                constructor
                · show i + 1 = s0.nextIdx
                  by_cases hi : i = ev.1
                  · rw [hi]
                    exact hidx1
                  · rw [setSlot_slots, if_neg hi, mapByName_runner,
                      setSlot_slots, if_neg hi] at hsl
                    exact absurd hsl (hnoRej i b2 r2)
                · rfl
            · rename_i hcor2
              exfalso
              exact hcor2 (Or.inl (by rw [hcont]; simp))

theorem seqRej_foldl {tasks : List String} {o : RunOpts} (hr : 0 ≤ o.retry)
    (sched : List (Nat × ChildEv)) :
    ∀ {s : EngineSt}, EngineInv tasks o s → (∀ ev ∈ sched, EvOk ev) →
      SeqRejP tasks o s → SeqRejP tasks o (sched.foldl (drainEv tasks.length o) s) := by
  induction sched with
  | nil =>
    intro s _ _ hrej
    exact hrej
  | cons ev rest ih =>
    intro s h hEv hrej
    rw [List.foldl_cons]
    exact ih (inv_drain h hr (hEv ev (List.mem_cons_self ev rest)))
      (fun e he => hEv e (List.mem_cons_of_mem ev he)) (seqRej_drain h hr hrej)

/-- The post-failure freeze holds of every final state of `runTasks`. -/
theorem seqRej_run {tasks : List String} {o : RunOpts} {sched : List (Nat × ChildEv)}
    (hr : 0 ≤ o.retry) (hEv : ∀ ev ∈ sched, EvOk ev) :
    SeqRejP tasks o (runTasksV1 tasks o sched) := by
  unfold runTasksV1
  dsimp only
  by_cases hn0 : tasks.length = 0
  · rw [if_pos hn0]
    intro _ i b r hsl
    cases hsl
  · rw [if_neg hn0]
    apply seqRej_foldl hr sched
      ((inv_iterInit hr (by omega) (initialOf tasks.length o)
        (fun hs => le_of_eq hs.2.2)).1) hEv
    intro hs
    rw [hs.2.2, Function.iterate_one]
    exact seqRejB_of_noRej (noRej_nextChainF hr _ rfl (fun i b r hcon => by cases hcon))

/-!
### The single-task exhaustion trace (C3)
-/

theorem engineExt {a b : EngineSt} (h1 : ∀ j, a.slots j = b.slots j)
    (h2 : a.nextIdx = b.nextIdx) (h3 : a.err = b.err) (h4 : a.aborted = b.aborted)
    (h5 : a.allSettledPending = b.allSettledPending) (h6 : a.finished = b.finished)
    (h7 : a.time = b.time) : a = b := by
  cases a
  cases b
  simp only [EngineSt.mk.injEq]
  exact ⟨funext h1, h2, h3, h4, h5, h6, h7⟩

/-- The initial spawn of a one-task group parks the task on its first
attempt. -/
theorem c3Mid_slots (t : String) (j : Nat) (lcv : Option Int) (r : Int) (d : Nat) (i : Nat) :
    (c3Mid t j lcv r d).slots i = if i = 0 then
      { name := t
        item := { name := t, code := none, retries := r, durationMs := d }
        runner := .awaiting j ⟨true, false⟩ lcv none 0
        spawns := j + 1, completed := j }
    else (initEngine [t]).slots i := rfl

theorem c3Fin_slots (t : String) (N : Nat) (cv : Int) (i : Nat) :
    (c3Fin t N cv).slots i = if i = 0 then
      { name := t
        item := { name := t, code := some cv, retries := (N : Int), durationMs := N + 1 }
        runner := .settled (.rejExhaust false) (N : Int)
        spawns := N + 1, completed := N + 1 }
    else (initEngine [t]).slots i := rfl

/-- The initial spawn of a one-task group parks the task on its first
attempt. -/
theorem c3_init (t : String) (o : RunOpts) (hr : 0 ≤ o.retry) :
    nextChainF 1 o 1 (initEngine [t]) = c3Mid t 0 none 0 0 := by
  rw [show (1 : Nat) = 0 + 1 from rfl,
    nextChainF_succ_spawn 0 (by show (0 : Nat) < 0 + 1; omega) hr rfl]
  apply engineExt
  · intro j
    rw [setSlot_slots]
    by_cases hj : j = (initEngine [t]).nextIdx
    · rw [if_pos hj, setSlot_slots, if_pos rfl]
      have hj0 : j = 0 := hj
      subst hj0
      rfl
    · rw [if_neg hj, setSlot_slots, if_neg hj]
      have hj0 : ¬(j = 0) := hj
      rw [c3Mid_slots, if_neg hj0]
  · rfl
  · rfl
  · rfl
  · rfl
  · rfl
  · rfl

/-- One failing close event below the retry limit: the loop spawns the next
attempt. -/
theorem c3_step {o : RunOpts} {N : Nat} (hretry : o.retry = (N : Int))
    (t : String) (j : Nat) (lcv : Option Int)
    (r : Int) (d : Nat) (cv : Int) (hcv : cv ≠ 0) (hjN : j + 1 ≤ N) :
    drainEv 1 o (c3Mid t j lcv r d) (0, .closeEv (some cv))
      = c3Mid t (j + 1) (some cv) (j : Int) (j + 1) := by
  have hrun : ((c3Mid t j lcv r d).slots (0, ChildEv.closeEv (some cv)).1).runner
      = .awaiting j ⟨true, false⟩ lcv none 0 := rfl
  rw [drainEv_awaiting 1 o _ _ j ⟨true, false⟩ lcv none 0 hrun]
  dsimp only
  rw [if_neg (show ¬((false : Bool) = true) by simp)]
  split
  · rename_i hcc
    have hcc2 : (false : Bool) = true := hcc
    exact Bool.noConfusion hcc2
  · split
    · rename_i hz
      have hz2 : (some cv : Option Int) = some 0 := hz
      simp only [Option.some.injEq] at hz2
      exact absurd hz2 hcv
    · split
      · rename_i hk
        unfold endWrap
        split
        · rename_i hcnd
          have hcc2 : (false : Bool) = true := hcnd.1
          exact Bool.noConfusion hcc2
        · apply engineExt
          · intro i
            rw [setSlot_slots]
            by_cases hi : i = 0
            · subst hi
              rw [if_pos rfl, setSlot_slots, if_pos rfl, c3Mid_slots, if_pos rfl]
              rfl
            · rw [if_neg hi, setSlot_slots, if_neg hi]
              rw [c3Mid_slots t (j + 1) (some cv) (j : Int) (j + 1) i, if_neg hi]
              rw [c3Mid_slots t j lcv r d i, if_neg hi]
          · rfl
          · rfl
          · rfl
          · rfl
          · rfl
          · rfl
      · rename_i hk
        rw [hretry] at hk
        exfalso
        apply hk
        exact_mod_cast (by omega : j + 1 ≤ N)

theorem slots_time_update (s : EngineSt) (tt : Nat) (i : Nat) :
    (({ s with time := tt } : EngineSt).slots i) = s.slots i := rfl

/-- The last failing close event: the loop exhausts, `results.map` records the
final code, the `.catch` handler stores the error and aborts, and `done()`
rejects with the result list. -/
theorem c3_last {o : RunOpts} {N : Nat} (hretry : o.retry = (N : Int))
    (hcont : o.continueOnError = false) (t : String) (ht : t ≠ "") (lcv : Option Int)
    (r : Int) (d : Nat) (cv : Int) (hcv : cv ≠ 0) :
    drainEv 1 o (c3Mid t N lcv r d) (0, .closeEv (some cv)) = c3Fin t N cv := by
  have hrun : ((c3Mid t N lcv r d).slots (0, ChildEv.closeEv (some cv)).1).runner
      = .awaiting N ⟨true, false⟩ lcv none 0 := rfl
  rw [drainEv_awaiting 1 o _ _ N ⟨true, false⟩ lcv none 0 hrun]
  dsimp only
  rw [if_neg (show ¬((false : Bool) = true) by simp)]
  have hsl0 : ∀ jx, ((setSlot (mapByName (setSlot ({ c3Mid t N lcv r d with time := N + 1 }) 0
      (fun sl => { sl with completed := sl.completed + 1
                           item := { sl.item with retries := (N : Int), durationMs := N + 1 } }))
        t (some cv) (N : Int) (N + 1)) 0
      (fun sl => { sl with runner := .settled (.rejExhaust false) (N : Int) })).slots jx)
      = (c3Fin t N cv).slots jx := by
    intro jx
    rw [setSlot_slots]
    by_cases hj : jx = 0
    · subst hj
      rw [if_pos rfl, mapByName_slots, setSlot_slots, if_pos rfl]
      split
      · rw [c3Fin_slots, if_pos rfl]
        rfl
      · rename_i hn
        exact (hn rfl).elim
    · rw [if_neg hj, mapByName_slots, setSlot_slots, if_neg hj]
      rw [slots_time_update, c3Mid_slots, if_neg hj]
      split
      · rename_i habs
        exfalso
        have habs2 : ([t] : List String).getD jx "" = t := habs
        rw [List.getD_eq_default] at habs2
        · exact ht habs2.symm
        · show ([t] : List String).length ≤ jx
          simp only [List.length_singleton]
          omega
      · rw [c3Fin_slots, if_neg hj]
  split
  · rename_i hcc
    have hcc2 : (false : Bool) = true := hcc
    exact Bool.noConfusion hcc2
  · split
    · rename_i hz
      have hz2 : (some cv : Option Int) = some 0 := hz
      simp only [Option.some.injEq] at hz2
      exact absurd hz2 hcv
    · split
      · rename_i hk
        rw [hretry] at hk
        exfalso
        omega
      · unfold postLoop
        dsimp only
        rw [if_neg (show ¬(o.continueOnError = true) by simp [hcont])]
        unfold handleReject
        dsimp only
        split
        · rename_i hcc
          have hcc2 : (false : Bool) = true := hcc
          exact Bool.noConfusion hcc2
        · rw [if_pos (Or.inl (show ¬(o.continueOnError = true) by simp [hcont]))]
          rw [abortCore_def2]
          split
          · rename_i hcnd
            exfalso
            have hcnd2 : anyAwaiting 1 ((setSlot (mapByName (setSlot
                ({ c3Mid t N lcv r d with time := N + 1 }) 0
                (fun sl => { sl with completed := sl.completed + 1
                                     item := { sl.item with
                                         retries := (N : Int)
                                         durationMs := N + 1 } }))
                  t (some cv) (N : Int) (N + 1)) 0
                (fun sl => { sl with runner := .settled (.rejExhaust false) (N : Int) })))
                = true := hcnd
            rw [anyAwaiting_eq_true_iff] at hcnd2
            obtain ⟨jj, hjj, haw⟩ := hcnd2
            have hj0 : jj = 0 := by omega
            subst hj0
            rw [hsl0 0, c3Fin_slots, if_pos rfl] at haw
            simp at haw
          · unfold doneFn
            split
            · rename_i hcnd
              have hcnd2 : (none : Option (Option RunErr × List RItem)).isSome = true := hcnd
              simp at hcnd2
            · unfold endWrap
              split
              · rename_i hcnd
                have hcc2 : (false : Bool) = true := hcnd.1
                exact Bool.noConfusion hcc2
              · apply engineExt
                · exact fun j => hsl0 j
                · rfl
                · rfl
                · rfl
                · rfl
                · show (some (some { name := some t, code := some cv },
                      itemsList 1 ((setSlot (mapByName (setSlot
                        ({ c3Mid t N lcv r d with time := N + 1 }) 0
                        (fun sl => { sl with completed := sl.completed + 1
                                             item := { sl.item with
                                                 retries := (N : Int)
                                                 durationMs := N + 1 } }))
                          t (some cv) (N : Int) (N + 1)) 0
                        (fun sl => { sl with runner := .settled (.rejExhaust false) (N : Int) })))) :
                      Option (Option RunErr × List RItem)) = _
                  rw [show itemsList 1 ((setSlot (mapByName (setSlot
                      ({ c3Mid t N lcv r d with time := N + 1 }) 0
                      (fun sl => { sl with completed := sl.completed + 1
                                           item := { sl.item with
                                               retries := (N : Int)
                                               durationMs := N + 1 } }))
                        t (some cv) (N : Int) (N + 1)) 0
                      (fun sl => { sl with runner := .settled (.rejExhaust false) (N : Int) })))
                    = [(((setSlot (mapByName (setSlot
                      ({ c3Mid t N lcv r d with time := N + 1 }) 0
                      (fun sl => { sl with completed := sl.completed + 1
                                           item := { sl.item with
                                               retries := (N : Int)
                                               durationMs := N + 1 } }))
                        t (some cv) (N : Int) (N + 1)) 0
                      (fun sl => { sl with runner := .settled (.rejExhaust false) (N : Int) })).slots 0)).item] from rfl]
                  rw [hsl0 0, c3Fin_slots, if_pos rfl]
                  rfl
                · rfl

/-- Folding the remaining failing close events from any mid-trace state. -/
theorem c3_fold {o : RunOpts} {N : Nat} (hretry : o.retry = (N : Int))
    (hcont : o.continueOnError = false) (t : String) (ht : t ≠ "") (cs : Nat → Int)
    (hcs : ∀ j2, j2 ≤ N → cs j2 ≠ 0) :
    ∀ (cnt j : Nat), j + cnt = N + 1 → 1 ≤ cnt →
      ∀ (lcv : Option Int) (r : Int) (d : Nat),
      ((List.range' j cnt).map (fun j2 => ((0 : Nat), ChildEv.closeEv (some (cs j2))))).foldl
        (drainEv 1 o) (c3Mid t j lcv r d) = c3Fin t N (cs N) := by
  intro cnt
  induction cnt with
  | zero =>
    intro j h1 h2
    omega
  | succ cnt ih =>
    intro j hsum hone lcv r d
    rw [List.range'_succ, List.map_cons, List.foldl_cons]
    cases cnt with
    | zero =>
      have hjN : j = N := by omega
      subst hjN
      rw [c3_last hretry hcont t ht lcv r d (cs j) (hcs j (by omega))]
      rfl
    | succ cnt2 =>
      rw [c3_step hretry t j lcv r d (cs j) (hcs j (by omega)) (by omega)]
      exact ih (j + 1) (by omega) (by omega) (some (cs j)) (j : Int) (j + 1)

/-- The full exhaustion run of a one-task group: `N + 1` failing attempts. -/
theorem c3_run {o : RunOpts} {N : Nat} (hretry : o.retry = (N : Int))
    (hcont : o.continueOnError = false) (t : String) (ht : t ≠ "") (cs : Nat → Int)
    (hcs : ∀ j, j ≤ N → cs j ≠ 0) :
    runTasksV1 [t] o ((List.range (N + 1)).map (fun j => (0, ChildEv.closeEv (some (cs j)))))
      = c3Fin t N (cs N) := by
  unfold runTasksV1
  dsimp only
  rw [if_neg (by simp)]
  have hio : initialOf ([t] : List String).length o = 1 := by
    unfold initialOf
    cases hmx : maxOf o with
    | none => rfl
    | some m =>
      show (if 0 < m then min (([t] : List String).length) m.toNat
        else ([t] : List String).length) = 1
      by_cases h0 : 0 < m
      · rw [if_pos h0]
        show min 1 m.toNat = 1
        omega
      · rw [if_neg h0]
        rfl
  rw [hio, Function.iterate_one]
  rw [show (([t] : List String).length - EngineSt.nextIdx (initEngine [t])) = 1 from rfl]
  rw [show ([t] : List String).length = 1 from rfl]
  rw [c3_init t o (by rw [hretry]; exact_mod_cast Nat.zero_le N)]
  rw [List.range_eq_range']
  exact c3_fold hretry hcont t ht cs hcs (N + 1) 0 (by omega) (by omega) none 0 0

/-- A `close` event is always well-formed. -/
theorem EvOk_of_close {i : Nat} {raw : Option Int} : EvOk (i, ChildEv.closeEv raw) := by
  intro c sg h
  cases h

end NpmRunAll

open NpmRunAll

/-- C9.  Abort is idempotent: applying the group-level `abort()` of
`runTasks` twice (or any number of additional times) yields exactly the same
engine state — hence the same final result list and the same
resolution/rejection outcome — as applying it once; the same holds for the
guarded `abort()` of the alternative `runTasks` variant and for the
attempt-level `abort()` of `runTask`. -/
theorem c9_abort_idempotent :
    (∀ (n : Nat) (s : EngineSt), abortCore n (abortCore n s) = abortCore n s) ∧
    (∀ (n : Nat) (s : EngineSt) (k : Nat), (abortCore n)^[k + 1] s = abortCore n s) ∧
    (∀ (n : Nat) (s : EngineSt), abortGuarded n (abortGuarded n s) = abortGuarded n s) ∧
    (∀ c : RTState, rtAbort (rtAbort c) = rtAbort c) := by
  refine ⟨abortCore_idem, ?_, abortGuarded_idem, rtAbort_idem⟩
  intro n s k
  induction k with
  | zero => rfl
  | succ m ih =>
    rw [Function.iterate_succ_apply', ih, abortCore_idem]

/-- C2.  For every attempt whose `abort()` was called before it finished
(i.e. while the child process was still live and the promise unsettled), the
value the attempt resolves with on the eventual `close` event has exit code
exactly 130, independent of the exit status `raw` the child process reports. -/
theorem c2_abort_resolves_with_killed_code (s : RTState) (raw : Option Int)
    (hlive : s.cpLive = true) (hpend : s.resolved = none) (hrej : s.rejected = false) :
    (rtClose (rtAbort s) raw).resolved = some (some 130) := by
  simp [rtAbort, rtClose, hlive, hpend, hrej]

/-- Witness for C2: aborting a freshly spawned child forces resolution code
130 even when the child later reports a clean exit status 0. -/
theorem c2_witness :
    rtInit.cpLive = true ∧ rtInit.resolved = none ∧ rtInit.rejected = false ∧
      (rtClose (rtAbort rtInit) (some 0)).resolved = some (some 130) :=
  ⟨rfl, rfl, rfl, c2_abort_resolves_with_killed_code rtInit (some 0) rfl rfl rfl⟩

/-- C6 (code bug).  The claim demands that `--retry 0` and `--retry <non-numeric>`
fail with `Invalid Option: --retry`; the repository's own tests
(`[retry] should error on invalid retry count`) assert the same.  The code
instead coerces silently (`set.retry = Number(args[++i]) || 0`, and
`parseInt(...) || 0` in the alternative bootstrap): this theorem evaluates the
parser at the failing inputs and shows they parse successfully, selecting the
zero-retry default, with no error and hence no message containing
`Invalid Option: --retry`. -/
theorem c6_retry_zero_and_non_numeric_parse_silently :
    ((parseCLIArgs ⟨false, []⟩ ["--retry", "0", "test-task:append1 a"] none false).map
        (fun s => (s.retry, s.groups.map (·.patterns)))
      = .ok (0, [["test-task:append1 a"]])) ∧
    ((parseCLIArgs ⟨false, []⟩ ["--retry", "a", "test-task:append1 a"] none false).map
        (fun s => (s.retry, s.groups.map (·.patterns)))
      = .ok (0, [["test-task:append1 a"]])) ∧
    ((parseCLIArgs ⟨false, []⟩ ["--retry", "-1", "test-task:append1 a"] none false).map
        (fun s => (s.retry, s.groups.map (·.patterns)))
      = .ok (-1, [["test-task:append1 a"]])) ∧
    ((parseCLIArgs ⟨false, []⟩ ["test-task:append1 a"] none false).map
        (fun s => (s.retry, s.groups.map (·.patterns)))
      = .ok (0, [["test-task:append1 a"]])) ∧
    bootstrapRetryOf ["--retry", "0", "test-task:append1 a"] = 0 ∧
    bootstrapRetryOf ["--retry", "a", "test-task:append1 a"] = 0 := by
  refine ⟨?_, ?_, ?_, ?_, ?_, ?_⟩ <;> rfl

/-- C8 (code bug).  The claim (and `test/print-summary.js`) require the code
cell of a 130 result to render as `130 (Killed)` and the time cell as the
two-decimal seconds value.  The string-returning renderer does exactly that;
`lib/print-summary.js` renders the same result's code cell as plain `130`.
Both agree on the `Time(s)` cell (`0.12` for 123 ms), and `toFixed2` always
produces exactly two decimal digits. -/
theorem c8_killed_rendering_divergence :
    summaryRow009 ⟨"forcedTask", some 130, 1, 123⟩
        = ["forcedTask", "130 (Killed)", "1", "0.12"] ∧
    summaryRowLib ⟨"forcedTask", some 130, 1, 123⟩
        = ["forcedTask", "130", "1", "0.12"] ∧
    (∀ ms : Nat, ∃ intPart : String, ∃ d1 d2 : Char,
      toFixed2 ms = intPart ++ "." ++ String.mk [d1, d2] ∧
        d1.isDigit = true ∧ d2.isDigit = true) := by
  refine ⟨rfl, rfl, fun ms => ⟨jsStringOfNat ((ms + 5) / 10 / 100),
    digitChar ((ms + 5) / 10 / 10 % 10), digitChar ((ms + 5) / 10 % 10), rfl, ?_, ?_⟩⟩
  · show (Char.ofNat (48 + (ms + 5) / 10 / 10 % 10 % 10)).isDigit = true
    have h : (ms + 5) / 10 / 10 % 10 % 10 < 10 := Nat.mod_lt _ (by norm_num)
    interval_cases h : (ms + 5) / 10 / 10 % 10 % 10 <;> rfl
  · show (Char.ofNat (48 + (ms + 5) / 10 % 10 % 10)).isDigit = true
    have h : (ms + 5) / 10 % 10 % 10 < 10 := Nat.mod_lt _ (by norm_num)
    interval_cases h : (ms + 5) / 10 % 10 % 10 <;> rfl

/-- C10.  For every call of the library entry point whose pattern argument
expands to the empty list (`null`, `undefined`, or an empty array), the
prelude ends in `resolvedNull`: by construction of the outcome this happens
before the manifest read and before `runTasks`, and no validation error is
raised even when other options are invalid.  Both `npmRunAll` variants agree. -/
theorem c10_empty_patterns_resolve_null :
    ∀ (quote : List String → String) (o : NpmOptions),
      npmRunAllPrelude quote .nullv o = .resolvedNull ∧
      npmRunAllPrelude quote .undef o = .resolvedNull ∧
      npmRunAllPrelude quote (.list []) o = .resolvedNull ∧
      npmRunAllPreludeOld quote .nullv o = .resolvedNull ∧
      npmRunAllPreludeOld quote .undef o = .resolvedNull ∧
      npmRunAllPreludeOld quote (.list []) o = .resolvedNull := by
  intro quote o
  refine ⟨rfl, rfl, rfl, rfl, rfl, rfl⟩


/-- C1.  For every run of the group executor (`runTasks`) over a task list
driven by any schedule of well-formed child events, once the group settles the
result list has exactly one `TaskResult` per scheduled task, in input order:
its length equals the task count, the names read in input order, and in fact
mapping `name` over the results gives back the input task list — regardless of
the completion order encoded in the schedule. -/
theorem c1_results_match_input_order (tasks : List String) (o : RunOpts)
    (sched : List (Nat × ChildEv)) (hr : 0 ≤ o.retry) (hEv : ∀ ev ∈ sched, EvOk ev)
    (e : Option RunErr) (res : List RItem)
    (hfin : (runTasksV1 tasks o sched).finished = some (e, res)) :
    res.length = tasks.length
    ∧ res.map RItem.name = tasks
    ∧ ∀ i, i < tasks.length →
        (res.getD i { name := "", code := none, retries := 0, durationMs := 0 }).name
          = tasks.getD i "" := by
  have h := @inv_run tasks o sched hr hEv
  obtain ⟨-, hres, -⟩ := h.finOk e res hfin
  subst hres
  have hlen : (itemsList tasks.length (runTasksV1 tasks o sched)).length = tasks.length := by
    unfold itemsList
    rw [List.length_map, List.length_range]
  refine ⟨hlen, ?_, ?_⟩
  · apply List.ext_getElem
    · rw [List.length_map, hlen]
    · intro i h1 h2
      unfold itemsList
      simp only [List.getElem_map, List.getElem_range]
      rw [← List.getD_eq_getElem tasks "" h2]
      exact (h.names i h2).2
  · intro i hi
    unfold itemsList
    rw [List.getD_eq_getElem?_getD, List.getElem?_map, List.getElem?_range hi]
    simp only [Option.map_some', Option.getD_some]
    exact (h.names i hi).2

/-- C1 witness: a one-task group that finishes after a single failure. -/
theorem c1_witness :
    ([({ name := "a", code := some 1, retries := 0, durationMs := 1 } : RItem)].length
        = (["a"] : List String).length)
    ∧ [({ name := "a", code := some 1, retries := 0, durationMs := 1 } : RItem)].map RItem.name
        = ["a"]
    ∧ ∀ i, i < (["a"] : List String).length →
        (([({ name := "a", code := some 1, retries := 0, durationMs := 1 } : RItem)]).getD i
            { name := "", code := none, retries := 0, durationMs := 0 }).name
          = (["a"] : List String).getD i "" :=
  c1_results_match_input_order ["a"] ⟨0, false, false, none, none, false⟩
    [(0, .closeEv (some 1))] (by decide)
    (by
      intro ev hev
      simp only [List.mem_singleton] at hev
      subst hev
      exact EvOk_of_close)
    (some { name := some "a", code := some 1 })
    [{ name := "a", code := some 1, retries := 0, durationMs := 1 }] rfl

/-- C3.  (a) In every run over well-formed events, every reported result's
`retries` is at most the retry limit.  (b) For a task all of whose `N + 1`
attempts fail with non-zero exit codes under retry limit `N` (continue-on-error
false, no abort in the schedule), the runner performs exactly `N + 1` attempts
(spawns), and the reported result carries the last attempt's exit code with
`retries = N`. -/
theorem c3_retry_bound_and_exhaustion :
    (∀ (tasks : List String) (o : RunOpts) (sched : List (Nat × ChildEv)),
      0 ≤ o.retry → (∀ ev ∈ sched, EvOk ev) →
      ∀ e res, (runTasksV1 tasks o sched).finished = some (e, res) →
        ∀ it2 ∈ res, it2.retries ≤ o.retry)
    ∧ (∀ (o : RunOpts) (N : Nat) (t : String) (cs : Nat → Int),
        o.retry = (N : Int) → o.continueOnError = false → t ≠ "" →
        (∀ j, j ≤ N → cs j ≠ 0) →
        (runTasksV1 [t] o ((List.range (N + 1)).map
            (fun j => (0, ChildEv.closeEv (some (cs j)))))).finished
          = some (some { name := some t, code := some (cs N) },
              [{ name := t, code := some (cs N), retries := (N : Int), durationMs := N + 1 }])
        ∧ ((runTasksV1 [t] o ((List.range (N + 1)).map
            (fun j => (0, ChildEv.closeEv (some (cs j)))))).slots 0).spawns = N + 1) := by
  constructor
  · intro tasks o sched hr hEv e res hfin it2 hit
    have h := @inv_run tasks o sched hr hEv
    obtain ⟨-, hres, -⟩ := h.finOk e res hfin
    subst hres
    unfold itemsList at hit
    obtain ⟨i, -, rfl⟩ := List.mem_map.mp hit
    exact h.retriesLe i
  · intro o N t cs hretry hcont ht hcs
    rw [c3_run hretry hcont t ht cs hcs]
    exact ⟨rfl, rfl⟩

set_option maxHeartbeats 2000000 in
/-- C3 witness: `--retry 5` with six failing attempts (`N = 5`), and the
retry bound instantiated on the same finished run. -/
theorem c3_witness :
    ((∀ it2 ∈ [({ name := "a", code := some 1, retries := 5, durationMs := 6 } : RItem)],
        it2.retries ≤ (⟨5, false, false, none, none, false⟩ : RunOpts).retry)
    ∧ ((runTasksV1 ["a"] ⟨5, false, false, none, none, false⟩ ((List.range (5 + 1)).map
          (fun j => (0, ChildEv.closeEv (some ((fun _ => (1 : Int)) j)))))).finished
        = some (some { name := some "a", code := some 1 },
            [{ name := "a", code := some 1, retries := (5 : Int), durationMs := 5 + 1 }])
      ∧ ((runTasksV1 ["a"] ⟨5, false, false, none, none, false⟩ ((List.range (5 + 1)).map
          (fun j => (0, ChildEv.closeEv (some ((fun _ => (1 : Int)) j)))))).slots 0).spawns
        = 5 + 1)) :=
  ⟨c3_retry_bound_and_exhaustion.1 ["a"] ⟨5, false, false, none, none, false⟩
      ((List.range (5 + 1)).map (fun j => (0, ChildEv.closeEv (some 1)))) (by decide)
      (by
        intro ev hev
        obtain ⟨j, -, rfl⟩ := List.mem_map.mp hev
        exact EvOk_of_close)
      (some { name := some "a", code := some 1 })
      [{ name := "a", code := some 1, retries := 5, durationMs := 6 }] (by decide),
   c3_retry_bound_and_exhaustion.2 ⟨5, false, false, none, none, false⟩ 5 "a"
      (fun _ => (1 : Int)) rfl rfl (by decide) (fun j _ => by show (1 : Int) ≠ 0; decide)⟩

/-- C4 counterexample: in a race over `["a", "b", "c"]` with `maxParallel 2`,
`a` wins with code 0, `b` is killed (130), but `c` was never started and its
entry keeps `code = undefined` — which is neither a non-zero exit code nor the
killed code 130, refuting the claim's "every other entry carries either a
non-zero exit code or the killed code 130". -/
theorem c4_counterexample :
    (runTasksV1 ["a", "b", "c"] ⟨0, false, true, some 2, none, false⟩
        [(0, .closeEv (some 0)), (1, .closeEv (some 7))]).finished
      = some (none,
          [{ name := "a", code := some 0, retries := 0, durationMs := 1 },
           { name := "b", code := some 130, retries := 0, durationMs := 2 },
           { name := "c", code := none, retries := 0, durationMs := 0 }])
    ∧ (([({ name := "a", code := some 0, retries := 0, durationMs := 1 } : RItem),
         { name := "b", code := some 130, retries := 0, durationMs := 2 },
         { name := "c", code := none, retries := 0, durationMs := 0 }].getD 2
          { name := "", code := none, retries := 0, durationMs := 0 }).code = none) := by
  constructor
  · decide
  · rfl

/-- C4 (amended).  For every race run over well-formed events, at most one
entry of the final result list has code 0 at termination — but entries of
never-started tasks keep `code = undefined`, so the remaining entries need not
carry a non-zero or killed code. -/
theorem c4_race_at_most_one_zero (tasks : List String) (o : RunOpts)
    (sched : List (Nat × ChildEv)) (hr : 0 ≤ o.retry) (hEv : ∀ ev ∈ sched, EvOk ev)
    (hrace : o.race = true) (e : Option RunErr) (res : List RItem)
    (hfin : (runTasksV1 tasks o sched).finished = some (e, res)) :
    res.countP (fun it2 => it2.code = some 0) ≤ 1 := by
  have h := @inv_run tasks o sched hr hEv
  obtain ⟨-, hres, -⟩ := h.finOk e res hfin
  subst hres
  exact h.raceZeros hrace

/-- C4 witness: the race schedule of the counterexample has exactly one zero
among its three entries. -/
theorem c4_witness :
    ([({ name := "a", code := some 0, retries := 0, durationMs := 1 } : RItem),
      { name := "b", code := some 130, retries := 0, durationMs := 2 },
      { name := "c", code := none, retries := 0, durationMs := 0 }].countP
        (fun it2 => it2.code = some 0)) ≤ 1 :=
  c4_race_at_most_one_zero ["a", "b", "c"] ⟨0, false, true, some 2, none, false⟩
    [(0, .closeEv (some 0)), (1, .closeEv (some 7))] (by decide)
    (by
      intro ev hev
      simp only [List.mem_cons, List.mem_singleton, List.not_mem_nil, or_false] at hev
      rcases hev with rfl | rfl
      · exact EvOk_of_close
      · exact EvOk_of_close)
    rfl none
    [{ name := "a", code := some 0, retries := 0, durationMs := 1 },
     { name := "b", code := some 130, retries := 0, durationMs := 2 },
     { name := "c", code := none, retries := 0, durationMs := 0 }] (by decide)

/-- C5 counterexample: a sequential group with the duplicate task list
`["a", "a"]` and continue-on-error false.  The second `a` is never started
(`spawns = 0`), yet `results.map(r => r.name === name ? {...} : r)` overwrites
its entry too: its final `code` is 1, not `undefined`, and its `retries` is the
failing task's, refuting the claim's "each such subsequent task's entry has
`code = undefined`". -/
theorem c5_counterexample :
    (runTasksV1 ["a", "a"] ⟨0, false, false, some 1, none, false⟩
        [(0, .closeEv (some 1))]).finished
      = some (some { name := some "a", code := some 1 },
          [{ name := "a", code := some 1, retries := 0, durationMs := 1 },
           { name := "a", code := some 1, retries := 0, durationMs := 1 }])
    ∧ ((runTasksV1 ["a", "a"] ⟨0, false, false, some 1, none, false⟩
        [(0, .closeEv (some 1))]).slots 1).spawns = 0
    ∧ (([({ name := "a", code := some 1, retries := 0, durationMs := 1 } : RItem),
         { name := "a", code := some 1, retries := 0, durationMs := 1 }].getD 1
          { name := "", code := none, retries := 0, durationMs := 0 }).code = some 1) :=
  ⟨rfl, rfl, rfl⟩

/-- C5 (amended).  In a sequential group (continue-on-error false, race false,
initial concurrency 1) over well-formed events, once a task's `attemptRun`
rejects (its runner settles `rejExhaust`), the queue is frozen just past it:
every later task is never started (runner untouched, `spawns = 0`,
`completed = 0`), and its entry in the final result list still holds the
initial `{name, code: undefined, retries: 0}` record whenever its name differs
from the failing task's name (an entry sharing the failing task's name is
overwritten by the reject path's `results.map`, as the counterexample
shows). -/
theorem c5_seq_after_failure_not_started (tasks : List String) (o : RunOpts)
    (sched : List (Nat × ChildEv)) (hr : 0 ≤ o.retry) (hEv : ∀ ev ∈ sched, EvOk ev)
    (hseq : SeqMode tasks o) (f : Nat) (b : Bool) (r : Int)
    (hfail : ((runTasksV1 tasks o sched).slots f).runner
      = RunnerSt.settled (.rejExhaust b) r)
    (i : Nat) (hfi : f < i) (hi : i < tasks.length) :
    ((runTasksV1 tasks o sched).slots i).runner = RunnerSt.notStarted
    ∧ ((runTasksV1 tasks o sched).slots i).spawns = 0
    ∧ ((runTasksV1 tasks o sched).slots i).completed = 0
    ∧ (tasks.getD f "" ≠ tasks.getD i "" →
        ((runTasksV1 tasks o sched).slots i).item
          = { name := tasks.getD i "", code := none, retries := 0, durationMs := 0 }) := by
  have h := @inv_run tasks o sched hr hEv
  have hrej := @seqRej_run tasks o sched hr hEv
  obtain ⟨hfn, -⟩ := hrej hseq f b r hfail
  have hlate : (runTasksV1 tasks o sched).nextIdx ≤ i := by omega
  have hns := (h.startedIff i).mpr hlate
  obtain ⟨hsp, hcp⟩ := h.fresh i hns
  obtain ⟨hc1, hc2⟩ := h.seqFresh hseq i hi hns
  refine ⟨hns, hsp, hcp, ?_⟩
  intro hnm
  cases herr : (runTasksV1 tasks o sched).err with
  | none => exact hc1 herr
  | some e =>
    refine hc2 e herr ?_
    obtain ⟨-, hone, hename⟩ := h.seqErr hseq e herr
    rw [hename]
    have hf2 : (runTasksV1 tasks o sched).nextIdx - 1 = f := by omega
    rw [hf2]
    intro hcon
    rw [Option.some.injEq] at hcon
    exact hnm hcon

/-- C5 witness: `["a", "b"]` sequential, `a` fails (its runner settles
`rejExhaust`), so `b` is never started and keeps its initial entry, `"a"` and
`"b"` being distinct names. -/
theorem c5_witness :
    ((runTasksV1 ["a", "b"] ⟨0, false, false, some 1, none, false⟩
        [(0, .closeEv (some 1))]).slots 1).runner = RunnerSt.notStarted
    ∧ ((runTasksV1 ["a", "b"] ⟨0, false, false, some 1, none, false⟩
        [(0, .closeEv (some 1))]).slots 1).spawns = 0
    ∧ ((runTasksV1 ["a", "b"] ⟨0, false, false, some 1, none, false⟩
        [(0, .closeEv (some 1))]).slots 1).completed = 0
    ∧ ((["a", "b"] : List String).getD 0 "" ≠ (["a", "b"] : List String).getD 1 "" →
        ((runTasksV1 ["a", "b"] ⟨0, false, false, some 1, none, false⟩
          [(0, .closeEv (some 1))]).slots 1).item
          = { name := (["a", "b"] : List String).getD 1 "", code := none, retries := 0,
              durationMs := 0 }) :=
  c5_seq_after_failure_not_started ["a", "b"] ⟨0, false, false, some 1, none, false⟩
    [(0, .closeEv (some 1))] (by decide)
    (by
      intro ev hev
      simp only [List.mem_singleton] at hev
      subst hev
      exact EvOk_of_close)
    (by
      refine ⟨rfl, rfl, ?_⟩
      rfl)
    0 false 0 (by rfl) 1 (by decide) (by decide)

/-- C7.  For every continue-on-error run over well-formed events, a task
settled by the resolve path with record `(broke, r)` reports
`retries = r` = (number of completed attempts) − 1, i.e. the 0-based index of
the last completed attempt; `r` equals the configured retry limit whenever the
loop was not broken by an abort, and `r` can differ from the limit only when an
abort broke the loop early. -/
theorem c7_retries_last_completed_attempt (tasks : List String) (o : RunOpts)
    (sched : List (Nat × ChildEv)) (hr : 0 ≤ o.retry) (hEv : ∀ ev ∈ sched, EvOk ev)
    (hcont : o.continueOnError = true) (i : Nat) (broke : Bool) (r : Int)
    (hrun : ((runTasksV1 tasks o sched).slots i).runner = .settled (.contExhaust broke) r) :
    ((runTasksV1 tasks o sched).slots i).item.retries = r
    ∧ r = (((runTasksV1 tasks o sched).slots i).completed : Int) - 1
    ∧ (broke = false → r = o.retry)
    ∧ (r ≠ o.retry → broke = true) := by
  have h := @inv_run tasks o sched hr hEv
  obtain ⟨g1, g2, g3⟩ := h.contSet hcont i broke r hrun
  refine ⟨g1, g2, g3, ?_⟩
  intro hne
  by_contra hb
  rw [Bool.not_eq_true] at hb
  exact hne (g3 hb)

/-- C7 witness: `--retry 1 --continue-on-error`, both attempts fail, the task
settles `contExhaust` with `retries = 1` = completed attempts − 1 = limit. -/
theorem c7_witness :
    ((runTasksV1 ["a"] ⟨1, true, false, none, none, false⟩
        [(0, .closeEv (some 1)), (0, .closeEv (some 1))]).slots 0).item.retries = 1
    ∧ (1 : Int) = (((runTasksV1 ["a"] ⟨1, true, false, none, none, false⟩
        [(0, .closeEv (some 1)), (0, .closeEv (some 1))]).slots 0).completed : Int) - 1
    ∧ (false = false → (1 : Int) = (⟨1, true, false, none, none, false⟩ : RunOpts).retry)
    ∧ ((1 : Int) ≠ (⟨1, true, false, none, none, false⟩ : RunOpts).retry → false = true) :=
  c7_retries_last_completed_attempt ["a"] ⟨1, true, false, none, none, false⟩
    [(0, .closeEv (some 1)), (0, .closeEv (some 1))] (by decide)
    (by
      intro ev hev
      simp only [List.mem_cons, List.mem_singleton, List.not_mem_nil, or_false] at hev
      rcases hev with rfl | rfl
      · exact EvOk_of_close
      · exact EvOk_of_close)
    rfl 0 false 1 (by rfl)
